import Mathlib

/-!
# Timetable optimizer: a shallow embedding of `TimetableOptimizer.js`

The definitions follow `src/backend/src/services/TimetableOptimizer.js` function by
function and keep its names.

Modelling conventions.

* Identifiers (`_id` of a subject, a faculty member, a classroom) are natural numbers; the
  program only ever compares them for equality (`===`, `toString() === toString()`,
  `includes`, object keys).  A field the program may find `undefined` is an `Option`.
* The inputs are documents of the database, whose `_id` is an object.  A session pushed by
  `createRandomSchedule` holds the `_id` objects of its faculty member and its classroom, and
  two such fields are `===` exactly when the identifiers are equal (the documents of a list
  have distinct identifiers).  A session placed by `placeFixedTimeSlots` (`isFixed`) reaches
  the search through the JSON copy of the base schedule, where its `classroom` is a string:
  it is `===` to the `classroom` of another such copy with the same identifier, and never to
  the `_id` object held by a generated session (`strictEqClassroom`).
* Times are strings, compared as JavaScript compares strings (`jsStrLe`).
* `Math.random()` is a stream `ρ : Nat → Nat` read through a cursor: the call
  `Math.floor(Math.random() * n)` is `ρ pos % n`, and `Math.random() < a / b` is
  `ρ pos % b < a`.  Every call advances the cursor by one, so each call has a draw of its own.
* Numbers that go through a division are `JsNum`: exact rationals plus `NaN`.
* A call either returns, throws, or is still running when its fuel is used up (`Res`).
  Fuel counts iterations of the `while` loop of `createRandomSchedule`, the only loop of the
  program whose trip count is not fixed in advance.
* Session objects pushed into a candidate are shared by reference between parents and
  offspring, so the genetic search works on a heap of sessions (`Heap`, `Ref`).
-/

namespace TimetableOptimizer

/-! ## Results of a call -/

/-- Outcome of a call: a normal return, a thrown exception, or fuel used up. -/
inductive Res (α : Type) where
  | ok (a : α)
  | thrown (msg : String)
  | outOfFuel

instance {α : Type} [DecidableEq α] : DecidableEq (Res α)
  | .ok a, .ok b => decidable_of_iff (a = b) ⟨fun h => by rw [h], fun h => Res.ok.inj h⟩
  | .thrown a, .thrown b => decidable_of_iff (a = b) ⟨fun h => by rw [h], fun h => Res.thrown.inj h⟩
  | .outOfFuel, .outOfFuel => isTrue rfl
  | .ok _, .thrown _ => isFalse (fun h => Res.noConfusion h)
  | .ok _, .outOfFuel => isFalse (fun h => Res.noConfusion h)
  | .thrown _, .ok _ => isFalse (fun h => Res.noConfusion h)
  | .thrown _, .outOfFuel => isFalse (fun h => Res.noConfusion h)
  | .outOfFuel, .ok _ => isFalse (fun h => Res.noConfusion h)
  | .outOfFuel, .thrown _ => isFalse (fun h => Res.noConfusion h)

/-- Sequencing of calls: the first throw or fuel exhaustion ends the run. -/
def Res.bind {α β : Type} (r : Res α) (f : α → Res β) : Res β :=
  match r with
  | .ok a => f a
  | .thrown m => .thrown m
  | .outOfFuel => .outOfFuel

/-- The message of the `TypeError` raised by reading a property of `undefined`. -/
def typeError : String := "TypeError"

/-! ## JavaScript numbers -/

/-- A JavaScript number as the program can produce it: an exact rational or `NaN`.
Rounding is not modelled.  The program divides by zero only in the form `0 / 0`. -/
inductive JsNum where
  | nan
  | num (q : ℚ)
  deriving DecidableEq

namespace JsNum

def add : JsNum → JsNum → JsNum
  | num a, num b => num (a + b)
  | _, _ => nan

def sub : JsNum → JsNum → JsNum
  | num a, num b => num (a - b)
  | _, _ => nan

def mul : JsNum → JsNum → JsNum
  | num a, num b => num (a * b)
  | _, _ => nan

/-- Division: `0 / 0` is `NaN`.  A division of a number other than zero by zero, which the
program never performs, is left as `NaN` too. -/
def div : JsNum → JsNum → JsNum
  | num a, num b => if b = 0 then nan else num (a / b)
  | _, _ => nan

/-- The call `Math.max(0, x)`: `NaN` when `x` is `NaN`. -/
def max0 : JsNum → JsNum
  | num a => num (max 0 a)
  | nan => nan

/-- The comparison `x < 0`, false for `NaN`. -/
def isNeg : JsNum → Bool
  | num a => decide (a < 0)
  | nan => false

def ofNat (n : Nat) : JsNum := num (n : ℚ)

end JsNum

/-! ## Random draws -/

/-- The call `Math.floor(Math.random() * n)` at cursor `pos`. -/
def randomIndex (ρ : Nat → Nat) (pos n : Nat) : Nat := ρ pos % n

/-- The test `Math.random() < a / b` at cursor `pos`. -/
def randomBelow (ρ : Nat → Nat) (pos a b : Nat) : Bool := decide (ρ pos % b < a)

/-! ## Data model -/

abbrev Id := Nat

inductive Day where
  | monday | tuesday | wednesday | thursday | friday | saturday
  deriving DecidableEq, Repr

/-- The field `this.days`. -/
def days : List Day :=
  [.monday, .tuesday, .wednesday, .thursday, .friday, .saturday]

def Day.name : Day → String
  | .monday => "monday"
  | .tuesday => "tuesday"
  | .wednesday => "wednesday"
  | .thursday => "thursday"
  | .friday => "friday"
  | .saturday => "saturday"

structure TimeSlot where
  startTime : String
  endTime : String
  deriving DecidableEq, Repr

/-- The field `this.timeSlots`, each entry already split at `-` into start and end. -/
def timeSlots : List TimeSlot :=
  [⟨"09:00", "10:00"⟩, ⟨"10:00", "11:00"⟩, ⟨"11:00", "12:00"⟩, ⟨"12:00", "13:00"⟩,
   ⟨"14:00", "15:00"⟩, ⟨"15:00", "16:00"⟩, ⟨"16:00", "17:00"⟩]

inductive ClassType where
  | theory | practical | tutorial | project | seminar
  deriving DecidableEq, Repr

inductive RoomType where
  | lecture_hall | laboratory | seminar_room | auditorium | tutorial_room
  deriving DecidableEq, Repr

/-- One entry of `availability[day].timeSlots`. -/
structure BlockedSlot where
  startTime : String
  endTime : String
  isBlocked : Bool
  deriving DecidableEq, Repr

/-- The object `availability[day]`. -/
structure DayAvailability where
  isAvailable : Bool
  timeSlots : List BlockedSlot
  deriving DecidableEq, Repr

/-- One entry of `subject.fixedTimeSlots`; the schema leaves `classroom` optional. -/
structure FixedSlot where
  day : Day
  startTime : String
  endTime : String
  classroom : Option Id
  deriving DecidableEq, Repr

structure ClassRequirements where
  classesPerWeek : Nat
  preferredClassroomType : RoomType
  minClassroomCapacity : Nat
  deriving DecidableEq, Repr

structure Subject where
  id : Id
  name : String
  type : ClassType
  classRequirements : ClassRequirements
  fixedTimeSlots : List FixedSlot
  deriving DecidableEq, Repr

structure Faculty where
  id : Id
  subjects : List Id
  availability : Day → Option DayAvailability

structure Classroom where
  id : Id
  type : RoomType
  capacity : Nat
  availability : Day → Option DayAvailability

/-- One session of a schedule.  A fixed placement carries no `faculty`; `isFixed` is false
where the property is absent. -/
structure ScheduledClass where
  timeSlot : TimeSlot
  subject : Id
  faculty : Option Id
  classroom : Option Id
  classType : ClassType
  isFixed : Bool
  deriving DecidableEq, Repr

instance : Inhabited ScheduledClass :=
  ⟨⟨⟨"", ""⟩, 0, none, none, .theory, false⟩⟩

/-- Two day-indexed families are equal when they agree on the six days. -/
instance dayFunDecEq {α : Type} [DecidableEq α] : DecidableEq (Day → α) := fun f g =>
  decidable_of_iff (days.map f = days.map g)
    ⟨fun h => by
      funext d
      simp only [days, List.map_cons, List.map_nil, List.cons.injEq, and_true] at h
      obtain ⟨h1, h2, h3, h4, h5, h6⟩ := h
      cases d <;> assumption,
     fun h => by rw [h]⟩

/-- A weekly schedule holding its sessions by value. -/
abbrev Schedule := Day → List ScheduledClass

inductive ConflictType where
  | faculty_clash | classroom_clash | student_clash | constraint_violation
  deriving DecidableEq, Repr

inductive Severity where
  | low | medium | high | critical | resolved
  deriving DecidableEq, Repr

structure Conflict where
  type : ConflictType
  description : String
  severity : Severity
  suggestions : List String
  deriving DecidableEq, Repr

/-- The object `constraints.lunchBreak`. -/
structure LunchBreak where
  startTime : Option String := none
  duration : Option Nat := none
  deriving DecidableEq, Repr

/-- The `constraints` object of the caller; every field may be absent.  The optimizer reads
`maxClassesPerDay` only. -/
structure Constraints where
  maxClassesPerDay : Option Nat := none
  startTime : Option String := none
  endTime : Option String := none
  lunchBreak : Option LunchBreak := none
  classDuration : Option Nat := none
  deriving DecidableEq, Repr

/-! ## Schedules by value -/

/-- The method `initializeSchedule`. -/
def initializeSchedule : Schedule := fun _ => []

/-- The statement `schedule[day].push(c)`. -/
def Schedule.push (schedule : Schedule) (day : Day) (c : ScheduledClass) : Schedule :=
  fun d => if d = day then schedule d ++ [c] else schedule d

/-- The call `Object.values(schedule)`: the day lists, Monday first. -/
def Schedule.values (schedule : Schedule) : List (List ScheduledClass) :=
  days.map schedule

/-! ## Fixed-slot placement -/

/-- The callback of `some` in `checkTimeSlotConflict`, for one entry of the day list. -/
def timeSlotConflictWith (timeSlot : String) (classroom : Option Id)
    (classInfo : ScheduledClass) : Res Bool :=
  if classInfo.timeSlot.startTime ++ "-" ++ classInfo.timeSlot.endTime = timeSlot then
    match classInfo.classroom, classroom with
    | some c, some c' => .ok (decide (c = c'))
    | _, _ => .thrown typeError
  else .ok false

/-- The method `checkTimeSlotConflict`: `some` stops at the first entry that matches. -/
def checkTimeSlotConflict : List ScheduledClass → String → Option Id → Res Bool
  | [], _, _ => .ok false
  | classInfo :: rest, timeSlot, classroom =>
    (timeSlotConflictWith timeSlot classroom classInfo).bind fun b =>
      if b then .ok true else checkTimeSlotConflict rest timeSlot classroom

/-- The conflict pushed by `placeFixedTimeSlots`. -/
def fixedSlotConflict (subject : Subject) (day : Day) (timeSlot : String) : Conflict :=
  { type := .classroom_clash
    description :=
      "Fixed time slot conflict for " ++ subject.name ++ " on " ++ day.name ++ " at " ++ timeSlot
    severity := .high
    suggestions := ["Consider changing fixed time slot", "Use different classroom"] }

/-- The session pushed by `placeFixedTimeSlots`. -/
def fixedSession (subject : Subject) (fixedSlot : FixedSlot) : ScheduledClass :=
  { timeSlot := ⟨fixedSlot.startTime, fixedSlot.endTime⟩
    subject := subject.id
    faculty := none
    classroom := fixedSlot.classroom
    classType := subject.type
    isFixed := true }

/-- The body of the inner loop of `placeFixedTimeSlots`, for one fixed slot. -/
def placeFixedSlot (subject : Subject) (st : Schedule × List Conflict) (fixedSlot : FixedSlot) :
    Res (Schedule × List Conflict) :=
  let timeSlot := fixedSlot.startTime ++ "-" ++ fixedSlot.endTime
  (checkTimeSlotConflict (st.1 fixedSlot.day) timeSlot fixedSlot.classroom).bind fun hasConflict =>
    if hasConflict then
      .ok (st.1, st.2 ++ [fixedSlotConflict subject fixedSlot.day timeSlot])
    else
      .ok (st.1.push fixedSlot.day (fixedSession subject fixedSlot), st.2)

/-- The inner loop of `placeFixedTimeSlots` over `subject.fixedTimeSlots`. -/
def placeFixedSlots (subject : Subject) :
    List FixedSlot → Schedule × List Conflict → Res (Schedule × List Conflict)
  | [], st => .ok st
  | fixedSlot :: rest, st =>
    (placeFixedSlot subject st fixedSlot).bind (placeFixedSlots subject rest)

/-- The method `placeFixedTimeSlots`: the schedule and the conflict list after the call. -/
def placeFixedTimeSlots :
    List Subject → Schedule × List Conflict → Res (Schedule × List Conflict)
  | [], st => .ok st
  | subject :: rest, st =>
    (placeFixedSlots subject subject.fixedTimeSlots st).bind (placeFixedTimeSlots rest)

/-! ## Availability and suitability -/

/-- Comparison `a <= b` of two JavaScript strings, code unit by code unit. -/
def jsCharsLe : List Char → List Char → Bool
  | [], _ => true
  | _ :: _, [] => false
  | a :: as, b :: bs =>
    if a.toNat < b.toNat then true
    else if b.toNat < a.toNat then false
    else jsCharsLe as bs

/-- The comparison `a <= b` on strings. -/
def jsStrLe (a b : String) : Bool := jsCharsLe a.toList b.toList

/-- The comparison `a > b` on strings. -/
def jsStrGt (a b : String) : Bool := !jsStrLe a b

/-- The callback `slot => slot.isBlocked && slot.startTime <= startTime &&
slot.endTime > startTime`. -/
def blocks (startTime : String) (slot : BlockedSlot) : Bool :=
  slot.isBlocked && jsStrLe slot.startTime startTime && jsStrGt slot.endTime startTime

/-- The test `x.availability[day]?.isAvailable &&
!x.availability[day]?.timeSlots?.some(...)`; a missing day entry is falsy. -/
def isFree (availability : Day → Option DayAvailability) (day : Day) (startTime : String) :
    Bool :=
  match availability day with
  | none => false
  | some a => a.isAvailable && !a.timeSlots.any (blocks startTime)

/-- The callback of `find` in `findSuitableFaculty`. -/
def facultySuits (subject : Subject) (day : Day) (startTime : String) (f : Faculty) : Bool :=
  decide (subject.id ∈ f.subjects) && isFree f.availability day startTime

/-- The method `findSuitableFaculty`. -/
def findSuitableFaculty (subject : Subject) (faculty : List Faculty) (day : Day)
    (startTime : String) : Option Faculty :=
  faculty.find? (facultySuits subject day startTime)

/-- The callback of `find` in `findSuitableClassroom`. -/
def classroomSuits (subject : Subject) (day : Day) (startTime : String) (c : Classroom) :
    Bool :=
  decide (c.type = subject.classRequirements.preferredClassroomType) &&
    decide (subject.classRequirements.minClassroomCapacity ≤ c.capacity) &&
    isFree c.availability day startTime

/-- The method `findSuitableClassroom`. -/
def findSuitableClassroom (subject : Subject) (classrooms : List Classroom) (day : Day)
    (startTime : String) : Option Classroom :=
  classrooms.find? (classroomSuits subject day startTime)

/-! ## Candidate generation -/

/-- The callback of `some` in `checkScheduleConflict`, for one entry of the day list:
`toString()` is called on `classInfo.faculty` once the time slot matches, and on
`classInfo.classroom` once the faculty differs. -/
def scheduleConflictWith (timeSlot : TimeSlot) (facultyId classroomId : Id)
    (classInfo : ScheduledClass) : Res Bool :=
  if classInfo.timeSlot.startTime = timeSlot.startTime ∧
      classInfo.timeSlot.endTime = timeSlot.endTime then
    match classInfo.faculty with
    | none => .thrown typeError
    | some f =>
      if f = facultyId then .ok true
      else
        match classInfo.classroom with
        | none => .thrown typeError
        | some c => .ok (decide (c = classroomId))
  else .ok false

/-- The method `checkScheduleConflict` on the day list `schedule[day]`. -/
def checkScheduleConflict : List ScheduledClass → TimeSlot → Id → Id → Res Bool
  | [], _, _, _ => .ok false
  | classInfo :: rest, timeSlot, facultyId, classroomId =>
    (scheduleConflictWith timeSlot facultyId classroomId classInfo).bind fun b =>
      if b then .ok true else checkScheduleConflict rest timeSlot facultyId classroomId

/-- The session pushed by `createRandomSchedule`. -/
def randomSession (subject : Subject) (timeSlot : TimeSlot) (f : Faculty) (c : Classroom) :
    ScheduledClass :=
  { timeSlot := timeSlot
    subject := subject.id
    faculty := some f.id
    classroom := some c.id
    classType := subject.type
    isFixed := false }

/-- The day drawn at cursor `pos`: `this.days[Math.floor(Math.random() * this.days.length)]`. -/
def randomDay (ρ : Nat → Nat) (pos : Nat) : Day :=
  days.getD (randomIndex ρ pos days.length) .monday

/-- The slot drawn at cursor `pos`, split into start and end. -/
def randomTimeSlot (ρ : Nat → Nat) (pos : Nat) : TimeSlot :=
  timeSlots.getD (randomIndex ρ pos timeSlots.length) ⟨"", ""⟩

/-- One attempt of the `while` loop of `createRandomSchedule`, up to the `break` test: the
schedule and the count of placed classes after the attempt.  It reads two draws. -/
def attempt (ρ : Nat → Nat) (faculty : List Faculty) (classrooms : List Classroom)
    (subject : Subject) (schedule : Schedule) (pos placedClasses : Nat) : Res (Schedule × Nat) :=
  let day := randomDay ρ pos
  let timeSlot := randomTimeSlot ρ (pos + 1)
  match findSuitableFaculty subject faculty day timeSlot.startTime,
      findSuitableClassroom subject classrooms day timeSlot.startTime with
  | some f, some c =>
    (checkScheduleConflict (schedule day) timeSlot f.id c.id).bind fun conflict =>
      if conflict then .ok (schedule, placedClasses)
      else .ok (schedule.push day (randomSession subject timeSlot f c), placedClasses + 1)
  | _, _ => .ok (schedule, placedClasses)

/-- The `while` loop of `createRandomSchedule` for one subject; `fuel` bounds the number of
attempts.  Returns the schedule and the cursor. -/
def placeLoop (ρ : Nat → Nat) (faculty : List Faculty) (classrooms : List Classroom)
    (subject : Subject) : Nat → Schedule → Nat → Nat → Res (Schedule × Nat)
  | 0, schedule, pos, placedClasses =>
    if placedClasses < subject.classRequirements.classesPerWeek then .outOfFuel
    else .ok (schedule, pos)
  | fuel + 1, schedule, pos, placedClasses =>
    if placedClasses < subject.classRequirements.classesPerWeek then
      match attempt ρ faculty classrooms subject schedule pos placedClasses with
      | .ok (schedule', placedClasses') =>
        if placedClasses' = 0 then .ok (schedule', pos + 2)
        else placeLoop ρ faculty classrooms subject fuel schedule' (pos + 2) placedClasses'
      | .thrown m => .thrown m
      | .outOfFuel => .outOfFuel
    else .ok (schedule, pos)

/-- The filter `s => !s.fixedTimeSlots || s.fixedTimeSlots.length === 0`. -/
def remainingSubjects (subjects : List Subject) : List Subject :=
  subjects.filter fun s => s.fixedTimeSlots.isEmpty

/-- The `for` loop of `createRandomSchedule` over the remaining subjects. -/
def placeSubjects (ρ : Nat → Nat) (faculty : List Faculty) (classrooms : List Classroom)
    (fuel : Nat) : List Subject → Schedule → Nat → Res (Schedule × Nat)
  | [], schedule, pos => .ok (schedule, pos)
  | subject :: rest, schedule, pos =>
    (placeLoop ρ faculty classrooms subject fuel schedule pos 0).bind fun r =>
      placeSubjects ρ faculty classrooms fuel rest r.1 r.2

/-- The method `createRandomSchedule`, started at cursor `pos`: the schedule of the new
individual (a deep copy of `baseSchedule` plus the placed sessions) and the cursor after the
call.  Each `while` loop may make up to `fuel` attempts. -/
def createRandomSchedule (fuel : Nat) (ρ : Nat → Nat) (pos : Nat) (baseSchedule : Schedule)
    (subjects : List Subject) (faculty : List Faculty) (classrooms : List Classroom) :
    Res (Schedule × Nat) :=
  placeSubjects ρ faculty classrooms fuel (remainingSubjects subjects) baseSchedule pos

/-! ## Conflict detection and fitness -/

/-- The method `detectConflicts`: the body declares an empty list and returns it. -/
def detectConflicts (_schedule : Schedule) (_faculty : List Faculty)
    (_classrooms : List Classroom) : List Conflict :=
  []

/-- The callback of `faculty.map` in `evaluateWorkloadBalance`: the sessions of `f`. -/
def totalHours (schedule : Schedule) (f : Faculty) : Nat :=
  schedule.values.foldl
    (fun total daySchedule =>
      total + (daySchedule.filter fun c => decide (c.faculty = some f.id)).length) 0

/-- The method `evaluateWorkloadBalance`. -/
def evaluateWorkloadBalance (schedule : Schedule) (faculty : List Faculty) : JsNum :=
  let workloads := faculty.map (totalHours schedule)
  let length := JsNum.ofNat workloads.length
  let average := (JsNum.ofNat (workloads.foldl (fun a b => a + b) 0)).div length
  let variance :=
    (workloads.foldl
      (fun acc hours =>
        acc.add (((JsNum.ofNat hours).sub average).mul ((JsNum.ofNat hours).sub average)))
      (JsNum.num 0)).div length
  ((JsNum.num 1).sub (variance.div (average.mul average))).max0

/-- The object `roomUsage`: its keys in insertion order, each with its counter. -/
abbrev RoomUsage := List (Id × Nat)

/-- The statement `roomUsage[room._id] = 0`. -/
def RoomUsage.setZero (roomUsage : RoomUsage) (k : Id) : RoomUsage :=
  if roomUsage.any (fun e => decide (e.1 = k)) then
    roomUsage.map fun e => if e.1 = k then (e.1, 0) else e
  else roomUsage ++ [(k, 0)]

/-- The statement `if (roomUsage[k] !== undefined) roomUsage[k]++`. -/
def RoomUsage.count (roomUsage : RoomUsage) (k : Option Id) : RoomUsage :=
  match k with
  | none => roomUsage
  | some k => roomUsage.map fun e => if e.1 = k then (e.1, e.2 + 1) else e

/-- The method `evaluateRoomUtilization`. -/
def evaluateRoomUtilization (schedule : Schedule) (classrooms : List Classroom) : JsNum :=
  let roomUsage : RoomUsage := classrooms.foldl (fun u room => u.setZero room.id) []
  let roomUsage := schedule.values.foldl
    (fun u daySchedule => daySchedule.foldl (fun u classInfo => u.count classInfo.classroom) u)
    roomUsage
  let totalSlots := timeSlots.length * days.length
  (JsNum.ofNat ((roomUsage.map Prod.snd).foldl (fun a b => a + b) 0)).div
    (JsNum.ofNat (classrooms.length * totalSlots))

/-- The expression `constraints.maxClassesPerDay || 6`: an absent value and `0` are falsy. -/
def maxClassesPerDay (constraints : Constraints) : Nat :=
  match constraints.maxClassesPerDay with
  | none => 6
  | some 0 => 6
  | some (n + 1) => n + 1

/-- The method `evaluateDailyLimits`. -/
def evaluateDailyLimits (schedule : Schedule) (constraints : Constraints) : Nat :=
  schedule.values.foldl
    (fun penalty daySchedule =>
      if daySchedule.length > maxClassesPerDay constraints then
        penalty + (daySchedule.length - maxClassesPerDay constraints)
      else penalty) 0

/-- The method `evaluateFitness`, on the schedule of the individual. -/
def evaluateFitness (schedule : Schedule) (faculty : List Faculty)
    (classrooms : List Classroom) (constraints : Constraints) : JsNum :=
  let score := JsNum.num 100
  let conflicts := detectConflicts schedule faculty classrooms
  let score := score.sub (JsNum.ofNat (conflicts.length * 10))
  let workloadBalance := evaluateWorkloadBalance schedule faculty
  let score := score.add (workloadBalance.mul (JsNum.num 20))
  let roomUtilization := evaluateRoomUtilization schedule classrooms
  let score := score.add (roomUtilization.mul (JsNum.num 15))
  let dailyLimitPenalty := evaluateDailyLimits schedule constraints
  let score := score.sub (JsNum.ofNat (dailyLimitPenalty * 5))
  score.max0

/-! ## Metrics and overall score -/

structure Metrics where
  classroomUtilization : JsNum
  facultyWorkloadBalance : JsNum
  studentSatisfaction : JsNum
  timeSlotEfficiency : JsNum
  deriving DecidableEq

/-- The method `calculateMetrics`. -/
def calculateMetrics (schedule : Schedule) (faculty : List Faculty)
    (classrooms : List Classroom) (_constraints : Constraints) : Metrics :=
  { classroomUtilization := evaluateRoomUtilization schedule classrooms
    facultyWorkloadBalance := evaluateWorkloadBalance schedule faculty
    studentSatisfaction := .num (85 / 100)
    timeSlotEfficiency := .num (90 / 100) }

/-- The method `calculateOverallScore`: the entries of `metrics` are folded in the order
they were written, each as `value * weight * 100`. -/
def calculateOverallScore (metrics : Metrics) : JsNum :=
  [(metrics.classroomUtilization, (25 / 100 : ℚ)),
   (metrics.facultyWorkloadBalance, (30 / 100 : ℚ)),
   (metrics.studentSatisfaction, (25 / 100 : ℚ)),
   (metrics.timeSlotEfficiency, (20 / 100 : ℚ))].foldl
    (fun score e => score.add ((e.1.mul (.num e.2)).mul (.num 100))) (.num 0)

/-! ## Session objects and individuals -/

/-- A reference to a session object. -/
abbrev Ref := Nat

/-- The session objects created so far, each at its reference. -/
abbrev Heap := List ScheduledClass

/-- The session object behind a reference. -/
def Heap.read (h : Heap) (r : Ref) : ScheduledClass := h.getD r default

/-- A weekly schedule as the search holds it: day lists of references to session objects. -/
abbrev RefSchedule := Day → List Ref

/-- An individual of the population; `fitness` is absent until the individual is evaluated. -/
structure Individual where
  schedule : RefSchedule
  fitness : Option JsNum

instance : DecidableEq Individual := fun a b =>
  decidable_of_iff (a.schedule = b.schedule ∧ a.fitness = b.fitness)
    ⟨fun h => by
      cases a; cases b
      simp only [Individual.mk.injEq]
      exact h,
     fun h => by rw [h]; exact ⟨rfl, rfl⟩⟩

instance : Inhabited Individual := ⟨⟨fun _ => [], none⟩⟩

/-- The sessions a schedule of references stands for. -/
def deref (h : Heap) (schedule : RefSchedule) : Schedule :=
  fun d => (schedule d).map h.read

/-- Fresh session objects for one day list of a new schedule. -/
def allocDay (schedule : Schedule) (st : Heap × RefSchedule) (day : Day) : Heap × RefSchedule :=
  (st.1 ++ schedule day,
   fun d => if d = day then List.range' st.1.length (schedule day).length else st.2 d)

/-- Fresh session objects for a new schedule: every session of an individual returned by
`createRandomSchedule` is an object of its own. -/
def allocSchedule (h : Heap) (schedule : Schedule) : Heap × RefSchedule :=
  days.foldl (allocDay schedule) (h, fun _ => [])

/-! ## Sorting -/

/-- Insertion of `x` into a list sorted by `cmp`: before the first element `y` with
`cmp(x, y) < 0`. -/
def insertSorted {α : Type} (cmp : α → α → JsNum) (x : α) : List α → List α
  | [] => [x]
  | y :: ys => if (cmp x y).isNeg then x :: y :: ys else y :: insertSorted cmp x ys

/-- The call `array.sort(cmp)`: a stable sort, here by insertion from the left.  A result of
`cmp` that is `NaN` counts as `0`. -/
def jsSort {α : Type} (cmp : α → α → JsNum) (l : List α) : List α :=
  l.foldl (fun sorted x => insertSorted cmp x sorted) []

/-- The value of `x.fitness` in arithmetic: `NaN` where the property is absent. -/
def Individual.fitnessValue (x : Individual) : JsNum := x.fitness.getD .nan

/-- The comparator `(a, b) => b.fitness - a.fitness`. -/
def byFitness (a b : Individual) : JsNum := b.fitnessValue.sub a.fitnessValue

/-! ## Selection, crossover, mutation -/

/-- The method `tournamentSelection` with `tournamentSize = 3`: the selected individual and
the cursor after the three draws. -/
def tournamentSelection (ρ : Nat → Nat) (pos : Nat) (population : List Individual) :
    Individual × Nat :=
  let tournament :=
    [population.getD (randomIndex ρ pos population.length) default,
     population.getD (randomIndex ρ (pos + 1) population.length) default,
     population.getD (randomIndex ρ (pos + 2) population.length) default]
  ((jsSort byFitness tournament).headD default, pos + 3)

/-- The test `a.classroom === b.classroom` on two sessions of the search.  The `classroom` of
a fixed session is the string of the JSON copy (or is absent), that of a generated session is
the `_id` object of the classroom document: two strings with the same identifier, two absent
fields, and two `_id` objects of the same document are equal; a string and an object are
not. -/
def strictEqClassroom (a b : ScheduledClass) : Bool :=
  decide (a.isFixed = b.isFixed) && decide (a.classroom = b.classroom)

/-- The method `hasTimeConflict`.  The `faculty` of a fixed session is absent and that of a
generated session is the `_id` object of the faculty document, so `===` on `faculty` fields is
equality of the optional identifiers. -/
def hasTimeConflict (daySchedule : List ScheduledClass) (newClass : ScheduledClass) : Bool :=
  daySchedule.any fun existingClass =>
    decide (existingClass.timeSlot.startTime = newClass.timeSlot.startTime) &&
    decide (existingClass.timeSlot.endTime = newClass.timeSlot.endTime) &&
    (decide (existingClass.faculty = newClass.faculty) ||
     strictEqClassroom existingClass newClass)

/-- The inner `forEach` of `crossover` over the pooled sessions of one day: the offspring day
list so far is `offspringDay`; one draw is read per pooled session. -/
def crossoverDay (h : Heap) (ρ : Nat → Nat) : List Ref → List Ref → Nat → List Ref × Nat
  | [], offspringDay, pos => (offspringDay, pos)
  | classInfo :: rest, offspringDay, pos =>
    if randomBelow ρ pos 1 2 && !hasTimeConflict (offspringDay.map h.read) (h.read classInfo) then
      crossoverDay h ρ rest (offspringDay ++ [classInfo]) (pos + 1)
    else crossoverDay h ρ rest offspringDay (pos + 1)

/-- The outer `forEach` of `crossover` over the days. -/
def crossoverDays (h : Heap) (ρ : Nat → Nat) (parent1 parent2 : RefSchedule) :
    List Day → RefSchedule → Nat → RefSchedule × Nat
  | [], offspring, pos => (offspring, pos)
  | day :: rest, offspring, pos =>
    let r := crossoverDay h ρ (parent1 day ++ parent2 day) [] pos
    crossoverDays h ρ parent1 parent2 rest (fun d => if d = day then r.1 else offspring d) r.2

/-- The method `crossover`: the schedule of the offspring and the cursor after the call. -/
def crossover (h : Heap) (ρ : Nat → Nat) (pos : Nat) (parent1 parent2 : RefSchedule) :
    RefSchedule × Nat :=
  crossoverDays h ρ parent1 parent2 days (fun _ => []) pos

/-- The method `mutate`: the assignment `randomClass.timeSlot = ...` writes to the session
object, whoever else holds it.  Returns the heap and the cursor after the call. -/
def mutate (h : Heap) (ρ : Nat → Nat) (pos : Nat) (schedule : RefSchedule) : Heap × Nat :=
  let day := randomDay ρ pos
  let daySchedule := schedule day
  if daySchedule.length > 0 then
    let randomClass := daySchedule.getD (randomIndex ρ (pos + 1) daySchedule.length) 0
    let newTimeSlot := randomTimeSlot ρ (pos + 2)
    (h.set randomClass { h.read randomClass with timeSlot := newTimeSlot }, pos + 3)
  else (h, pos + 1)

/-! ## The genetic search -/

def populationSize : Nat := 50

def generations : Nat := 100

/-- The value `Math.floor(populationSize * 0.2)`. -/
def eliteCount : Nat := populationSize * 2 / 10

/-- The state of the search between two statements: the session objects, the cursor of the
random stream and the population. -/
structure Search where
  heap : Heap
  pos : Nat
  population : List Individual

instance : DecidableEq Search := fun a b =>
  decidable_of_iff (a.heap = b.heap ∧ a.pos = b.pos ∧ a.population = b.population)
    ⟨fun h => by
      cases a; cases b
      simp only [Search.mk.injEq]
      exact h,
     fun h => by rw [h]; exact ⟨rfl, rfl, rfl⟩⟩

/-- The first loop of `optimizeWithGeneticAlgorithm`: `count` more individuals are created
and pushed. -/
def initialPopulation (fuel : Nat) (ρ : Nat → Nat) (baseSchedule : Schedule)
    (subjects : List Subject) (faculty : List Faculty) (classrooms : List Classroom) :
    Nat → Search → Res Search
  | 0, st => .ok st
  | count + 1, st =>
    (createRandomSchedule fuel ρ st.pos baseSchedule subjects faculty classrooms).bind fun r =>
      let a := allocSchedule st.heap r.1
      initialPopulation fuel ρ baseSchedule subjects faculty classrooms count
        { heap := a.1, pos := r.2, population := st.population ++ [⟨a.2, none⟩] }

/-- The statement `population = population.map(individual => ({...individual, fitness}))`. -/
def evaluatePopulation (h : Heap) (faculty : List Faculty) (classrooms : List Classroom)
    (constraints : Constraints) (population : List Individual) : List Individual :=
  population.map fun individual =>
    { individual with
      fitness := some (evaluateFitness (deref h individual.schedule) faculty classrooms
        constraints) }

/-- One iteration of the `while` loop that generates offspring: two tournaments, a
crossover, a mutation with probability `0.1`, and the push. -/
def offspringStep (ρ : Nat → Nat) (population : List Individual) (st : Search) : Search :=
  let t1 := tournamentSelection ρ st.pos population
  let t2 := tournamentSelection ρ t1.2 population
  let c := crossover st.heap ρ t2.2 t1.1.schedule t2.1.schedule
  let m :=
    if randomBelow ρ c.2 1 10 then mutate st.heap ρ (c.2 + 1) c.1 else (st.heap, c.2 + 1)
  { heap := m.1, pos := m.2, population := st.population ++ [⟨c.1, none⟩] }

/-- The `while (newPopulation.length < populationSize)` loop: every iteration pushes one
offspring, so it runs `count` times for `count` missing individuals.  The parents come from
`population`; `st.population` is `newPopulation`. -/
def offspringLoop (ρ : Nat → Nat) (population : List Individual) : Nat → Search → Search
  | 0, st => st
  | count + 1, st => offspringLoop ρ population count (offspringStep ρ population st)

/-- The population of a generation once evaluated and sorted. -/
def rankedPopulation (faculty : List Faculty) (classrooms : List Classroom)
    (constraints : Constraints) (st : Search) : List Individual :=
  jsSort byFitness (evaluatePopulation st.heap faculty classrooms constraints st.population)

/-- The body of the `for` loop over the generations. -/
def generation (ρ : Nat → Nat) (faculty : List Faculty) (classrooms : List Classroom)
    (constraints : Constraints) (st : Search) : Search :=
  let population := rankedPopulation faculty classrooms constraints st
  let newPopulation := population.take eliteCount
  offspringLoop ρ population (populationSize - newPopulation.length)
    { heap := st.heap, pos := st.pos, population := newPopulation }

/-- The state after `gen` iterations of the `for` loop over the generations. -/
def evolve (ρ : Nat → Nat) (faculty : List Faculty) (classrooms : List Classroom)
    (constraints : Constraints) : Nat → Search → Search
  | 0, st => st
  | gen + 1, st =>
    evolve ρ faculty classrooms constraints gen (generation ρ faculty classrooms constraints st)

/-- The state of the search when the `for` loop over the generations has run `gen` times. -/
def searchAfter (fuel : Nat) (ρ : Nat → Nat) (gen : Nat) (schedule : Schedule)
    (subjects : List Subject) (faculty : List Faculty) (classrooms : List Classroom)
    (constraints : Constraints) : Res Search :=
  (initialPopulation fuel ρ schedule subjects faculty classrooms populationSize
      { heap := [], pos := 0, population := [] }).bind fun st =>
    .ok (evolve ρ faculty classrooms constraints gen st)

/-- The last two statements of `optimizeWithGeneticAlgorithm`: the individual at the head of
the population sorted by the `fitness` fields it carries. -/
def bestIndividual (st : Search) : Individual :=
  (jsSort byFitness st.population).headD default

/-- The method `optimizeWithGeneticAlgorithm`: the sessions of the returned schedule. -/
def optimizeWithGeneticAlgorithm (fuel : Nat) (ρ : Nat → Nat) (schedule : Schedule)
    (subjects : List Subject) (faculty : List Faculty) (classrooms : List Classroom)
    (constraints : Constraints) : Res Schedule :=
  (searchAfter fuel ρ generations schedule subjects faculty classrooms constraints).bind
    fun st => .ok (deref st.heap (bestIndividual st).schedule)

/-! ## Entry point -/

structure OptimizationResult where
  schedule : Schedule
  score : JsNum
  metrics : Metrics
  conflicts : List Conflict

/-- The body of the `try` block of `generateOptimizedTimetable`. -/
def generateBody (fuel : Nat) (ρ : Nat → Nat) (constraints : Constraints)
    (subjects : List Subject) (faculty : List Faculty) (classrooms : List Classroom) :
    Res OptimizationResult :=
  (placeFixedTimeSlots subjects (initializeSchedule, [])).bind fun placed =>
    (optimizeWithGeneticAlgorithm fuel ρ placed.1 subjects faculty classrooms constraints).bind
      fun optimizedSchedule =>
        let metrics := calculateMetrics optimizedSchedule faculty classrooms constraints
        .ok { schedule := optimizedSchedule
              score := calculateOverallScore metrics
              metrics := metrics
              conflicts := placed.2.filter fun c => decide (c.severity ≠ .resolved) }

/-- The message of the error thrown by the `catch` block. -/
def failedMessage : String := "Failed to generate optimized timetable"

/-- The method `generateOptimizedTimetable`: whatever the `try` block throws is caught and
thrown again as `failedMessage`. -/
def generateOptimizedTimetable (fuel : Nat) (ρ : Nat → Nat) (constraints : Constraints)
    (subjects : List Subject) (faculty : List Faculty) (classrooms : List Classroom) :
    Res OptimizationResult :=
  match generateBody fuel ρ constraints subjects faculty classrooms with
  | .ok r => .ok r
  | .thrown _ => .thrown failedMessage
  | .outOfFuel => .outOfFuel

/-! ## Observations on a run -/

/-- The fitness of every individual of the population on which iteration `gen` of the loop
over the generations starts, in the order of the population. -/
def fitnessAt (fuel : Nat) (ρ : Nat → Nat) (gen : Nat) (schedule : Schedule)
    (subjects : List Subject) (faculty : List Faculty) (classrooms : List Classroom)
    (constraints : Constraints) : Res (List JsNum) :=
  (searchAfter fuel ρ gen schedule subjects faculty classrooms constraints).bind fun st =>
    .ok (st.population.map fun x =>
      evaluateFitness (deref st.heap x.schedule) faculty classrooms constraints)

/-- The stream `ρ` read from draw `k` on. -/
def shift (ρ : Nat → Nat) (k : Nat) : Nat → Nat := fun i => ρ (i + k)

/-- The state `st` with its cursor moved forward by `k`. -/
def Search.addPos (st : Search) (k : Nat) : Search := { st with pos := st.pos + k }

/-! ## Properties of schedules -/

/-- Two optional identifiers name the same entity. -/
def SameId (x y : Option Id) : Prop := ∃ i, x = some i ∧ y = some i

/-- Two sessions collide: identical time slot, and the same faculty id or the same classroom
id. -/
def Clash (a b : ScheduledClass) : Prop :=
  a.timeSlot = b.timeSlot ∧ (SameId a.faculty b.faculty ∨ SameId a.classroom b.classroom)

/-- Two sessions collide in the sense of `hasTimeConflict`: identical time slot, and `faculty`
fields that are `===` (two absent fields are) or `classroom` fields that are `===` (both of
fixed sessions or both of generated sessions, with equal identifiers or both absent). -/
def Overlap (a b : ScheduledClass) : Prop :=
  a.timeSlot = b.timeSlot ∧
    (a.faculty = b.faculty ∨ (a.isFixed = b.isFixed ∧ a.classroom = b.classroom))

/-- No two sessions of a day collide. -/
def CollisionFree (schedule : Schedule) : Prop :=
  ∀ d, (schedule d).Pairwise fun a b => ¬ Clash a b

/-- The daily limit as the design words it: the caller's value, or 6 when absent. -/
def statedLimit (constraints : Constraints) : Nat := constraints.maxClassesPerDay.getD 6

/-- The daily limit in force: the caller's value when it is not zero, else 6. -/
def effectiveLimit (constraints : Constraints) : Nat :=
  match constraints.maxClassesPerDay with
  | some n => if n = 0 then 6 else n
  | none => 6

/-- The fitness formula of the design for a daily limit `limit`:
`max(0, 100 − 10·|conflicts| + 20·balance + 15·utilization − 5·Σ_days max(0, sessions − limit))`.
-/
def fitnessFormula (limit : Nat) (schedule : Schedule) (faculty : List Faculty)
    (classrooms : List Classroom) : JsNum :=
  (((((JsNum.num 100).sub
        (JsNum.ofNat (10 * (detectConflicts schedule faculty classrooms).length))).add
      ((JsNum.num 20).mul (evaluateWorkloadBalance schedule faculty))).add
    ((JsNum.num 15).mul (evaluateRoomUtilization schedule classrooms))).sub
    (JsNum.ofNat (5 * (days.map fun d => (schedule d).length - limit).sum))).max0

/-- The number of sessions of a schedule, over the six days. -/
def totalSessions (schedule : Schedule) : Nat := (days.map fun d => (schedule d).length).sum

/-- The number of fixed slots of a list of subjects. -/
def totalFixedSlots (subjects : List Subject) : Nat :=
  (subjects.map fun s => s.fixedTimeSlots.length).sum

/-- What holds of a schedule and a conflict list built by the fixed-slot placer from slots
that all name a classroom: every session is fixed and names a classroom, no two sessions of
a day share time slot and classroom, and every conflict is a `classroom_clash` of severity
`high` with the two suggestions. -/
def FixedPlaced (st : Schedule × List Conflict) : Prop :=
  (∀ d, ∀ x ∈ st.1 d, x.isFixed = true ∧ x.classroom ≠ none) ∧
  (∀ d, (st.1 d).Pairwise fun a b => ¬ (a.timeSlot = b.timeSlot ∧ a.classroom = b.classroom)) ∧
  (∀ c ∈ st.2, c.type = .classroom_clash ∧ c.severity = .high ∧
    c.suggestions = ["Consider changing fixed time slot", "Use different classroom"])

/-! ## Sample inputs -/

/-- An availability with every day open and nothing blocked. -/
def alwaysFree : Day → Option DayAvailability := fun _ => some ⟨true, []⟩

/-- A faculty member authorized for subject `1`, free all week. -/
def sampleFaculty : Faculty := ⟨10, [1], alwaysFree⟩

/-- A faculty member authorized for subject `1`, away on Mondays. -/
def mondayOffFaculty : Faculty :=
  ⟨10, [1], fun d => if d = .monday then some ⟨false, []⟩ else some ⟨true, []⟩⟩

/-- A lecture hall of capacity 40, free all week. -/
def sampleClassroom : Classroom := ⟨20, .lecture_hall, 40, alwaysFree⟩

/-- A laboratory of capacity 25, free all week. -/
def sampleLaboratory : Classroom := ⟨21, .laboratory, 25, alwaysFree⟩

/-- Subject `1` without fixed slots, requiring `n` classes per week in a lecture hall. -/
def sampleSubject (n : Nat) : Subject := ⟨1, "Algebra", .theory, ⟨n, .lecture_hall, 30⟩, []⟩

/-- Subject `2`, pinned to Monday 09:00-10:00 in classroom `20`. -/
def fixedSubject : Subject :=
  ⟨2, "Physics", .theory, ⟨1, .lecture_hall, 30⟩, [⟨.monday, "09:00", "10:00", some 20⟩]⟩

/-- Subject `3` with two fixed slots on Monday 09:00-10:00, the second without a classroom. -/
def twiceFixedSubject : Subject :=
  ⟨3, "Chemistry", .practical, ⟨1, .laboratory, 20⟩,
    [⟨.monday, "09:00", "10:00", some 21⟩, ⟨.monday, "09:00", "10:00", none⟩]⟩

/-- The constraints of a caller who supplies `maxClassesPerDay: 0` and nothing else. -/
def zeroLimit : Constraints := { maxClassesPerDay := some 0 }

/-- The random stream whose every draw is `0`. -/
def zeroDraws : Nat → Nat := fun _ => 0

/-- The random stream whose draw number `i` is `i`. -/
def countingDraws : Nat → Nat := fun i => i

/-- The stream whose draw 98 is `1` and whose other draws are `0`. -/
def lateTuesdayDraws : Nat → Nat := fun i => if i = 98 then 1 else 0

/-- A Monday session at 09:00-10:00 of subject `1` with the sample faculty and classroom. -/
def mondaySession : ScheduledClass :=
  randomSession (sampleSubject 2) ⟨"09:00", "10:00"⟩ sampleFaculty sampleClassroom

/-- A session of subject `5` at the time, with the faculty member and in the classroom of
`mondaySession`. -/
def rivalSession : ScheduledClass := { mondaySession with subject := 5 }

/-- A schedule whose Monday holds `mondaySession` and `rivalSession`. -/
def doubleBooked : Schedule := fun d => if d = .monday then [mondaySession, rivalSession] else []

/-- A schedule whose only session is `mondaySession`. -/
def oneSession : Schedule := initializeSchedule.push .monday mondaySession

/-- The base schedule that holds the fixed slot of `fixedSubject`. -/
def fixedBase : Schedule :=
  initializeSchedule.push .monday (fixedSession fixedSubject ⟨.monday, "09:00", "10:00", some 20⟩)

/-- Subject `4`, pinned to Monday 10:00-11:00 in classroom `21`. -/
def pinnedSubject : Subject :=
  ⟨4, "Biology", .practical, ⟨1, .laboratory, 20⟩, [⟨.monday, "10:00", "11:00", some 21⟩]⟩

/-- The session `placeFixedTimeSlots` creates for `pinnedSubject`. -/
def pinnedSession : ScheduledClass :=
  fixedSession pinnedSubject ⟨.monday, "10:00", "11:00", some 21⟩

/-- The base schedule that holds `pinnedSession`. -/
def pinnedBase : Schedule := initializeSchedule.push .monday pinnedSession

/-- A schedule of references whose only sessions are those of `l`, on `day`. -/
def onDay (day : Day) (l : List Ref) : RefSchedule := fun d => if d = day then l else []

/-- The session objects of fifty candidates that each copy `pinnedSession` and place
`mondaySession`; `first` is the first object. -/
def pinnedHeap (first : ScheduledClass) : Heap :=
  first :: mondaySession :: (List.replicate 49 [pinnedSession, mondaySession]).flatten

/-- The fifty candidates over `pinnedHeap`, none evaluated. -/
def pinnedCandidates : List Individual :=
  (List.range 50).map fun i => ⟨onDay .monday [2 * i, 2 * i + 1], none⟩

/-- The population of the pinned run after a generation: ten evaluated candidates and forty
offspring that share the sessions of the first candidate. -/
def pinnedPopulation : List Individual :=
  ((List.range 10).map fun i =>
    (⟨onDay .monday [2 * i, 2 * i + 1], some (.num (1685 / 14))⟩ : Individual)) ++
    List.replicate 40 ⟨onDay .monday [0, 1], none⟩

/-- The state of the pinned run between two generations, at cursor `pos`: the first session
object now starts at 09:00. -/
def pinnedState (pos : Nat) : Search :=
  ⟨pinnedHeap { pinnedSession with timeSlot := ⟨"09:00", "10:00"⟩ }, pos, pinnedPopulation⟩

/-- The schedule the pinned run returns. -/
def pinnedResult : Schedule := fun d =>
  if d = .monday then [{ pinnedSession with timeSlot := ⟨"09:00", "10:00"⟩ }, mondaySession]
  else []

/-- The cursor at which the last generation of the late run starts: 100 draws for the first
population and 480 for each of 99 generations. -/
def lastGenerationStart : Nat := 100 + 480 * 99

/-- The stream of the late run: the second candidate draws slot 10:00-11:00, and in the last
generation the second tournament of the first offspring draws the individual of rank 1; every
other draw is `0`. -/
def lateCrossDraws : Nat → Nat := fun i =>
  if i = 3 then 1
  else if lastGenerationStart + 3 ≤ i ∧ i < lastGenerationStart + 6 then 1
  else 0

/-- The stream of the late run without its last generation. -/
def earlyDraws : Nat → Nat := fun i => if i = 3 then 1 else 0

/-- The draws of the last generation of the late run, read from its start. -/
def lastGenerationDraws : Nat → Nat := fun i => if 3 ≤ i ∧ i < 6 then 1 else 0

/-- The session the second candidate of the late run places. -/
def lateSession : ScheduledClass :=
  randomSession (sampleSubject 1) ⟨"10:00", "11:00"⟩ sampleFaculty sampleClassroom

/-- The session objects of the late run. -/
def lateHeap : Heap := mondaySession :: lateSession :: List.replicate 48 mondaySession

/-- The first population of the late run. -/
def lateCandidates : List Individual :=
  (List.range 50).map fun i => ⟨onDay .monday [i], none⟩

/-- The ten elite individuals of the late run, evaluated. -/
def lateElite : List Individual :=
  (List.range 10).map fun i => ⟨onDay .monday [i], some (.num (1685 / 14))⟩

/-- The state of the late run between two generations before the last, at cursor `pos`. -/
def lateState (pos : Nat) : Search :=
  ⟨lateHeap, pos, lateElite ++ List.replicate 40 ⟨onDay .monday [0], none⟩⟩

/-- The state of the late run after the last generation, at cursor `pos`: the first offspring
holds the sessions of both its parents. -/
def lateFinal (pos : Nat) : Search :=
  ⟨lateHeap, pos,
    lateElite ++ ⟨onDay .monday [0, 1], none⟩ :: List.replicate 39 ⟨onDay .monday [0], none⟩⟩

/-! ## Properties of availability and of appended sessions -/

/-- The order `a <= b` of two time strings, as the program compares them. -/
def TimeLe (a b : String) : Prop := jsStrLe a b = true

/-- The order `a < b` of two time strings, as the program compares them (`b > a`). -/
def TimeLt (a b : String) : Prop := jsStrGt b a = true

/-- The decimal digit `d` as a character. -/
def digitChar (d : Nat) : Char := Char.ofNat (48 + d)

/-- The zero-padded 24-hour text `HH:MM` of the time `h` hours `m` minutes. -/
def clockText (h m : Nat) : String :=
  ⟨[digitChar (h / 10), digitChar (h % 10), ':', digitChar (m / 10), digitChar (m % 10)]⟩

/-- The day flag of an entity is open on `day` (a missing entry or flag is not open). -/
def DayOpen (availability : Day → Option DayAvailability) (day : Day) : Prop :=
  ∃ a, availability day = some a ∧ a.isAvailable = true

/-- A blocked sub-interval of `day` covers `startTime`:
`blockedStart <= startTime < blockedEnd`. -/
def Covered (availability : Day → Option DayAvailability) (day : Day) (startTime : String) :
    Prop :=
  ∃ a, availability day = some a ∧
    ∃ slot ∈ a.timeSlots, slot.isBlocked = true ∧ TimeLe slot.startTime startTime ∧
      TimeLt startTime slot.endTime

/-- The entity is free at `day` and `startTime`: day flag open and no blocked sub-interval
covering `startTime`. -/
def FreeAt (availability : Day → Option DayAvailability) (day : Day) (startTime : String) :
    Prop :=
  DayOpen availability day ∧ ¬ Covered availability day startTime

/-- The faculty member `f` is a valid teacher of a session of `subject` at `day` and
`startTime`. -/
def FacultyFits (subject : Subject) (day : Day) (startTime : String) (f : Faculty) : Prop :=
  subject.id ∈ f.subjects ∧ FreeAt f.availability day startTime

/-- The classroom `c` is a valid room of a session of `subject` at `day` and `startTime`. -/
def ClassroomFits (subject : Subject) (day : Day) (startTime : String) (c : Classroom) :
    Prop :=
  c.type = subject.classRequirements.preferredClassroomType ∧
    subject.classRequirements.minClassroomCapacity ≤ c.capacity ∧
    FreeAt c.availability day startTime

/-- The session `x` on `day` is a valid assignment for one of the subjects without fixed
slots: catalog slot, listed faculty member who fits, listed classroom that fits. -/
def ValidAssignment (subjects : List Subject) (faculty : List Faculty)
    (classrooms : List Classroom) (day : Day) (x : ScheduledClass) : Prop :=
  day ∈ days ∧ x.timeSlot ∈ timeSlots ∧
    ∃ s ∈ subjects, s.fixedTimeSlots = [] ∧ x.subject = s.id ∧ x.classType = s.type ∧
      (∃ f ∈ faculty, x.faculty = some f.id ∧ FacultyFits s day x.timeSlot.startTime f) ∧
      (∃ c ∈ classrooms, x.classroom = some c.id ∧ ClassroomFits s day x.timeSlot.startTime c)

/-- The number of sessions of subject `i` in a schedule, over the six days. -/
def sessionsOf (i : Id) (schedule : Schedule) : Nat :=
  (days.map fun d => ((schedule d).filter fun c => decide (c.subject = i)).length).sum

/-- The schedule `result` extends `schedule` by sessions that satisfy `P`. -/
def ExtendsBy (P : Day → ScheduledClass → Prop) (schedule result : Schedule) : Prop :=
  ∀ d, ∃ added, result d = schedule d ++ added ∧ ∀ x ∈ added, P d x

/-- The classes per week the subjects of `subjects` with identifier `i` require together. -/
def requiredOf (i : Id) (subjects : List Subject) : Nat :=
  ((subjects.filter fun s => decide (s.id = i)).map fun s =>
    s.classRequirements.classesPerWeek).sum

/-- The candidate built from `fixedBase` with draws Monday 10:00-11:00 and Wednesday
12:00-13:00 for the two classes of subject `1`. -/
def sampleCandidate : Schedule :=
  (fixedBase.push .monday
    (randomSession (sampleSubject 2) ⟨"10:00", "11:00"⟩ sampleFaculty sampleClassroom)).push
    .wednesday
    (randomSession (sampleSubject 2) ⟨"12:00", "13:00"⟩ sampleFaculty sampleClassroom)

/-- The fields of a session that `mutate` leaves alone. -/
def ScheduledClass.frame (x : ScheduledClass) :
    Id × Option Id × Option Id × ClassType × Bool :=
  (x.subject, x.faculty, x.classroom, x.classType, x.isFixed)

/-- An individual whose only session is on Tuesday. -/
def tuesdayOnly : RefSchedule := onDay .tuesday [0]

/-! ## Properties of the search -/

/-- Every reference held by the population names a session object of the heap. -/
def RefsValid (st : Search) : Prop :=
  ∀ x ∈ st.population, ∀ d, ∀ r ∈ x.schedule d, r < st.heap.length

/-- No day and slot start has both a suitable faculty member and a suitable classroom for
`subject`. -/
def Unplaceable (subject : Subject) (faculty : List Faculty) (classrooms : List Classroom) :
    Prop :=
  ∀ d t, findSuitableFaculty subject faculty d t = none ∨
    findSuitableClassroom subject classrooms d t = none

/-- A faculty member authorized for subject `2` only, free all week. -/
def otherFaculty : Faculty := ⟨11, [2], alwaysFree⟩

/-- The session `x` is one of subject `s`, taught by `f` in classroom `c`. -/
def Assigned (s : Subject) (f : Faculty) (c : Classroom) (x : ScheduledClass) : Prop :=
  x.subject = s.id ∧ x.faculty = some f.id ∧ x.classroom = some c.id

/-- The first individual of the population holds a session. -/
def HeadPlaced (st : Search) : Prop :=
  ∃ x rest, st.population = x :: rest ∧ ∃ d, x.schedule d ≠ []

/-- The first individual of the population carries a fitness that is a number. -/
def HeadNumeric (st : Search) : Prop :=
  ∃ x rest q, st.population = x :: rest ∧ x.fitness = some (.num q)

/-- Every individual that carries a fitness that is a number holds a session. -/
def Evaluated (st : Search) : Prop :=
  ∀ x ∈ st.population, ∀ q, x.fitness = some (.num q) → ∃ d, x.schedule d ≠ []

/-- Every day of the availability is open and none of its intervals is blocked. -/
def FullyAvailable (availability : Day → Option DayAvailability) : Prop :=
  ∀ d, ∃ a, availability d = some a ∧ a.isAvailable = true ∧
    ∀ s ∈ a.timeSlots, s.isBlocked = false

/-! ## Sample runs of the search -/

/-- The result of the late run: its schedule is `oneSession`. -/
def lateResult : OptimizationResult :=
  { schedule := oneSession
    score := calculateOverallScore (calculateMetrics oneSession [sampleFaculty]
      [sampleClassroom] {})
    metrics := calculateMetrics oneSession [sampleFaculty] [sampleClassroom] {}
    conflicts := [] }

/-- The stream of the doubled run: the second candidate draws slot 10:00-11:00, and in the
first generation the second tournament of the first offspring draws the individual of rank 1;
every other draw is `0`. -/
def doubledDraws : Nat → Nat := fun i =>
  if i = 3 then 1 else if 103 ≤ i ∧ i < 106 then 1 else 0

/-- The offspring of the doubled run that holds the sessions of both its parents, evaluated. -/
def doubledElite : Individual := ⟨onDay .monday [0, 1], some (.num (845 / 7))⟩

/-- The state of the doubled run after its second generation, at cursor `pos`. -/
def doubledSecond (pos : Nat) : Search :=
  ⟨lateHeap, pos,
    doubledElite :: lateElite.take 9 ++ List.replicate 40 ⟨onDay .monday [0, 1], none⟩⟩

/-- The state of the doubled run between two later generations, at cursor `pos`. -/
def doubledState (pos : Nat) : Search :=
  ⟨lateHeap, pos,
    List.replicate 10 doubledElite ++ List.replicate 40 ⟨onDay .monday [0, 1], none⟩⟩

/-- The schedule the doubled run returns: two sessions of subject `1` on Monday. -/
def doubledSchedule : Schedule := fun d =>
  if d = .monday then [mondaySession, lateSession] else []

/-- The result of the doubled run. -/
def doubledResult : OptimizationResult :=
  { schedule := doubledSchedule
    score := calculateOverallScore (calculateMetrics doubledSchedule [sampleFaculty]
      [sampleClassroom] {})
    metrics := calculateMetrics doubledSchedule [sampleFaculty] [sampleClassroom] {}
    conflicts := [] }

/-- The fitness of `x` is a number. -/
def Numeric (x : Individual) : Prop := ∃ q, x.fitness = some (.num q)

/-- The fitness of `a` and that of `b` are numbers, and that of `a` is at least that of `b`. -/
def FitnessGe (a b : Individual) : Prop :=
  ∃ p q, a.fitness = some (.num p) ∧ b.fitness = some (.num q) ∧ q ≤ p

/-- The array `tournament` of `tournamentSelection`: the three sampled individuals. -/
def tournament (ρ : Nat → Nat) (pos : Nat) (population : List Individual) : List Individual :=
  [population.getD (randomIndex ρ pos population.length) default,
   population.getD (randomIndex ρ (pos + 1) population.length) default,
   population.getD (randomIndex ρ (pos + 2) population.length) default]

/-- Three individuals of fitness 1, 3 and 2. -/
def threeRanked : List Individual :=
  [⟨onDay .monday [0], some (.num 1)⟩, ⟨onDay .monday [1], some (.num 3)⟩,
   ⟨onDay .monday [2], some (.num 2)⟩]

/-- The first population of the pinned run, before its first generation. -/
def pinnedStart : Search := ⟨pinnedHeap pinnedSession, 100, pinnedCandidates⟩

/-- The number of sessions of a schedule, over the six days, whose classroom is one of the
listed classrooms. -/
def listedSessions (schedule : Schedule) (classrooms : List Classroom) : Nat :=
  (days.map fun d =>
    ((schedule d).filter fun c =>
      decide (c.classroom ∈ classrooms.map fun r => some r.id)).length).sum

/-- The fixed slots of a classroom booked every hour from 09:00 to 17:00, the hour from 13:00
to 14:00 included, on all six days. -/
def crowdedSlots : List FixedSlot :=
  days.flatMap fun d =>
    (List.range 8).map fun i => ⟨d, clockText (9 + i) 0, clockText (10 + i) 0, some 20⟩

/-- Subject `6`, pinned to every slot of `crowdedSlots` in classroom `20`. -/
def crowdedSubject : Subject :=
  ⟨6, "Studio", .project, ⟨48, .lecture_hall, 30⟩, crowdedSlots⟩

/-- The schedule the fixed-slot placer builds for `crowdedSubject`: eight sessions a day. -/
def crowded : Schedule := fun d =>
  (List.range 8).map fun i =>
    fixedSession crowdedSubject ⟨d, clockText (9 + i) 0, clockText (10 + i) 0, some 20⟩

/-- The session counts of the design: for each listed faculty member, the number of sessions
over the six days whose faculty id is that member's. -/
def sessionCounts (schedule : Schedule) (faculty : List Faculty) : List ℚ :=
  faculty.map fun f =>
    (((days.map fun d =>
      ((schedule d).filter fun c => decide (c.faculty = some f.id)).length).sum : Nat) : ℚ)

/-- The mean of a list of numbers. -/
def mean (c : List ℚ) : ℚ := c.sum / c.length

/-- The population variance of a list of numbers. -/
def variance (c : List ℚ) : ℚ := (c.map fun x => (x - mean c) ^ 2).sum / c.length

/-- The workload balance as the design states it: `max(0, 1 − variance(c) / mean(c)²)`. -/
def balanceFormula (c : List ℚ) : ℚ := max 0 (1 - variance c / mean c ^ 2)

/-- The overall score as the design states it:
`100 × (0.25 × utilization + 0.30 × balance + 0.25 × 0.85 + 0.20 × 0.90)`. -/
def scoreFormula (utilization balance : JsNum) : JsNum :=
  (JsNum.num 100).mul
    (((((JsNum.num (25 / 100)).mul utilization).add ((JsNum.num (30 / 100)).mul balance)).add
      ((JsNum.num (25 / 100)).mul (.num (85 / 100)))).add
      ((JsNum.num (20 / 100)).mul (.num (90 / 100))))

/-- Constraints of a caller whose day runs from 10:00 to 16:00 with a lunch break of 60 minutes
at 12:00. -/
def boundedDay : Constraints :=
  { startTime := some "10:00", endTime := some "16:00",
    lunchBreak := some { startTime := some "12:00", duration := some 60 } }

/-- The session objects of two parents: one session at 09:00 and one at 10:00. -/
def parentHeap : Heap := [mondaySession, lateSession]

/-- The stream whose draw 4 is `2` and whose other draws are `0`. -/
def slotDraws : Nat → Nat := fun i => if i = 4 then 2 else 0

/-- The fixed session of `fixedSubject`, as every candidate holds it: Monday 09:00-10:00 in
classroom `20`, no faculty. -/
def fixedCopy : ScheduledClass :=
  fixedSession fixedSubject ⟨.monday, "09:00", "10:00", some 20⟩

/-- The stream whose draw 1 is `1` and whose other draws are `0`. -/
def clashDraws : Nat → Nat := fun i => if i = 1 then 1 else 0

/-! ## Conflict detection (C1) -/

/-- Claim C1, evaluated on a failing input: Monday of `doubleBooked` holds two sessions of
different subjects with the same time slot, the same faculty id and the same classroom id, and
`detectConflicts` returns the empty list, so neither a `faculty_clash` nor a `classroom_clash`
is reported. -/
theorem detectConflicts_misses_clash :
    doubleBooked .monday = [mondaySession, rivalSession] ∧
      mondaySession.timeSlot = rivalSession.timeSlot ∧
      mondaySession.faculty = some 10 ∧ rivalSession.faculty = some 10 ∧
      mondaySession.classroom = some 20 ∧ rivalSession.classroom = some 20 ∧
      detectConflicts doubleBooked [sampleFaculty] [sampleClassroom] = [] :=
  ⟨rfl, rfl, rfl, rfl, rfl, rfl, rfl⟩

/-! ## Termination of candidate generation (C2) -/

theorem attempt_zeroDraws_first (pos : Nat) :
    attempt zeroDraws [sampleFaculty] [sampleClassroom] (sampleSubject 2)
      initializeSchedule pos 0 = .ok (oneSession, 1) := by
  rfl

theorem attempt_zeroDraws_taken (pos : Nat) :
    attempt zeroDraws [sampleFaculty] [sampleClassroom] (sampleSubject 2) oneSession pos 1 =
      .ok (oneSession, 1) := by
  rfl

theorem placeLoop_zeroDraws_stuck (fuel pos : Nat) :
    placeLoop zeroDraws [sampleFaculty] [sampleClassroom] (sampleSubject 2) fuel oneSession
      pos 1 = .outOfFuel := by
  induction fuel generalizing pos with
  | zero => rfl
  | succ n ih =>
    rw [placeLoop]
    rw [if_pos (by decide), attempt_zeroDraws_taken]
    simpa using ih (pos + 2)

/-- Claim C2, evaluated on a failing input: one subject requiring two classes per week, one
faculty member, one classroom, and a stream that always draws Monday 09:00-10:00.  The first
attempt places a session, every later attempt collides with it, and the `while` loop is still
running after any number `fuel` of attempts: no bound on the attempts holds for all draws. -/
theorem createRandomSchedule_unbounded (fuel : Nat) :
    createRandomSchedule fuel zeroDraws 0 initializeSchedule [sampleSubject 2] [sampleFaculty]
      [sampleClassroom] = .outOfFuel := by
  cases fuel with
  | zero => rfl
  | succ n =>
    simp only [createRandomSchedule, remainingSubjects, sampleSubject, List.filter, List.isEmpty,
      placeSubjects]
    rw [placeLoop]
    rw [if_pos (by decide)]
    have h1 := attempt_zeroDraws_first 0
    simp only [sampleSubject] at h1
    rw [h1]
    have h2 := placeLoop_zeroDraws_stuck n 2
    simp only [sampleSubject] at h2
    simp [h2, Res.bind]

/-! ## Collision freedom of candidate generation (C3) -/

theorem initializeSchedule_collisionFree : CollisionFree initializeSchedule :=
  fun _ => List.Pairwise.nil

theorem checkScheduleConflict_false {l : List ScheduledClass} {ts : TimeSlot} {f c : Id}
    (h : checkScheduleConflict l ts f c = .ok false) :
    ∀ e ∈ l, e.timeSlot = ts → e.faculty ≠ some f ∧ e.classroom ≠ some c := by
  induction l with
  | nil => intro e he; cases he
  | cons x xs ih =>
    intro e he hts
    simp only [checkScheduleConflict, scheduleConflictWith] at h
    by_cases hx : x.timeSlot.startTime = ts.startTime ∧ x.timeSlot.endTime = ts.endTime
    · rw [if_pos hx] at h
      cases hxf : x.faculty with
      | none => rw [hxf] at h; simp [Res.bind] at h
      | some f' =>
        rw [hxf] at h
        by_cases hff : f' = f
        · simp [hff, Res.bind] at h
        · cases hxc : x.classroom with
          | none => rw [hxc] at h; simp [hff, Res.bind] at h
          | some c' =>
            rw [hxc] at h
            by_cases hcc : c' = c
            · simp [hff, hcc, Res.bind] at h
            · simp only [if_neg hff, Res.bind, decide_eq_true_eq, if_neg hcc] at h
              rcases List.mem_cons.1 he with rfl | he'
              · rw [hxf, hxc]
                exact ⟨by simpa using hff, by simpa using hcc⟩
              · exact ih h e he' hts
    · rw [if_neg hx] at h
      simp only [Res.bind, Bool.false_eq_true, if_false] at h
      rcases List.mem_cons.1 he with rfl | he'
      · exact absurd ⟨by rw [hts], by rw [hts]⟩ hx
      · exact ih h e he' hts

theorem collisionFree_push {schedule : Schedule} {day : Day} {x : ScheduledClass}
    (hs : CollisionFree schedule) (hx : ∀ e ∈ schedule day, ¬ Clash e x) :
    CollisionFree (schedule.push day x) := by
  intro d
  unfold Schedule.push
  by_cases hd : d = day
  · subst hd
    simp only [if_true]
    rw [List.pairwise_append]
    exact ⟨hs d, List.pairwise_singleton _ _, fun a ha b hb => by
      rw [List.mem_singleton.1 hb]; exact hx a ha⟩
  · simp only [if_neg hd]
    exact hs d

theorem attempt_collisionFree {ρ : Nat → Nat} {faculty : List Faculty}
    {classrooms : List Classroom} {subject : Subject} {schedule schedule' : Schedule}
    {pos placed placed' : Nat} (hs : CollisionFree schedule)
    (h : attempt ρ faculty classrooms subject schedule pos placed = .ok (schedule', placed')) :
    CollisionFree schedule' := by
  unfold attempt at h
  simp only at h
  split at h
  · rename_i f c _ _
    cases hc : checkScheduleConflict (schedule (randomDay ρ pos)) (randomTimeSlot ρ (pos + 1))
        f.id c.id with
    | ok b =>
      rw [hc] at h
      cases b with
      | true =>
        simp only [Res.bind, if_true, Res.ok.injEq, Prod.mk.injEq] at h
        rw [← h.1]; exact hs
      | false =>
        simp only [Res.bind, Bool.false_eq_true, if_false, Res.ok.injEq, Prod.mk.injEq] at h
        rw [← h.1]
        apply collisionFree_push hs
        intro e he hcl
        have := checkScheduleConflict_false hc e he hcl.1
        rcases hcl.2 with ⟨i, h1, h2⟩ | ⟨i, h1, h2⟩
        · simp only [randomSession] at h2
          exact this.1 (by rw [h1, h2])
        · simp only [randomSession] at h2
          exact this.2 (by rw [h1, h2])
    | thrown m => rw [hc] at h; simp [Res.bind] at h
    | outOfFuel => rw [hc] at h; simp [Res.bind] at h
  · simp only [Res.ok.injEq, Prod.mk.injEq] at h
    rw [← h.1]; exact hs

theorem placeLoop_collisionFree {ρ : Nat → Nat} {faculty : List Faculty}
    {classrooms : List Classroom} {subject : Subject} (fuel : Nat) :
    ∀ {schedule schedule' : Schedule} {pos pos' placed : Nat}, CollisionFree schedule →
      placeLoop ρ faculty classrooms subject fuel schedule pos placed = .ok (schedule', pos') →
      CollisionFree schedule' := by
  induction fuel with
  | zero =>
    intro schedule schedule' pos pos' placed hs h
    unfold placeLoop at h
    split at h
    · cases h
    · simp only [Res.ok.injEq, Prod.mk.injEq] at h
      rw [← h.1]; exact hs
  | succ n ih =>
    intro schedule schedule' pos pos' placed hs h
    unfold placeLoop at h
    split at h
    · split at h
      · rename_i s1 p1 ha
        have hs1 := attempt_collisionFree hs ha
        split at h
        · simp only [Res.ok.injEq, Prod.mk.injEq] at h
          rw [← h.1]; exact hs1
        · exact ih hs1 h
      · cases h
      · cases h
    · simp only [Res.ok.injEq, Prod.mk.injEq] at h
      rw [← h.1]; exact hs

theorem placeSubjects_collisionFree {ρ : Nat → Nat} {faculty : List Faculty}
    {classrooms : List Classroom} {fuel : Nat} (subjects : List Subject) :
    ∀ {schedule schedule' : Schedule} {pos pos' : Nat}, CollisionFree schedule →
      placeSubjects ρ faculty classrooms fuel subjects schedule pos = .ok (schedule', pos') →
      CollisionFree schedule' := by
  induction subjects with
  | nil =>
    intro schedule schedule' pos pos' hs h
    simp only [placeSubjects, Res.ok.injEq, Prod.mk.injEq] at h
    rw [← h.1]; exact hs
  | cons s rest ih =>
    intro schedule schedule' pos pos' hs h
    simp only [placeSubjects] at h
    cases hl : placeLoop ρ faculty classrooms s fuel schedule pos 0 with
    | ok r =>
      rw [hl] at h
      simp only [Res.bind] at h
      exact ih (placeLoop_collisionFree fuel hs (by rw [hl])) h
    | thrown m => rw [hl] at h; simp [Res.bind] at h
    | outOfFuel => rw [hl] at h; simp [Res.bind] at h

/-- Claim C3: if no two sessions of a day of the base schedule have an identical time slot
together with the same faculty id or the same classroom id, and `createRandomSchedule`
returns, then the returned schedule has no two such sessions either. -/
theorem createRandomSchedule_collisionFree (fuel : Nat) (ρ : Nat → Nat) (pos : Nat)
    (baseSchedule : Schedule) (subjects : List Subject) (faculty : List Faculty)
    (classrooms : List Classroom) (schedule : Schedule) (pos' : Nat)
    (hbase : CollisionFree baseSchedule)
    (hret : createRandomSchedule fuel ρ pos baseSchedule subjects faculty classrooms =
      .ok (schedule, pos')) :
    CollisionFree schedule :=
  placeSubjects_collisionFree _ hbase hret

theorem fixedBase_collisionFree : CollisionFree fixedBase := by
  intro d
  unfold fixedBase Schedule.push initializeSchedule
  split <;> simp

/-- Witness for claim C3: from the base schedule holding the fixed slot of `fixedSubject`,
with draws Monday 10:00-11:00 and Wednesday 12:00-13:00, `createRandomSchedule` returns
after two attempts and the returned schedule is collision-free. -/
theorem createRandomSchedule_collisionFree_witness :
    CollisionFree fixedBase ∧
      createRandomSchedule 2 countingDraws 0 fixedBase [fixedSubject, sampleSubject 2]
        [sampleFaculty] [sampleClassroom] =
        .ok ((fixedBase.push .monday
            (randomSession (sampleSubject 2) ⟨"10:00", "11:00"⟩ sampleFaculty
              sampleClassroom)).push .wednesday
            (randomSession (sampleSubject 2) ⟨"12:00", "13:00"⟩ sampleFaculty sampleClassroom),
          4) ∧
      CollisionFree ((fixedBase.push .monday
            (randomSession (sampleSubject 2) ⟨"10:00", "11:00"⟩ sampleFaculty
              sampleClassroom)).push .wednesday
            (randomSession (sampleSubject 2) ⟨"12:00", "13:00"⟩ sampleFaculty sampleClassroom)) :=
  ⟨fixedBase_collisionFree, rfl,
    createRandomSchedule_collisionFree 2 countingDraws 0 fixedBase
      [fixedSubject, sampleSubject 2] [sampleFaculty] [sampleClassroom] _ 4
      fixedBase_collisionFree rfl⟩

/-! ## Fixed-slot placement (C4) -/

/-- Claim C4, evaluated on a failing input: a subject with two fixed slots on Monday
09:00-10:00, the second without a classroom.  The first slot is placed; on the second,
`checkTimeSlotConflict` calls `toString()` on the missing classroom and the call throws, so
the slot is neither placed nor reported as a conflict. -/
theorem placeFixedTimeSlots_throws :
    placeFixedSlot twiceFixedSubject (initializeSchedule, [])
        ⟨.monday, "09:00", "10:00", some 21⟩ =
        .ok (initializeSchedule.push .monday
          (fixedSession twiceFixedSubject ⟨.monday, "09:00", "10:00", some 21⟩), []) ∧
      placeFixedTimeSlots [twiceFixedSubject] (initializeSchedule, []) = .thrown typeError :=
  ⟨rfl, rfl⟩

theorem totalSessions_push (schedule : Schedule) (day : Day) (x : ScheduledClass) :
    totalSessions (schedule.push day x) = totalSessions schedule + 1 := by
  cases day <;> simp [totalSessions, days, Schedule.push] <;> omega

theorem checkTimeSlotConflict_named {l : List ScheduledClass} (timeSlot : String) (c : Id)
    (hl : ∀ x ∈ l, x.classroom ≠ none) :
    ∃ b, checkTimeSlotConflict l timeSlot (some c) = .ok b ∧
      (b = true ↔ ∃ x ∈ l, x.timeSlot.startTime ++ "-" ++ x.timeSlot.endTime = timeSlot ∧
        x.classroom = some c) := by
  induction l with
  | nil => exact ⟨false, rfl, by simp⟩
  | cons y ys ih =>
    obtain ⟨b, hb, hiff⟩ := ih (fun x hx => hl x (List.mem_cons_of_mem _ hx))
    obtain ⟨cy, hcy⟩ := Option.ne_none_iff_exists'.1 (hl y (List.mem_cons_self _ _))
    by_cases hs : y.timeSlot.startTime ++ "-" ++ y.timeSlot.endTime = timeSlot
    · by_cases hc : cy = c
      · refine ⟨true, ?_, ?_⟩
        · simp [checkTimeSlotConflict, timeSlotConflictWith, hs, hcy, hc, Res.bind]
        · simp only [true_iff]
          exact ⟨y, List.mem_cons_self _ _, hs, by rw [hcy, hc]⟩
      · refine ⟨b, ?_, ?_⟩
        · simp [checkTimeSlotConflict, timeSlotConflictWith, hs, hcy, hc, Res.bind, hb]
        · rw [hiff]
          constructor
          · rintro ⟨x, hx, h⟩
            exact ⟨x, List.mem_cons_of_mem _ hx, h⟩
          · rintro ⟨x, hx, h1, h2⟩
            rcases List.mem_cons.1 hx with rfl | hx'
            · rw [hcy] at h2
              exact absurd (Option.some.inj h2) hc
            · exact ⟨x, hx', h1, h2⟩
    · refine ⟨b, ?_, ?_⟩
      · simp [checkTimeSlotConflict, timeSlotConflictWith, hs, Res.bind, hb]
      · rw [hiff]
        constructor
        · rintro ⟨x, hx, h⟩
          exact ⟨x, List.mem_cons_of_mem _ hx, h⟩
        · rintro ⟨x, hx, h1, h2⟩
          rcases List.mem_cons.1 hx with rfl | hx'
          · exact absurd h1 hs
          · exact ⟨x, hx', h1, h2⟩

/-- One fixed slot that names a classroom is handled in exactly one of two ways: when the
day already holds an entry with the same `startTime-endTime` and the same classroom, the
schedule is unchanged and one conflict is added; otherwise one fixed session is appended and
the conflict list is unchanged. -/
theorem placeFixedSlot_named (subject : Subject) (st : Schedule × List Conflict)
    (fixedSlot : FixedSlot) (c : Id) (hc : fixedSlot.classroom = some c)
    (hst : FixedPlaced st) :
    ((∃ x ∈ st.1 fixedSlot.day,
        x.timeSlot.startTime ++ "-" ++ x.timeSlot.endTime =
          fixedSlot.startTime ++ "-" ++ fixedSlot.endTime ∧ x.classroom = some c) ∧
      placeFixedSlot subject st fixedSlot =
        .ok (st.1, st.2 ++ [fixedSlotConflict subject fixedSlot.day
          (fixedSlot.startTime ++ "-" ++ fixedSlot.endTime)])) ∨
    ((¬ ∃ x ∈ st.1 fixedSlot.day,
        x.timeSlot.startTime ++ "-" ++ x.timeSlot.endTime =
          fixedSlot.startTime ++ "-" ++ fixedSlot.endTime ∧ x.classroom = some c) ∧
      placeFixedSlot subject st fixedSlot =
        .ok (st.1.push fixedSlot.day (fixedSession subject fixedSlot), st.2)) := by
  obtain ⟨b, hb, hiff⟩ := checkTimeSlotConflict_named
    (fixedSlot.startTime ++ "-" ++ fixedSlot.endTime) c
    (fun x hx => (hst.1 fixedSlot.day x hx).2)
  cases b with
  | true =>
    left
    refine ⟨hiff.1 rfl, ?_⟩
    simp only [placeFixedSlot, hc, hb, Res.bind, if_true]
  | false =>
    right
    refine ⟨fun h => Bool.noConfusion (hiff.2 h), ?_⟩
    simp only [placeFixedSlot, hc, hb, Res.bind, Bool.false_eq_true, if_false]

theorem placeFixedSlot_step (subject : Subject) (st : Schedule × List Conflict)
    (fixedSlot : FixedSlot) (hc : fixedSlot.classroom ≠ none) (hst : FixedPlaced st) :
    ∃ st', placeFixedSlot subject st fixedSlot = .ok st' ∧ FixedPlaced st' ∧
      totalSessions st'.1 + st'.2.length = totalSessions st.1 + st.2.length + 1 := by
  obtain ⟨c, hcs⟩ := Option.ne_none_iff_exists'.1 hc
  rcases placeFixedSlot_named subject st fixedSlot c hcs hst with ⟨_, h⟩ | ⟨hno, h⟩
  · refine ⟨_, h, ⟨hst.1, hst.2.1, ?_⟩, ?_⟩
    · intro k hk
      rcases List.mem_append.1 hk with hk | hk
      · exact hst.2.2 k hk
      · rw [List.mem_singleton.1 hk]
        exact ⟨rfl, rfl, rfl⟩
    · show totalSessions st.1 + (st.2 ++ [_]).length = totalSessions st.1 + st.2.length + 1
      rw [List.length_append, List.length_singleton]
      omega
  · refine ⟨_, h, ⟨?_, ?_, hst.2.2⟩, ?_⟩
    · intro d x hx
      simp only [Schedule.push] at hx
      split at hx
      · rcases List.mem_append.1 hx with hx | hx
        · exact hst.1 d x hx
        · rw [List.mem_singleton.1 hx]
          exact ⟨rfl, by simpa [fixedSession] using hc⟩
      · exact hst.1 d x hx
    · intro d
      simp only [Schedule.push]
      split
      · rename_i hd
        rw [List.pairwise_append]
        refine ⟨hst.2.1 d, List.pairwise_singleton _ _, ?_⟩
        intro a ha b hb' hab
        rw [List.mem_singleton.1 hb'] at hab
        apply hno
        rw [hd] at ha
        refine ⟨a, ha, ?_, ?_⟩
        · rw [hab.1]; rfl
        · rw [hab.2]; exact hcs
      · exact hst.2.1 d
    · show totalSessions (st.1.push fixedSlot.day (fixedSession subject fixedSlot)) +
        st.2.length = totalSessions st.1 + st.2.length + 1
      rw [totalSessions_push]
      omega

theorem placeFixedSlots_named (subject : Subject) (slots : List FixedSlot) :
    ∀ st : Schedule × List Conflict, (∀ fs ∈ slots, fs.classroom ≠ none) → FixedPlaced st →
      ∃ st', placeFixedSlots subject slots st = .ok st' ∧ FixedPlaced st' ∧
        totalSessions st'.1 + st'.2.length =
          totalSessions st.1 + st.2.length + slots.length := by
  induction slots with
  | nil => intro st _ hst; exact ⟨st, rfl, hst, rfl⟩
  | cons fs rest ih =>
    intro st hs hst
    obtain ⟨st1, h1, hp1, hn1⟩ :=
      placeFixedSlot_step subject st fs (hs fs (List.mem_cons_self _ _)) hst
    obtain ⟨st2, h2, hp2, hn2⟩ := ih st1 (fun x hx => hs x (List.mem_cons_of_mem _ hx)) hp1
    refine ⟨st2, ?_, hp2, ?_⟩
    · simp only [placeFixedSlots, h1, Res.bind, h2]
    · rw [hn2, hn1, List.length_cons]
      omega

/-- The fixed-slot placer on subjects whose fixed slots all name a classroom, run on the
empty schedule: it returns, sessions placed plus conflicts added equal the number of fixed
slots, every placed session is fixed, no two placed sessions of a day share time slot and
classroom, and every conflict is a `classroom_clash` of severity `high` with the two
suggestions. -/
theorem placeFixedTimeSlots_named (subjects : List Subject)
    (hs : ∀ s ∈ subjects, ∀ fs ∈ s.fixedTimeSlots, fs.classroom ≠ none) :
    ∃ st, placeFixedTimeSlots subjects (initializeSchedule, []) = .ok st ∧ FixedPlaced st ∧
      totalSessions st.1 + st.2.length = totalFixedSlots subjects := by
  have key : ∀ (l : List Subject) (st : Schedule × List Conflict),
      (∀ s ∈ l, ∀ fs ∈ s.fixedTimeSlots, fs.classroom ≠ none) → FixedPlaced st →
      ∃ st', placeFixedTimeSlots l st = .ok st' ∧ FixedPlaced st' ∧
        totalSessions st'.1 + st'.2.length =
          totalSessions st.1 + st.2.length + totalFixedSlots l := by
    intro l
    induction l with
    | nil => intro st _ hst; exact ⟨st, rfl, hst, rfl⟩
    | cons s rest ih =>
      intro st hl hst
      obtain ⟨st1, h1, hp1, hn1⟩ :=
        placeFixedSlots_named s s.fixedTimeSlots st (hl s (List.mem_cons_self _ _)) hst
      obtain ⟨st2, h2, hp2, hn2⟩ := ih st1 (fun x hx => hl x (List.mem_cons_of_mem _ hx)) hp1
      refine ⟨st2, ?_, hp2, ?_⟩
      · simp only [placeFixedTimeSlots, h1, Res.bind, h2]
      · rw [hn2, hn1]
        simp only [totalFixedSlots, List.map_cons, List.sum_cons]
        omega
  obtain ⟨st, h, hp, hn⟩ := key subjects (initializeSchedule, []) hs
    ⟨fun _ _ hx => absurd hx (List.not_mem_nil _), fun _ => List.Pairwise.nil,
      fun _ hc => absurd hc (List.not_mem_nil _)⟩
  refine ⟨st, h, hp, ?_⟩
  rw [hn]
  simp [totalSessions, initializeSchedule, days]

/-- The two ways on a sample: the fixed slot of `fixedSubject` submitted twice is placed
once and reported once. -/
theorem placeFixedTimeSlots_twice :
    placeFixedTimeSlots [fixedSubject, fixedSubject] (initializeSchedule, []) =
      .ok (fixedBase, [fixedSlotConflict fixedSubject .monday "09:00-10:00"]) :=
  rfl

/-! ## Failure of the entry point (C5) -/

/-- Claim C5, evaluated on a failing input: a subject pinned to Monday 09:00-10:00, a subject
without fixed slots, one faculty member, one classroom, and a first draw that lands on Monday
09:00-10:00.  `placeFixedTimeSlots` places the fixed session without a faculty id,
`checkScheduleConflict` calls `toString()` on that missing id, and the entry point throws
`Failed to generate optimized timetable`, whatever the fuel. -/
theorem generateOptimizedTimetable_fails (fuel : Nat) :
    placeFixedTimeSlots [fixedSubject, sampleSubject 1] (initializeSchedule, []) =
        .ok (fixedBase, []) ∧
      generateOptimizedTimetable (fuel + 1) zeroDraws {} [fixedSubject, sampleSubject 1]
        [sampleFaculty] [sampleClassroom] = .thrown failedMessage :=
  ⟨rfl, rfl⟩

/-! ## The fitness formula (C6) -/

theorem JsNum.mul_swap (a b : JsNum) : a.mul b = b.mul a := by
  cases a <;> cases b <;> simp [JsNum.mul, Rat.mul_comm]

theorem maxClassesPerDay_eq (constraints : Constraints) :
    maxClassesPerDay constraints = effectiveLimit constraints := by
  unfold maxClassesPerDay effectiveLimit
  rcases constraints with ⟨_ | _ | n⟩ <;> simp

theorem dailyLimits_foldl (limit : Nat) (l : List (List ScheduledClass)) (acc : Nat) :
    l.foldl (fun penalty daySchedule =>
        if daySchedule.length > limit then penalty + (daySchedule.length - limit)
        else penalty) acc =
      acc + (l.map fun daySchedule => daySchedule.length - limit).sum := by
  induction l generalizing acc with
  | nil => simp
  | cons x xs ih =>
    simp only [List.foldl_cons, List.map_cons, List.sum_cons]
    rw [ih]
    split
    · omega
    · omega

theorem evaluateDailyLimits_eq (schedule : Schedule) (constraints : Constraints) :
    evaluateDailyLimits schedule constraints =
      (days.map fun d => (schedule d).length - effectiveLimit constraints).sum := by
  unfold evaluateDailyLimits
  rw [dailyLimits_foldl, maxClassesPerDay_eq, Schedule.values, List.map_map, Nat.zero_add]
  rfl

theorem JsNum.max0_not_neg (x : JsNum) : x.max0.isNeg = false := by
  cases x with
  | nan => rfl
  | num q => simp [JsNum.max0, JsNum.isNeg]

/-- Claim C6 as amended: `evaluateFitness` equals
`max(0, 100 − 10·|detectConflicts| + 20·balance + 15·utilization − 5·Σ_days max(0, sessions −
limit))` where `limit` is the caller's `maxClassesPerDay` when that is not zero, and 6 when it
is absent or zero; the result is never below zero. -/
theorem evaluateFitness_formula (schedule : Schedule) (faculty : List Faculty)
    (classrooms : List Classroom) (constraints : Constraints) :
    evaluateFitness schedule faculty classrooms constraints =
        fitnessFormula (effectiveLimit constraints) schedule faculty classrooms ∧
      (evaluateFitness schedule faculty classrooms constraints).isNeg = false := by
  refine ⟨?_, JsNum.max0_not_neg _⟩
  unfold evaluateFitness fitnessFormula
  simp only []
  rw [evaluateDailyLimits_eq, JsNum.mul_swap (evaluateWorkloadBalance schedule faculty),
    JsNum.mul_swap (evaluateRoomUtilization schedule classrooms),
    Nat.mul_comm (List.length _) 10, Nat.mul_comm (List.sum _) 5]

/-- Counterexample to claim C6 as stated: with `maxClassesPerDay = 0` supplied by the caller
and one session on Monday, `evaluateFitness` is `1685/14` (no daily penalty, the limit in force
being 6) while the stated formula with the caller's value gives `1615/14`. -/
theorem evaluateFitness_zero_limit :
    evaluateFitness oneSession [sampleFaculty] [sampleClassroom] zeroLimit =
        .num (1685 / 14) ∧
      fitnessFormula (statedLimit zeroLimit) oneSession [sampleFaculty] [sampleClassroom] =
        .num (1615 / 14) ∧
      evaluateFitness oneSession [sampleFaculty] [sampleClassroom] zeroLimit ≠
        fitnessFormula (statedLimit zeroLimit) oneSession [sampleFaculty] [sampleClassroom] := by
  decide!

/-! ## Elitism (C7) -/

set_option maxRecDepth 100000 in
/-- Claim C7, evaluated on a failing input: one subject requiring one class per week, a
faculty member away on Mondays, one classroom, and draws that give Monday to the first 49
candidates and Tuesday to the last.  The population evaluated in generation 0 holds a
candidate of fitness `1685/14` (the other 49 are `NaN`); every candidate of the population
evaluated in generation 1 has fitness `NaN`. -/
theorem elitism_loses_best :
    fitnessAt 1 lateTuesdayDraws 0 initializeSchedule [sampleSubject 1] [mondayOffFaculty]
        [sampleClassroom] {} =
        .ok (List.replicate 49 .nan ++ [.num (1685 / 14)]) ∧
      fitnessAt 1 lateTuesdayDraws 1 initializeSchedule [sampleSubject 1] [mondayOffFaculty]
        [sampleClassroom] {} = .ok (List.replicate 50 .nan) := by
  decide!

/-! ## Collision freedom of crossover (C9) -/

theorem hasTimeConflict_false {l : List ScheduledClass} {x : ScheduledClass}
    (h : hasTimeConflict l x = false) : ∀ e ∈ l, ¬ Overlap e x := by
  intro e he hov
  have hts : e.timeSlot.startTime = x.timeSlot.startTime ∧
      e.timeSlot.endTime = x.timeSlot.endTime := by rw [hov.1]; exact ⟨rfl, rfl⟩
  have : hasTimeConflict l x = true := by
    unfold hasTimeConflict
    rw [List.any_eq_true]
    refine ⟨e, he, ?_⟩
    simp only [strictEqClassroom, Bool.and_eq_true, decide_eq_true_eq, Bool.or_eq_true]
    exact ⟨hts, hov.2⟩
  rw [h] at this
  cases this

theorem crossoverDay_pairwise (h : Heap) (ρ : Nat → Nat) (pool : List Ref) :
    ∀ (acc : List Ref) (pos : Nat),
      (acc.map h.read).Pairwise (fun a b => ¬ Overlap a b) →
      ((crossoverDay h ρ pool acc pos).1.map h.read).Pairwise (fun a b => ¬ Overlap a b) := by
  induction pool with
  | nil => intro acc pos hacc; exact hacc
  | cons x rest ih =>
    intro acc pos hacc
    unfold crossoverDay
    split
    · rename_i hc
      apply ih
      rw [List.map_append, List.pairwise_append]
      refine ⟨hacc, List.pairwise_singleton _ _, ?_⟩
      intro a ha b hb
      rw [List.map_singleton, List.mem_singleton] at hb
      rw [hb]
      simp only [Bool.and_eq_true, Bool.not_eq_true'] at hc
      exact hasTimeConflict_false hc.2 a ha
    · exact ih acc (pos + 1) hacc

theorem crossoverDays_pairwise (h : Heap) (ρ : Nat → Nat) (parent1 parent2 : RefSchedule)
    (ds : List Day) :
    ∀ (offspring : RefSchedule) (pos : Nat),
      (∀ d, ((offspring d).map h.read).Pairwise (fun a b => ¬ Overlap a b)) →
      ∀ d, (((crossoverDays h ρ parent1 parent2 ds offspring pos).1 d).map h.read).Pairwise
        (fun a b => ¬ Overlap a b) := by
  induction ds with
  | nil => intro offspring pos ho d; exact ho d
  | cons day rest ih =>
    intro offspring pos ho
    unfold crossoverDays
    apply ih
    intro d
    by_cases hd : d = day
    · simp only [hd, if_true]
      exact crossoverDay_pairwise h ρ _ [] pos List.Pairwise.nil
    · simp only [if_neg hd]
      exact ho d

/-- Claim C9, what holds and a failing input.  No day list of the offspring of `crossover`
holds two sessions that `hasTimeConflict` takes for a collision.  But `hasTimeConflict` compares
the `classroom` fields with `===`, and the string of a fixed session is never `===` to the
`_id` object of a generated session.  A candidate holds the fixed session of classroom `20` at
Monday 09:00-10:00 and a generated session in classroom `20` at Monday 10:00-11:00; `mutate`
moves the generated session to 09:00-10:00; the offspring of that individual with itself then
holds both sessions: identical time slot, same classroom id. -/
theorem crossover_keeps_clash :
    (∀ (h : Heap) (ρ : Nat → Nat) (pos : Nat) (parent1 parent2 : RefSchedule) (d : Day),
      ((deref h (crossover h ρ pos parent1 parent2).1) d).Pairwise
        (fun a b => ¬ Overlap a b)) ∧
      createRandomSchedule 1 countingDraws 0 fixedBase [fixedSubject, sampleSubject 1]
        [sampleFaculty] [sampleClassroom] = .ok (fixedBase.push .monday lateSession, 2) ∧
      fixedBase.push .monday lateSession .monday = [fixedCopy, lateSession] ∧
      mutate [fixedCopy, lateSession] clashDraws 0 (onDay .monday [0, 1]) =
        ([fixedCopy, mondaySession], 3) ∧
      crossover [fixedCopy, mondaySession] clashDraws 3 (onDay .monday [0, 1])
        (onDay .monday [0, 1]) = (onDay .monday [0, 1], 7) ∧
      deref [fixedCopy, mondaySession]
        (crossover [fixedCopy, mondaySession] clashDraws 3 (onDay .monday [0, 1])
          (onDay .monday [0, 1])).1 .monday = [fixedCopy, mondaySession] ∧
      fixedCopy.timeSlot = mondaySession.timeSlot ∧
      fixedCopy.classroom = some 20 ∧ mondaySession.classroom = some 20 ∧
      fixedCopy.isFixed = true ∧ mondaySession.isFixed = false ∧
      Clash fixedCopy mondaySession := by
  refine ⟨fun h ρ pos parent1 parent2 d =>
    crossoverDays_pairwise h ρ parent1 parent2 days (fun _ => []) pos
      (fun _ => List.Pairwise.nil) d, rfl, rfl, by decide, by decide, by decide, rfl, rfl, rfl,
    rfl, rfl, ⟨rfl, Or.inr ⟨20, rfl, rfl⟩⟩⟩

/-! ## Moving the cursor of the random stream -/

theorem tournamentSelection_shift (ρ : Nat → Nat) (pos k : Nat) (population : List Individual) :
    tournamentSelection ρ (pos + k) population =
      ((tournamentSelection (shift ρ k) pos population).1,
        (tournamentSelection (shift ρ k) pos population).2 + k) := by
  simp only [tournamentSelection, randomIndex, shift, Nat.add_right_comm pos k]

theorem crossoverDay_shift (h : Heap) (ρ : Nat → Nat) (k : Nat) (pool : List Ref) :
    ∀ (acc : List Ref) (pos : Nat),
      crossoverDay h ρ pool acc (pos + k) =
        ((crossoverDay h (shift ρ k) pool acc pos).1,
          (crossoverDay h (shift ρ k) pool acc pos).2 + k) := by
  induction pool with
  | nil => intro acc pos; rfl
  | cons x rest ih =>
    intro acc pos
    have hb : randomBelow ρ (pos + k) 1 2 = randomBelow (shift ρ k) pos 1 2 := rfl
    unfold crossoverDay
    rw [hb, Nat.add_right_comm pos k 1]
    split
    · exact ih _ _
    · exact ih _ _

theorem crossoverDays_shift (h : Heap) (ρ : Nat → Nat) (k : Nat) (parent1 parent2 : RefSchedule)
    (ds : List Day) :
    ∀ (offspring : RefSchedule) (pos : Nat),
      crossoverDays h ρ parent1 parent2 ds offspring (pos + k) =
        ((crossoverDays h (shift ρ k) parent1 parent2 ds offspring pos).1,
          (crossoverDays h (shift ρ k) parent1 parent2 ds offspring pos).2 + k) := by
  induction ds with
  | nil => intro offspring pos; rfl
  | cons day rest ih =>
    intro offspring pos
    unfold crossoverDays
    simp only [crossoverDay_shift h ρ k]
    exact ih _ _

theorem crossover_shift (h : Heap) (ρ : Nat → Nat) (pos k : Nat) (parent1 parent2 : RefSchedule) :
    crossover h ρ (pos + k) parent1 parent2 =
      ((crossover h (shift ρ k) pos parent1 parent2).1,
        (crossover h (shift ρ k) pos parent1 parent2).2 + k) :=
  crossoverDays_shift h ρ k parent1 parent2 days _ pos

theorem mutate_shift (h : Heap) (ρ : Nat → Nat) (pos k : Nat) (schedule : RefSchedule) :
    mutate h ρ (pos + k) schedule =
      ((mutate h (shift ρ k) pos schedule).1, (mutate h (shift ρ k) pos schedule).2 + k) := by
  have hd : randomDay ρ (pos + k) = randomDay (shift ρ k) pos := rfl
  have hi : ∀ n, randomIndex ρ (pos + k + 1) n = randomIndex (shift ρ k) (pos + 1) n := by
    intro n; simp only [randomIndex, shift, Nat.add_right_comm pos k]
  have ht : randomTimeSlot ρ (pos + k + 2) = randomTimeSlot (shift ρ k) (pos + 2) := by
    simp only [randomTimeSlot, randomIndex, shift, Nat.add_right_comm pos k]
  unfold mutate
  simp only [hd, hi, ht]
  split
  · simp only [Nat.add_right_comm pos k]
  · simp only [Nat.add_right_comm pos k]

theorem offspringStep_shift (ρ : Nat → Nat) (k : Nat) (population : List Individual)
    (st : Search) :
    offspringStep ρ population (st.addPos k) =
      (offspringStep (shift ρ k) population st).addPos k := by
  simp only [offspringStep, Search.addPos, tournamentSelection_shift, crossover_shift]
  have hb : ∀ p, randomBelow ρ (p + k) 1 10 = randomBelow (shift ρ k) p 1 10 := fun _ => rfl
  rw [hb]
  split
  · simp only [Nat.add_right_comm _ k 1, mutate_shift]
  · simp only [Nat.add_right_comm _ k 1]

theorem offspringLoop_shift (ρ : Nat → Nat) (k : Nat) (population : List Individual)
    (count : Nat) :
    ∀ st : Search, offspringLoop ρ population count (st.addPos k) =
      (offspringLoop (shift ρ k) population count st).addPos k := by
  induction count with
  | zero => intro st; rfl
  | succ n ih =>
    intro st
    simp only [offspringLoop, offspringStep_shift, ih]

theorem generation_shift (ρ : Nat → Nat) (k : Nat) (faculty : List Faculty)
    (classrooms : List Classroom) (constraints : Constraints) (st : Search) :
    generation ρ faculty classrooms constraints (st.addPos k) =
      (generation (shift ρ k) faculty classrooms constraints st).addPos k := by
  have hr : rankedPopulation faculty classrooms constraints (st.addPos k) =
      rankedPopulation faculty classrooms constraints st := rfl
  simp only [generation, hr]
  exact offspringLoop_shift ρ k (rankedPopulation faculty classrooms constraints st)
    (populationSize -
      (List.take eliteCount (rankedPopulation faculty classrooms constraints st)).length)
    ⟨st.heap, st.pos, List.take eliteCount (rankedPopulation faculty classrooms constraints st)⟩

/-! ## Draws a call does not read -/

theorem tournamentSelection_congr {ρ ρ' : Nat → Nat} {pos N : Nat}
    (population : List Individual) (hN : pos + 3 ≤ N) (h : ∀ i, i < N → ρ' i = ρ i) :
    tournamentSelection ρ' pos population = tournamentSelection ρ pos population := by
  simp only [tournamentSelection, randomIndex, h pos (by omega), h (pos + 1) (by omega),
    h (pos + 2) (by omega)]

theorem crossoverDay_pos (h : Heap) (ρ : Nat → Nat) (pool : List Ref) :
    ∀ (acc : List Ref) (pos : Nat), (crossoverDay h ρ pool acc pos).2 = pos + pool.length := by
  induction pool with
  | nil => intro acc pos; rfl
  | cons x rest ih =>
    intro acc pos
    unfold crossoverDay
    split
    · rw [ih, List.length_cons]; omega
    · rw [ih, List.length_cons]; omega

theorem crossoverDay_congr (h : Heap) {ρ ρ' : Nat → Nat} {N : Nat}
    (hρ : ∀ i, i < N → ρ' i = ρ i) (pool : List Ref) :
    ∀ (acc : List Ref) (pos : Nat), pos + pool.length ≤ N →
      crossoverDay h ρ' pool acc pos = crossoverDay h ρ pool acc pos := by
  induction pool with
  | nil => intro acc pos _; rfl
  | cons x rest ih =>
    intro acc pos hN
    rw [List.length_cons] at hN
    have hb : randomBelow ρ' pos 1 2 = randomBelow ρ pos 1 2 := by
      simp only [randomBelow, hρ pos (by omega)]
    unfold crossoverDay
    rw [hb]
    split
    · exact ih _ _ (by omega)
    · exact ih _ _ (by omega)

theorem crossoverDays_mono (h : Heap) (ρ : Nat → Nat) (parent1 parent2 : RefSchedule)
    (ds : List Day) :
    ∀ (offspring : RefSchedule) (pos : Nat),
      pos ≤ (crossoverDays h ρ parent1 parent2 ds offspring pos).2 := by
  induction ds with
  | nil => intro offspring pos; exact Nat.le_refl _
  | cons day rest ih =>
    intro offspring pos
    unfold crossoverDays
    refine Nat.le_trans ?_ (ih _ _)
    rw [crossoverDay_pos]
    omega

theorem crossoverDays_congr (h : Heap) {ρ ρ' : Nat → Nat} {N : Nat}
    (hρ : ∀ i, i < N → ρ' i = ρ i) (parent1 parent2 : RefSchedule) (ds : List Day) :
    ∀ (offspring : RefSchedule) (pos : Nat),
      (crossoverDays h ρ parent1 parent2 ds offspring pos).2 ≤ N →
      crossoverDays h ρ' parent1 parent2 ds offspring pos =
        crossoverDays h ρ parent1 parent2 ds offspring pos := by
  induction ds with
  | nil => intro offspring pos _; rfl
  | cons day rest ih =>
    intro offspring pos hN
    unfold crossoverDays at hN ⊢
    have hm := crossoverDays_mono h ρ parent1 parent2 rest
      (fun d => if d = day then
        (crossoverDay h ρ (parent1 day ++ parent2 day) [] pos).1 else offspring d)
      (crossoverDay h ρ (parent1 day ++ parent2 day) [] pos).2
    have hN' : (crossoverDays h ρ parent1 parent2 rest
        (fun d => if d = day then
          (crossoverDay h ρ (parent1 day ++ parent2 day) [] pos).1 else offspring d)
        (crossoverDay h ρ (parent1 day ++ parent2 day) [] pos).2).2 ≤ N := hN
    have hc := crossoverDay_congr h hρ (parent1 day ++ parent2 day) [] pos (by
      have := crossoverDay_pos h ρ (parent1 day ++ parent2 day) [] pos
      omega)
    simp only [hc]
    exact ih _ _ hN'

theorem mutate_mono (h : Heap) (ρ : Nat → Nat) (pos : Nat) (schedule : RefSchedule) :
    pos ≤ (mutate h ρ pos schedule).2 := by
  unfold mutate
  simp only []
  split <;> simp

theorem mutate_congr (h : Heap) {ρ ρ' : Nat → Nat} {N : Nat}
    (hρ : ∀ i, i < N → ρ' i = ρ i) (pos : Nat) (schedule : RefSchedule)
    (hN : (mutate h ρ pos schedule).2 ≤ N) :
    mutate h ρ' pos schedule = mutate h ρ pos schedule := by
  have hpos : pos < N := by
    have : pos + 1 ≤ (mutate h ρ pos schedule).2 := by
      unfold mutate
      simp only []
      split <;> simp
    omega
  have hd : randomDay ρ' pos = randomDay ρ pos := by
    simp only [randomDay, randomIndex, hρ pos hpos]
  unfold mutate at hN ⊢
  simp only [hd] at hN ⊢
  split
  · rename_i hl
    simp only [hl, if_true] at hN
    simp only [randomIndex, randomTimeSlot, hρ (pos + 1) (by omega), hρ (pos + 2) (by omega)]
  · rfl

theorem offspringStep_mono (ρ : Nat → Nat) (population : List Individual) (st : Search) :
    st.pos ≤ (offspringStep ρ population st).pos := by
  unfold offspringStep
  simp only []
  have h1 := crossoverDays_mono st.heap ρ
    (tournamentSelection ρ st.pos population).1.schedule
    (tournamentSelection ρ (tournamentSelection ρ st.pos population).2 population).1.schedule
    days (fun _ => [])
    (tournamentSelection ρ (tournamentSelection ρ st.pos population).2 population).2
  simp only [tournamentSelection] at h1
  simp only [tournamentSelection, crossover]
  split
  · refine Nat.le_trans ?_ (mutate_mono _ _ _ _)
    omega
  · simp only []
    omega

theorem offspringStep_congr {ρ ρ' : Nat → Nat} {N : Nat} (hρ : ∀ i, i < N → ρ' i = ρ i)
    (population : List Individual) (st : Search)
    (hN : (offspringStep ρ population st).pos ≤ N) :
    offspringStep ρ' population st = offspringStep ρ population st := by
  have hc := crossoverDays_mono st.heap ρ
    (tournamentSelection ρ st.pos population).1.schedule
    (tournamentSelection ρ (tournamentSelection ρ st.pos population).2 population).1.schedule
    days (fun _ => [])
    (tournamentSelection ρ (tournamentSelection ρ st.pos population).2 population).2
  have ht1 : (tournamentSelection ρ st.pos population).2 = st.pos + 3 := rfl
  have ht2 : (tournamentSelection ρ (tournamentSelection ρ st.pos population).2 population).2 =
      (tournamentSelection ρ st.pos population).2 + 3 := rfl
  have hfin : (crossover st.heap ρ
      (tournamentSelection ρ (tournamentSelection ρ st.pos population).2 population).2
      (tournamentSelection ρ st.pos population).1.schedule
      (tournamentSelection ρ (tournamentSelection ρ st.pos population).2
        population).1.schedule).2 + 1 ≤ N := by
    refine Nat.le_trans ?_ hN
    unfold offspringStep
    simp only []
    split
    · exact mutate_mono _ _ _ _
    · exact Nat.le_refl _
  have hc' : (crossover st.heap ρ
      (tournamentSelection ρ (tournamentSelection ρ st.pos population).2 population).2
      (tournamentSelection ρ st.pos population).1.schedule
      (tournamentSelection ρ (tournamentSelection ρ st.pos population).2
        population).1.schedule).2 ≥
      (tournamentSelection ρ (tournamentSelection ρ st.pos population).2 population).2 := hc
  have e1 : tournamentSelection ρ' st.pos population = tournamentSelection ρ st.pos population :=
    tournamentSelection_congr population (by omega) hρ
  have e2 : tournamentSelection ρ' (tournamentSelection ρ st.pos population).2 population =
      tournamentSelection ρ (tournamentSelection ρ st.pos population).2 population :=
    tournamentSelection_congr population (by omega) hρ
  have e3 : crossover st.heap ρ'
      (tournamentSelection ρ (tournamentSelection ρ st.pos population).2 population).2
      (tournamentSelection ρ st.pos population).1.schedule
      (tournamentSelection ρ (tournamentSelection ρ st.pos population).2
        population).1.schedule =
      crossover st.heap ρ
      (tournamentSelection ρ (tournamentSelection ρ st.pos population).2 population).2
      (tournamentSelection ρ st.pos population).1.schedule
      (tournamentSelection ρ (tournamentSelection ρ st.pos population).2
        population).1.schedule :=
    crossoverDays_congr st.heap hρ _ _ days _ _ (by
      have : ∀ p a b, (crossoverDays st.heap ρ a b days (fun _ => []) p).2 =
          (crossover st.heap ρ p a b).2 := fun _ _ _ => rfl
      rw [this]; omega)
  have e4 : ∀ p, p + 1 ≤ N → randomBelow ρ' p 1 10 = randomBelow ρ p 1 10 := by
    intro p hp
    simp only [randomBelow, hρ p (by omega)]
  unfold offspringStep at hN ⊢
  simp only [e1, e2, e3, e4 _ hfin] at hN ⊢
  split
  · rename_i hb
    simp only [hb, if_true] at hN
    rw [mutate_congr st.heap hρ _ _ hN]
  · rfl

theorem offspringLoop_mono (ρ : Nat → Nat) (population : List Individual) (count : Nat) :
    ∀ st : Search, st.pos ≤ (offspringLoop ρ population count st).pos := by
  induction count with
  | zero => intro st; exact Nat.le_refl _
  | succ n ih =>
    intro st
    unfold offspringLoop
    exact Nat.le_trans (offspringStep_mono ρ population st) (ih _)

theorem offspringLoop_congr {ρ ρ' : Nat → Nat} {N : Nat} (hρ : ∀ i, i < N → ρ' i = ρ i)
    (population : List Individual) (count : Nat) :
    ∀ st : Search, (offspringLoop ρ population count st).pos ≤ N →
      offspringLoop ρ' population count st = offspringLoop ρ population count st := by
  induction count with
  | zero => intro st _; rfl
  | succ n ih =>
    intro st hN
    unfold offspringLoop at hN ⊢
    have hm := offspringLoop_mono ρ population n (offspringStep ρ population st)
    rw [offspringStep_congr hρ population st (by omega)]
    exact ih _ hN

theorem generation_mono (ρ : Nat → Nat) (faculty : List Faculty) (classrooms : List Classroom)
    (constraints : Constraints) (st : Search) :
    st.pos ≤ (generation ρ faculty classrooms constraints st).pos :=
  offspringLoop_mono ρ (rankedPopulation faculty classrooms constraints st)
    (populationSize -
      (List.take eliteCount (rankedPopulation faculty classrooms constraints st)).length)
    ⟨st.heap, st.pos, List.take eliteCount (rankedPopulation faculty classrooms constraints st)⟩

theorem generation_congr {ρ ρ' : Nat → Nat} {N : Nat} (hρ : ∀ i, i < N → ρ' i = ρ i)
    (faculty : List Faculty) (classrooms : List Classroom) (constraints : Constraints)
    (st : Search) (hN : (generation ρ faculty classrooms constraints st).pos ≤ N) :
    generation ρ' faculty classrooms constraints st =
      generation ρ faculty classrooms constraints st :=
  offspringLoop_congr hρ (rankedPopulation faculty classrooms constraints st)
    (populationSize -
      (List.take eliteCount (rankedPopulation faculty classrooms constraints st)).length)
    ⟨st.heap, st.pos, List.take eliteCount (rankedPopulation faculty classrooms constraints st)⟩
    hN

theorem evolve_mono (ρ : Nat → Nat) (faculty : List Faculty) (classrooms : List Classroom)
    (constraints : Constraints) (gen : Nat) :
    ∀ st : Search, st.pos ≤ (evolve ρ faculty classrooms constraints gen st).pos := by
  induction gen with
  | zero => intro st; exact Nat.le_refl _
  | succ n ih =>
    intro st
    unfold evolve
    exact Nat.le_trans (generation_mono ρ faculty classrooms constraints st) (ih _)

theorem evolve_congr {ρ ρ' : Nat → Nat} {N : Nat} (hρ : ∀ i, i < N → ρ' i = ρ i)
    (faculty : List Faculty) (classrooms : List Classroom) (constraints : Constraints)
    (gen : Nat) :
    ∀ st : Search, (evolve ρ faculty classrooms constraints gen st).pos ≤ N →
      evolve ρ' faculty classrooms constraints gen st =
        evolve ρ faculty classrooms constraints gen st := by
  induction gen with
  | zero => intro st _; rfl
  | succ n ih =>
    intro st hN
    unfold evolve at hN ⊢
    have hm := evolve_mono ρ faculty classrooms constraints n
      (generation ρ faculty classrooms constraints st)
    rw [generation_congr hρ faculty classrooms constraints st (by omega)]
    exact ih _ hN

/-! ## The returned individual (C8) -/

theorem evolve_succ (ρ : Nat → Nat) (faculty : List Faculty) (classrooms : List Classroom)
    (constraints : Constraints) (gen : Nat) :
    ∀ st : Search, evolve ρ faculty classrooms constraints (gen + 1) st =
      generation ρ faculty classrooms constraints
        (evolve ρ faculty classrooms constraints gen st) := by
  induction gen with
  | zero => intro st; rfl
  | succ n ih =>
    intro st
    rw [evolve, ih]
    rfl

set_option maxRecDepth 100000 in
theorem late_initial :
    searchAfter 1 lateCrossDraws 0 initializeSchedule [sampleSubject 1] [sampleFaculty]
      [sampleClassroom] {} = .ok ⟨lateHeap, 100, lateCandidates⟩ := by
  decide!

set_option maxRecDepth 100000 in
theorem late_first_generation :
    generation earlyDraws [sampleFaculty] [sampleClassroom] {}
      ⟨lateHeap, 100, lateCandidates⟩ = lateState 580 := by
  decide!

set_option maxRecDepth 100000 in
theorem late_middle_generation :
    generation zeroDraws [sampleFaculty] [sampleClassroom] {} (lateState 0) =
      lateState 480 := by
  decide!

set_option maxRecDepth 100000 in
theorem late_last_generation :
    generation lastGenerationDraws [sampleFaculty] [sampleClassroom] {} (lateState 0) =
      lateFinal 480 := by
  decide!

theorem late_generation (pos : Nat) (hpos : 4 ≤ pos) :
    generation earlyDraws [sampleFaculty] [sampleClassroom] {} (lateState pos) =
      lateState (480 + pos) := by
  have hs := generation_shift earlyDraws pos [sampleFaculty] [sampleClassroom] {}
    (lateState 0)
  have hz : shift earlyDraws pos = zeroDraws := by
    funext i
    have : i + pos ≠ 3 := by omega
    simp only [shift, earlyDraws, zeroDraws, if_neg this]
  have h0 : (lateState 0).addPos pos = lateState pos := by
    simp only [lateState, Search.addPos, Nat.zero_add]
  have h1 : (lateState 480).addPos pos = lateState (480 + pos) := by
    simp only [lateState, Search.addPos]
  rw [hz, late_middle_generation, h0, h1] at hs
  exact hs

theorem late_evolve (gen : Nat) :
    ∀ pos, 4 ≤ pos → evolve earlyDraws [sampleFaculty] [sampleClassroom] {} gen
      (lateState pos) = lateState (480 * gen + pos) := by
  induction gen with
  | zero => intro pos _; rw [evolve, Nat.mul_zero, Nat.zero_add]
  | succ n ih =>
    intro pos hpos
    rw [evolve, late_generation pos hpos, ih _ (by omega)]
    have : 480 * n + (480 + pos) = 480 * (n + 1) + pos := by omega
    rw [this]

theorem late_agree : ∀ i, i < lastGenerationStart → lateCrossDraws i = earlyDraws i := by
  intro i hi
  have : ¬ (lastGenerationStart + 3 ≤ i ∧ i < lastGenerationStart + 6) := by omega
  simp only [lateCrossDraws, earlyDraws, if_neg this]

theorem late_before_last :
    evolve lateCrossDraws [sampleFaculty] [sampleClassroom] {} 99
      ⟨lateHeap, 100, lateCandidates⟩ = lateState lastGenerationStart := by
  have he : evolve earlyDraws [sampleFaculty] [sampleClassroom] {} 99
      ⟨lateHeap, 100, lateCandidates⟩ = lateState lastGenerationStart := by
    rw [evolve, late_first_generation, late_evolve 98 580 (by omega)]
    rfl
  rw [evolve_congr late_agree [sampleFaculty] [sampleClassroom] {} 99
    ⟨lateHeap, 100, lateCandidates⟩ (by rw [he]; exact Nat.le_refl _), he]

theorem late_after_last :
    evolve lateCrossDraws [sampleFaculty] [sampleClassroom] {} generations
      ⟨lateHeap, 100, lateCandidates⟩ = lateFinal (480 + lastGenerationStart) := by
  have hg : generations = 99 + 1 := rfl
  rw [hg, evolve_succ, late_before_last]
  have hs := generation_shift lateCrossDraws lastGenerationStart [sampleFaculty]
    [sampleClassroom] {} (lateState 0)
  have hz : shift lateCrossDraws lastGenerationStart = lastGenerationDraws := by
    funext i
    have h3 : i + lastGenerationStart ≠ 3 := by unfold lastGenerationStart; omega
    simp only [shift, lateCrossDraws, lastGenerationDraws, if_neg h3]
    by_cases hi : 3 ≤ i ∧ i < 6
    · rw [if_pos hi, if_pos (by omega)]
    · rw [if_neg hi, if_neg (by omega)]
  have h0 : (lateState 0).addPos lastGenerationStart = lateState lastGenerationStart := by
    simp only [lateState, Search.addPos, Nat.zero_add]
  have h1 : (lateFinal 480).addPos lastGenerationStart =
      lateFinal (480 + lastGenerationStart) := by
    simp only [lateFinal, Search.addPos]
  rw [hz, late_last_generation, h0, h1] at hs
  exact hs

set_option maxRecDepth 100000 in
theorem late_best (pos : Nat) :
    deref (lateFinal pos).heap (bestIndividual (lateFinal pos)).schedule = oneSession := by
  have h : deref lateHeap ((jsSort byFitness (lateFinal 0).population).headD default).schedule =
      oneSession := by decide!
  exact h

set_option maxRecDepth 100000 in
theorem late_fitness (pos : Nat) :
    ((lateFinal pos).population.map fun x =>
      evaluateFitness (deref (lateFinal pos).heap x.schedule) [sampleFaculty] [sampleClassroom]
        {}) =
      List.replicate 10 (.num (1685 / 14)) ++ .num (845 / 7) ::
        List.replicate 39 (.num (1685 / 14)) := by
  have h : ((lateFinal 0).population.map fun x =>
      evaluateFitness (deref (lateFinal 0).heap x.schedule) [sampleFaculty] [sampleClassroom]
        {}) =
      List.replicate 10 (.num (1685 / 14)) ++ .num (845 / 7) ::
        List.replicate 39 (.num (1685 / 14)) := by decide!
  exact h

theorem late_search :
    searchAfter 1 lateCrossDraws generations initializeSchedule [sampleSubject 1]
      [sampleFaculty] [sampleClassroom] {} = .ok (lateFinal (480 + lastGenerationStart)) := by
  have h0 := late_initial
  unfold searchAfter at h0 ⊢
  cases hi : initialPopulation 1 lateCrossDraws initializeSchedule [sampleSubject 1]
      [sampleFaculty] [sampleClassroom] populationSize
      { heap := [], pos := 0, population := [] } with
  | ok st =>
    rw [hi] at h0
    simp only [Res.bind, evolve, Res.ok.injEq] at h0
    subst h0
    simp only [Res.bind]
    rw [late_after_last]
  | thrown m => rw [hi] at h0; simp [Res.bind] at h0
  | outOfFuel => rw [hi] at h0; simp [Res.bind] at h0

/-- Claim C8, evaluated on a failing input: one subject requiring one class per week, one
faculty member, one classroom, and the stream `lateCrossDraws`.  The returned schedule is that
of an elite individual of fitness `1685/14`, while the final population holds an offspring of
the last generation (rank 11) whose fitness is `845/7`, which is larger. -/
theorem best_is_not_fittest :
    optimizeWithGeneticAlgorithm 1 lateCrossDraws initializeSchedule [sampleSubject 1]
        [sampleFaculty] [sampleClassroom] {} = .ok oneSession ∧
      evaluateFitness oneSession [sampleFaculty] [sampleClassroom] {} =
        .num (1685 / 14) ∧
      fitnessAt 1 lateCrossDraws generations initializeSchedule [sampleSubject 1]
        [sampleFaculty] [sampleClassroom] {} =
        .ok (List.replicate 10 (.num (1685 / 14)) ++ .num (845 / 7) ::
          List.replicate 39 (.num (1685 / 14))) ∧
      (1685 / 14 : ℚ) < 845 / 7 := by
  refine ⟨?_, by decide!, ?_, by norm_num⟩
  · unfold optimizeWithGeneticAlgorithm
    rw [late_search]
    simp only [Res.bind]
    rw [late_best]
  · unfold fitnessAt
    rw [late_search]
    simp only [Res.bind]
    rw [late_fitness]

/-! ## Fixed placements under the search (C10) -/

set_option maxRecDepth 100000 in
theorem pinned_initial :
    searchAfter 1 zeroDraws 0 pinnedBase [pinnedSubject, sampleSubject 1] [sampleFaculty]
      [sampleClassroom, sampleLaboratory] {} =
      .ok ⟨pinnedHeap pinnedSession, 100, pinnedCandidates⟩ := by
  decide!

set_option maxRecDepth 100000 in
theorem pinned_first_generation :
    generation zeroDraws [sampleFaculty] [sampleClassroom, sampleLaboratory] {}
      ⟨pinnedHeap pinnedSession, 100, pinnedCandidates⟩ = pinnedState 660 := by
  decide!

set_option maxRecDepth 100000 in
theorem pinned_later_generation :
    generation zeroDraws [sampleFaculty] [sampleClassroom, sampleLaboratory] {}
      (pinnedState 0) = pinnedState 560 := by
  decide!

theorem pinned_generation (pos : Nat) :
    generation zeroDraws [sampleFaculty] [sampleClassroom, sampleLaboratory] {}
      (pinnedState pos) = pinnedState (560 + pos) := by
  have hs := generation_shift zeroDraws pos [sampleFaculty] [sampleClassroom, sampleLaboratory]
    {} (pinnedState 0)
  have hz : shift zeroDraws pos = zeroDraws := rfl
  have h0 : (pinnedState 0).addPos pos = pinnedState pos := by
    simp only [pinnedState, Search.addPos, Nat.zero_add]
  have h1 : (pinnedState 560).addPos pos = pinnedState (560 + pos) := by
    simp only [pinnedState, Search.addPos]
  rw [hz, pinned_later_generation, h0, h1] at hs
  exact hs

theorem pinned_evolve (gen : Nat) :
    ∀ pos, evolve zeroDraws [sampleFaculty] [sampleClassroom, sampleLaboratory] {} gen
      (pinnedState pos) = pinnedState (560 * gen + pos) := by
  induction gen with
  | zero => intro pos; rw [evolve, Nat.mul_zero, Nat.zero_add]
  | succ n ih =>
    intro pos
    rw [evolve, pinned_generation, ih]
    have : 560 * n + (560 + pos) = 560 * (n + 1) + pos := by omega
    rw [this]

set_option maxRecDepth 100000 in
theorem pinned_best :
    (jsSort byFitness pinnedPopulation).headD default =
      ⟨onDay .monday [0, 1], some (.num (1685 / 14))⟩ := by
  decide!

set_option maxRecDepth 100000 in
theorem pinned_deref :
    deref (pinnedHeap { pinnedSession with timeSlot := ⟨"09:00", "10:00"⟩ })
      (onDay .monday [0, 1]) = pinnedResult := by
  decide!

/-- Claim C10, evaluated on a failing input: a subject pinned to Monday 10:00-11:00 in
classroom `21`, a subject without fixed slots, one faculty member, two classrooms, and a stream
whose every draw is `0`.  `placeFixedTimeSlots` puts the fixed session (with `isFixed = true`)
on Monday 10:00-11:00; the schedule returned by `optimizeWithGeneticAlgorithm` holds that
session on Monday 09:00-10:00, where `mutate` moved it, and no session at 10:00-11:00. -/
theorem search_moves_fixed_session :
    placeFixedTimeSlots [pinnedSubject, sampleSubject 1] (initializeSchedule, []) =
        .ok (pinnedBase, []) ∧
      pinnedBase .monday = [pinnedSession] ∧
      pinnedSession.isFixed = true ∧
      pinnedSession.timeSlot = ⟨"10:00", "11:00"⟩ ∧
      optimizeWithGeneticAlgorithm 1 zeroDraws pinnedBase [pinnedSubject, sampleSubject 1]
        [sampleFaculty] [sampleClassroom, sampleLaboratory] {} = .ok pinnedResult ∧
      pinnedResult .monday =
        [{ pinnedSession with timeSlot := ⟨"09:00", "10:00"⟩ }, mondaySession] := by
  refine ⟨rfl, rfl, rfl, rfl, ?_, rfl⟩
  have h0 := pinned_initial
  unfold searchAfter at h0
  unfold optimizeWithGeneticAlgorithm searchAfter
  cases hi : initialPopulation 1 zeroDraws pinnedBase [pinnedSubject, sampleSubject 1]
      [sampleFaculty] [sampleClassroom, sampleLaboratory] populationSize
      { heap := [], pos := 0, population := [] } with
  | ok st =>
    rw [hi] at h0
    simp only [Res.bind, evolve, Res.ok.injEq] at h0
    subst h0
    simp only [Res.bind, generations]
    rw [evolve, pinned_first_generation, pinned_evolve]
    simp only [bestIndividual, pinnedState]
    rw [pinned_best, pinned_deref]
  | thrown m => rw [hi] at h0; simp [Res.bind] at h0
  | outOfFuel => rw [hi] at h0; simp [Res.bind] at h0

/-! ## The division of the workload balance (C13) -/

theorem totalHours_foldl (f : Faculty) (l : List (List ScheduledClass)) (acc : Nat) :
    l.foldl (fun total daySchedule =>
        total + (daySchedule.filter fun c => decide (c.faculty = some f.id)).length) acc =
      acc + (l.map fun daySchedule =>
        (daySchedule.filter fun c => decide (c.faculty = some f.id)).length).sum := by
  induction l generalizing acc with
  | nil => simp
  | cons x xs ih =>
    simp only [List.foldl_cons, List.map_cons, List.sum_cons]
    rw [ih]
    omega

theorem totalHours_eq (schedule : Schedule) (f : Faculty) :
    totalHours schedule f =
      (days.map fun d => ((schedule d).filter fun c => decide (c.faculty = some f.id)).length).sum := by
  unfold totalHours
  rw [totalHours_foldl, Schedule.values, List.map_map, Nat.zero_add]
  rfl

theorem totalHours_eq_zero {schedule : Schedule} {f : Faculty}
    (h : ∀ d, ∀ c ∈ schedule d, c.faculty ≠ some f.id) : totalHours schedule f = 0 := by
  rw [totalHours_eq]
  apply List.sum_eq_zero
  intro n hn
  obtain ⟨d, _, rfl⟩ := List.mem_map.1 hn
  rw [List.length_eq_zero, List.filter_eq_nil_iff]
  intro c hc
  simpa using h d c hc

theorem sum_foldl_zero (l : List Nat) (h : ∀ n ∈ l, n = 0) :
    l.foldl (fun a b => a + b) 0 = 0 := by
  induction l with
  | nil => rfl
  | cons x xs ih =>
    rw [List.foldl_cons, h x (List.mem_cons_self _ _)]
    exact ih fun n hn => h n (List.mem_cons_of_mem _ hn)

theorem JsNum.div_zero_square (v a : JsNum) (ha : a = .nan ∨ a = .num 0) :
    ((JsNum.num 1).sub (v.div (a.mul a))).max0 = .nan := by
  rcases ha with rfl | rfl
  · cases v <;> rfl
  · cases v <;> simp [JsNum.mul, JsNum.div, JsNum.sub, JsNum.max0]

theorem evaluateWorkloadBalance_idle (schedule : Schedule) (faculty : List Faculty)
    (h : ∀ f ∈ faculty, totalHours schedule f = 0) :
    evaluateWorkloadBalance schedule faculty = .nan := by
  unfold evaluateWorkloadBalance
  simp only []
  apply JsNum.div_zero_square
  rw [sum_foldl_zero _ (by
    intro n hn
    obtain ⟨f, hf, rfl⟩ := List.mem_map.1 hn
    exact h f hf)]
  cases faculty with
  | nil => left; simp [JsNum.div, JsNum.ofNat]
  | cons f fs =>
    right
    have hl : ((fs.length : ℚ) + 1) ≠ 0 := by positivity
    simp [JsNum.div, JsNum.ofNat, hl]

/-- Claim C13, evaluated on the failing inputs: whenever the faculty list is empty, or no
session of the schedule is assigned to a listed faculty member, `evaluateWorkloadBalance`
divides zero by zero and returns `NaN`, not `0`. -/
theorem evaluateWorkloadBalance_unguarded (schedule : Schedule) (faculty : List Faculty)
    (h : faculty = [] ∨ ∀ f ∈ faculty, ∀ d, ∀ c ∈ schedule d, c.faculty ≠ some f.id) :
    evaluateWorkloadBalance schedule faculty = .nan ∧
      evaluateWorkloadBalance schedule faculty ≠ .num 0 := by
  have key : evaluateWorkloadBalance schedule faculty = .nan := by
    apply evaluateWorkloadBalance_idle
    rcases h with rfl | h
    · intro f hf; cases hf
    · intro f hf; exact totalHours_eq_zero (h f hf)
  rw [key]
  exact ⟨rfl, fun h => JsNum.noConfusion h⟩

/-- Witness for claim C13: the balance of the empty schedule with no faculty, and that of a
schedule whose only session is a fixed one with one listed faculty member, are `NaN`. -/
theorem evaluateWorkloadBalance_unguarded_witness :
    (evaluateWorkloadBalance initializeSchedule [] = .nan ∧
        evaluateWorkloadBalance initializeSchedule [] ≠ .num 0) ∧
      (evaluateWorkloadBalance fixedBase [sampleFaculty] = .nan ∧
        evaluateWorkloadBalance fixedBase [sampleFaculty] ≠ .num 0) :=
  ⟨evaluateWorkloadBalance_unguarded initializeSchedule [] (Or.inl rfl),
    evaluateWorkloadBalance_unguarded fixedBase [sampleFaculty] (Or.inr (by
      intro f hf d c hc
      simp only [fixedBase, Schedule.push, initializeSchedule, List.nil_append] at hc
      split at hc
      · rw [List.mem_singleton.1 hc]; simp [fixedSession]
      · cases hc))⟩

/-! ## The availability rule (C15) -/

theorem isFree_iff (availability : Day → Option DayAvailability) (day : Day)
    (startTime : String) :
    isFree availability day startTime = true ↔ FreeAt availability day startTime := by
  unfold isFree FreeAt DayOpen Covered TimeLe TimeLt
  cases h : availability day with
  | none => simp
  | some a =>
    simp only [Bool.and_eq_true, Bool.not_eq_true', List.any_eq_false, Option.some.injEq,
      exists_eq_left']
    constructor
    · rintro ⟨h1, h2⟩
      refine ⟨h1, ?_⟩
      rintro ⟨slot, hs, hb, hle, hlt⟩
      have := h2 slot hs
      simp [blocks, hb, hle, hlt] at this
    · rintro ⟨h1, h2⟩
      refine ⟨h1, ?_⟩
      intro slot hs hbl
      apply h2
      simp only [blocks, Bool.and_eq_true] at hbl
      exact ⟨slot, hs, hbl.1.1, hbl.1.2, hbl.2⟩

theorem facultySuits_iff (subject : Subject) (day : Day) (startTime : String) (f : Faculty) :
    facultySuits subject day startTime f = true ↔ FacultyFits subject day startTime f := by
  unfold facultySuits FacultyFits
  rw [Bool.and_eq_true, isFree_iff, decide_eq_true_eq]

theorem classroomSuits_iff (subject : Subject) (day : Day) (startTime : String)
    (c : Classroom) :
    classroomSuits subject day startTime c = true ↔ ClassroomFits subject day startTime c := by
  unfold classroomSuits ClassroomFits
  rw [Bool.and_eq_true, Bool.and_eq_true, isFree_iff, decide_eq_true_eq, decide_eq_true_eq,
    and_assoc]

theorem findSuitableFaculty_some {subject : Subject} {faculty : List Faculty} {day : Day}
    {startTime : String} {f : Faculty}
    (h : findSuitableFaculty subject faculty day startTime = some f) :
    f ∈ faculty ∧ FacultyFits subject day startTime f :=
  ⟨List.mem_of_find?_eq_some h, (facultySuits_iff _ _ _ _).1 (List.find?_some h)⟩

theorem findSuitableClassroom_some {subject : Subject} {classrooms : List Classroom}
    {day : Day} {startTime : String} {c : Classroom}
    (h : findSuitableClassroom subject classrooms day startTime = some c) :
    c ∈ classrooms ∧ ClassroomFits subject day startTime c :=
  ⟨List.mem_of_find?_eq_some h, (classroomSuits_iff _ _ _ _).1 (List.find?_some h)⟩

theorem digitChar_toNat (d : Nat) (h : d < 10) : (digitChar d).toNat = 48 + d := by
  interval_cases d <;> rfl

/-- On zero-padded `HH:MM` texts the comparison of the program is the order of the times of
day. -/
theorem jsStrLe_clockText (h1 m1 h2 m2 : Nat) (hh1 : h1 < 100) (hm1 : m1 < 60) (hh2 : h2 < 100)
    (hm2 : m2 < 60) :
    jsStrLe (clockText h1 m1) (clockText h2 m2) = decide (60 * h1 + m1 ≤ 60 * h2 + m2) := by
  simp only [jsStrLe, clockText, jsCharsLe,
    digitChar_toNat (h1 / 10) (by omega), digitChar_toNat (h1 % 10) (by omega),
    digitChar_toNat (m1 / 10) (by omega), digitChar_toNat (m1 % 10) (by omega),
    digitChar_toNat (h2 / 10) (by omega), digitChar_toNat (h2 % 10) (by omega),
    digitChar_toNat (m2 / 10) (by omega), digitChar_toNat (m2 % 10) (by omega)]
  split_ifs <;> simp <;> omega

theorem clockText_catalog :
    timeSlots = [⟨clockText 9 0, clockText 10 0⟩, ⟨clockText 10 0, clockText 11 0⟩,
      ⟨clockText 11 0, clockText 12 0⟩, ⟨clockText 12 0, clockText 13 0⟩,
      ⟨clockText 14 0, clockText 15 0⟩, ⟨clockText 15 0, clockText 16 0⟩,
      ⟨clockText 16 0, clockText 17 0⟩] := by
  decide

/-- Claim C15: the faculty member (resp. classroom) that `findSuitableFaculty` (resp.
`findSuitableClassroom`) returns is listed, has its day flag open and has no blocked
sub-interval on that day with `blockedStart <= slotStart < blockedEnd`; and nothing is returned
exactly when every listed entity that is otherwise eligible has its day flag closed or missing
or has such a blocked sub-interval.  Times are ordered as the program compares them, which on
zero-padded 24-hour `HH:MM` texts (the format of the slot catalog) is the order of the times of
day. -/
theorem findSuitable_availability (subject : Subject) (faculty : List Faculty)
    (classrooms : List Classroom) (day : Day) (startTime : String) :
    (∀ f, findSuitableFaculty subject faculty day startTime = some f →
        f ∈ faculty ∧ DayOpen f.availability day ∧ ¬ Covered f.availability day startTime) ∧
      (findSuitableFaculty subject faculty day startTime = none ↔
        ∀ f ∈ faculty, subject.id ∈ f.subjects →
          ¬ DayOpen f.availability day ∨ Covered f.availability day startTime) ∧
      (∀ c, findSuitableClassroom subject classrooms day startTime = some c →
        c ∈ classrooms ∧ DayOpen c.availability day ∧ ¬ Covered c.availability day startTime) ∧
      (findSuitableClassroom subject classrooms day startTime = none ↔
        ∀ c ∈ classrooms, c.type = subject.classRequirements.preferredClassroomType →
          subject.classRequirements.minClassroomCapacity ≤ c.capacity →
          ¬ DayOpen c.availability day ∨ Covered c.availability day startTime) ∧
      (∀ h1 m1 h2 m2 : Nat, h1 < 24 → m1 < 60 → h2 < 24 → m2 < 60 →
        (TimeLe (clockText h1 m1) (clockText h2 m2) ↔ 60 * h1 + m1 ≤ 60 * h2 + m2) ∧
        (TimeLt (clockText h1 m1) (clockText h2 m2) ↔ 60 * h1 + m1 < 60 * h2 + m2)) := by
  refine ⟨fun f h => ?_, ?_, fun c h => ?_, ?_, fun h1 m1 h2 m2 hh1 hm1 hh2 hm2 => ?_⟩
  · have := findSuitableFaculty_some h
    exact ⟨this.1, this.2.2.1, this.2.2.2⟩
  · unfold findSuitableFaculty
    rw [List.find?_eq_none]
    constructor
    · intro h f hf hs
      have := h f hf
      rw [facultySuits_iff] at this
      by_cases ho : DayOpen f.availability day
      · right
        by_contra hc
        exact this ⟨hs, ho, hc⟩
      · exact Or.inl ho
    · intro h f hf
      rw [facultySuits_iff]
      rintro ⟨hs, ho, hc⟩
      rcases h f hf hs with h1 | h1
      · exact h1 ho
      · exact hc h1
  · have := findSuitableClassroom_some h
    exact ⟨this.1, this.2.2.2.1, this.2.2.2.2⟩
  · unfold findSuitableClassroom
    rw [List.find?_eq_none]
    constructor
    · intro h c hc ht hcap
      have := h c hc
      rw [classroomSuits_iff] at this
      by_cases ho : DayOpen c.availability day
      · right
        by_contra hcov
        exact this ⟨ht, hcap, ho, hcov⟩
      · exact Or.inl ho
    · intro h c hc
      rw [classroomSuits_iff]
      rintro ⟨ht, hcap, ho, hcov⟩
      rcases h c hc ht hcap with h1 | h1
      · exact h1 ho
      · exact hcov h1
  · unfold TimeLe TimeLt jsStrGt
    rw [jsStrLe_clockText h1 m1 h2 m2 (by omega) hm1 (by omega) hm2,
      jsStrLe_clockText h2 m2 h1 m1 (by omega) hm2 (by omega) hm1]
    simp

/-! ## Sessions appended by candidate generation (C16, C17) -/

/-- A faculty member blocked on Monday from 09:00 to 11:00. -/
theorem findSuitableFaculty_blocked_sample :
    (findSuitableFaculty (sampleSubject 1)
        [⟨10, [1], fun _ => some ⟨true, [⟨"09:00", "11:00", true⟩]⟩⟩] .monday "10:00").isNone =
        true ∧
      (findSuitableFaculty (sampleSubject 1)
        [⟨10, [1], fun _ => some ⟨true, [⟨"09:00", "11:00", true⟩]⟩⟩] .monday "11:00").isSome =
        true := by
  decide

theorem randomTimeSlot_mem (ρ : Nat → Nat) (pos : Nat) : randomTimeSlot ρ pos ∈ timeSlots := by
  unfold randomTimeSlot randomIndex
  have h : ρ pos % timeSlots.length < timeSlots.length := Nat.mod_lt _ (by decide)
  rw [List.getD_eq_getElem _ _ h]
  exact List.getElem_mem _

theorem randomDay_mem (ρ : Nat → Nat) (pos : Nat) : randomDay ρ pos ∈ days := by
  cases randomDay ρ pos <;> decide

/-- What one attempt of the `while` loop does when it returns: nothing, or one push of a
session built from a faculty member and a classroom that were found suitable. -/
theorem attempt_cases {ρ : Nat → Nat} {faculty : List Faculty} {classrooms : List Classroom}
    {subject : Subject} {schedule schedule' : Schedule} {pos placed placed' : Nat}
    (h : attempt ρ faculty classrooms subject schedule pos placed = .ok (schedule', placed')) :
    (schedule' = schedule ∧ placed' = placed) ∨
      ∃ f c, findSuitableFaculty subject faculty (randomDay ρ pos)
          (randomTimeSlot ρ (pos + 1)).startTime = some f ∧
        findSuitableClassroom subject classrooms (randomDay ρ pos)
          (randomTimeSlot ρ (pos + 1)).startTime = some c ∧
        checkScheduleConflict (schedule (randomDay ρ pos)) (randomTimeSlot ρ (pos + 1))
          f.id c.id = .ok false ∧
        schedule' = schedule.push (randomDay ρ pos)
          (randomSession subject (randomTimeSlot ρ (pos + 1)) f c) ∧
        placed' = placed + 1 := by
  unfold attempt at h
  simp only at h
  split at h
  · rename_i f c hf hc
    cases hcc : checkScheduleConflict (schedule (randomDay ρ pos))
        (randomTimeSlot ρ (pos + 1)) f.id c.id with
    | ok b =>
      rw [hcc] at h
      cases b with
      | true =>
        simp only [Res.bind, if_true, Res.ok.injEq, Prod.mk.injEq] at h
        exact Or.inl ⟨h.1.symm, h.2.symm⟩
      | false =>
        simp only [Res.bind, Bool.false_eq_true, if_false, Res.ok.injEq, Prod.mk.injEq] at h
        exact Or.inr ⟨f, c, hf, hc, hcc, h.1.symm, h.2.symm⟩
    | thrown m => rw [hcc] at h; simp [Res.bind] at h
    | outOfFuel => rw [hcc] at h; simp [Res.bind] at h
  · simp only [Res.ok.injEq, Prod.mk.injEq] at h
    exact Or.inl ⟨h.1.symm, h.2.symm⟩

theorem ExtendsBy.refl (P : Day → ScheduledClass → Prop) (schedule : Schedule) :
    ExtendsBy P schedule schedule :=
  fun _ => ⟨[], (List.append_nil _).symm, fun _ hx => absurd hx (List.not_mem_nil _)⟩

theorem ExtendsBy.trans {P : Day → ScheduledClass → Prop} {a b c : Schedule}
    (hab : ExtendsBy P a b) (hbc : ExtendsBy P b c) : ExtendsBy P a c := by
  intro d
  obtain ⟨l1, h1, p1⟩ := hab d
  obtain ⟨l2, h2, p2⟩ := hbc d
  refine ⟨l1 ++ l2, by rw [h2, h1, List.append_assoc], ?_⟩
  intro x hx
  rcases List.mem_append.1 hx with hx | hx
  · exact p1 x hx
  · exact p2 x hx

theorem ExtendsBy.push {P : Day → ScheduledClass → Prop} (schedule : Schedule) {day : Day}
    {x : ScheduledClass} (hx : P day x) : ExtendsBy P schedule (schedule.push day x) := by
  intro d
  unfold Schedule.push
  by_cases hd : d = day
  · subst hd
    exact ⟨[x], by simp, fun y hy => by rw [List.mem_singleton.1 hy]; exact hx⟩
  · exact ⟨[], by simp [hd], fun _ hy => absurd hy (List.not_mem_nil _)⟩

theorem ExtendsBy.mono {P Q : Day → ScheduledClass → Prop} {a b : Schedule}
    (h : ExtendsBy P a b) (hPQ : ∀ d x, P d x → Q d x) : ExtendsBy Q a b := by
  intro d
  obtain ⟨l, h1, p1⟩ := h d
  exact ⟨l, h1, fun x hx => hPQ d x (p1 x hx)⟩

theorem attempt_valid {ρ : Nat → Nat} {faculty : List Faculty} {classrooms : List Classroom}
    {subject : Subject} {schedule schedule' : Schedule} {pos placed placed' : Nat}
    (hfix : subject.fixedTimeSlots = [])
    (h : attempt ρ faculty classrooms subject schedule pos placed = .ok (schedule', placed')) :
    ExtendsBy (ValidAssignment [subject] faculty classrooms) schedule schedule' := by
  rcases attempt_cases h with ⟨rfl, _⟩ | ⟨f, c, hf, hc, _, rfl, _⟩
  · exact ExtendsBy.refl _ _
  · apply ExtendsBy.push
    have h1 := findSuitableFaculty_some hf
    have h2 := findSuitableClassroom_some hc
    exact ⟨randomDay_mem ρ pos, randomTimeSlot_mem ρ (pos + 1), subject,
      List.mem_singleton.2 rfl, hfix, rfl, rfl, ⟨f, h1.1, rfl, h1.2⟩, ⟨c, h2.1, rfl, h2.2⟩⟩

theorem placeLoop_valid {ρ : Nat → Nat} {faculty : List Faculty}
    {classrooms : List Classroom} {subject : Subject} (hfix : subject.fixedTimeSlots = [])
    (fuel : Nat) :
    ∀ {schedule schedule' : Schedule} {pos pos' placed : Nat},
      placeLoop ρ faculty classrooms subject fuel schedule pos placed = .ok (schedule', pos') →
      ExtendsBy (ValidAssignment [subject] faculty classrooms) schedule schedule' := by
  induction fuel with
  | zero =>
    intro schedule schedule' pos pos' placed h
    unfold placeLoop at h
    split at h
    · cases h
    · simp only [Res.ok.injEq, Prod.mk.injEq] at h
      rw [← h.1]; exact ExtendsBy.refl _ _
  | succ n ih =>
    intro schedule schedule' pos pos' placed h
    unfold placeLoop at h
    split at h
    · split at h
      · rename_i s1 p1 ha
        have hs1 := attempt_valid hfix ha
        split at h
        · simp only [Res.ok.injEq, Prod.mk.injEq] at h
          rw [← h.1]; exact hs1
        · exact hs1.trans (ih h)
      · cases h
      · cases h
    · simp only [Res.ok.injEq, Prod.mk.injEq] at h
      rw [← h.1]; exact ExtendsBy.refl _ _

theorem placeSubjects_valid {ρ : Nat → Nat} {faculty : List Faculty}
    {classrooms : List Classroom} {fuel : Nat} (all : List Subject) (subjects : List Subject) :
    ∀ {schedule schedule' : Schedule} {pos pos' : Nat},
      (∀ s ∈ subjects, s ∈ all ∧ s.fixedTimeSlots = []) →
      placeSubjects ρ faculty classrooms fuel subjects schedule pos = .ok (schedule', pos') →
      ExtendsBy (ValidAssignment all faculty classrooms) schedule schedule' := by
  induction subjects with
  | nil =>
    intro schedule schedule' pos pos' _ h
    simp only [placeSubjects, Res.ok.injEq, Prod.mk.injEq] at h
    rw [← h.1]; exact ExtendsBy.refl _ _
  | cons s rest ih =>
    intro schedule schedule' pos pos' hs h
    simp only [placeSubjects] at h
    cases hl : placeLoop ρ faculty classrooms s fuel schedule pos 0 with
    | ok r =>
      rw [hl] at h
      simp only [Res.bind] at h
      have h1 := placeLoop_valid (hs s (List.mem_cons_self _ _)).2 fuel (by rw [hl])
      have h1' : ExtendsBy (ValidAssignment all faculty classrooms) schedule r.1 := by
        apply h1.mono
        rintro d x ⟨hd, hts, s', hs', rest'⟩
        rw [List.mem_singleton.1 hs'] at rest'
        exact ⟨hd, hts, s, (hs s (List.mem_cons_self _ _)).1, rest'⟩
      exact h1'.trans (ih (fun x hx => hs x (List.mem_cons_of_mem _ hx)) h)
    | thrown m => rw [hl] at h; simp [Res.bind] at h
    | outOfFuel => rw [hl] at h; simp [Res.bind] at h

theorem mem_remainingSubjects {subjects : List Subject} {s : Subject} :
    s ∈ remainingSubjects subjects ↔ s ∈ subjects ∧ s.fixedTimeSlots = [] := by
  unfold remainingSubjects
  rw [List.mem_filter, List.isEmpty_iff]

/-- Claim C16: every session `createRandomSchedule` appends is a valid assignment.  A session
is appended only by an attempt of the `while` loop, and an attempt for a subject without fixed
slots, on any schedule and at any draws, leaves the schedule alone or appends one session that
is a valid assignment: a working day, a catalog slot, a listed faculty member authorized for
the subject and free at that day and slot start, and a listed classroom of the subject's
preferred type and sufficient capacity, free at that day and slot start.  So when
`createRandomSchedule` returns, the returned schedule is the base schedule with valid
assignments appended to its day lists. -/
theorem createRandomSchedule_valid (fuel : Nat) (ρ : Nat → Nat) (pos : Nat)
    (baseSchedule : Schedule) (subjects : List Subject) (faculty : List Faculty)
    (classrooms : List Classroom) :
    (∀ subject ∈ remainingSubjects subjects,
      ∀ (schedule schedule' : Schedule) (cursor placed placed' : Nat),
        attempt ρ faculty classrooms subject schedule cursor placed = .ok (schedule', placed') →
        schedule' = schedule ∨
          ∃ x, schedule' = schedule.push (randomDay ρ cursor) x ∧
            ValidAssignment subjects faculty classrooms (randomDay ρ cursor) x) ∧
      ∀ (schedule : Schedule) (pos' : Nat),
        createRandomSchedule fuel ρ pos baseSchedule subjects faculty classrooms =
          .ok (schedule, pos') →
        ∀ d, ∃ appended, schedule d = baseSchedule d ++ appended ∧
          ∀ x ∈ appended, ValidAssignment subjects faculty classrooms d x := by
  refine ⟨?_, fun schedule pos' hret =>
    placeSubjects_valid subjects _ (fun _ hs => mem_remainingSubjects.1 hs) hret⟩
  intro subject hs schedule schedule' cursor placed placed' h
  rcases attempt_cases h with ⟨rfl, _⟩ | ⟨f, c, hf, hc, _, rfl, _⟩
  · exact Or.inl rfl
  · have h1 := findSuitableFaculty_some hf
    have h2 := findSuitableClassroom_some hc
    exact Or.inr ⟨_, rfl, randomDay_mem ρ cursor, randomTimeSlot_mem ρ (cursor + 1), subject,
      (mem_remainingSubjects.1 hs).1, (mem_remainingSubjects.1 hs).2, rfl, rfl,
      ⟨f, h1.1, rfl, h1.2⟩, ⟨c, h2.1, rfl, h2.2⟩⟩

/-- Witness for claim C16: the run of `createRandomSchedule` from the base schedule holding
the fixed slot of `fixedSubject`, with draws Monday 10:00-11:00 and Wednesday 12:00-13:00. -/
theorem createRandomSchedule_valid_witness :
    createRandomSchedule 2 countingDraws 0 fixedBase [fixedSubject, sampleSubject 2]
        [sampleFaculty] [sampleClassroom] = .ok (sampleCandidate, 4) ∧
      ∀ d, ∃ appended, sampleCandidate d = fixedBase d ++ appended ∧
        ∀ x ∈ appended, ValidAssignment [fixedSubject, sampleSubject 2] [sampleFaculty]
          [sampleClassroom] d x :=
  ⟨rfl, (createRandomSchedule_valid 2 countingDraws 0 fixedBase [fixedSubject, sampleSubject 2]
    [sampleFaculty] [sampleClassroom]).2 sampleCandidate 4 rfl⟩

theorem sessionsOf_push (i : Id) (schedule : Schedule) (day : Day) (x : ScheduledClass) :
    sessionsOf i (schedule.push day x) =
      sessionsOf i schedule + if x.subject = i then 1 else 0 := by
  by_cases hx : x.subject = i
  · cases day <;> simp [sessionsOf, days, Schedule.push, List.filter_append, hx] <;> omega
  · cases day <;> simp [sessionsOf, days, Schedule.push, List.filter_append, hx]

/-- The count of the `while` loop: it appends `k` sessions, all of its subject, and never
takes the count of placed classes beyond the required number. -/
theorem placeLoop_count {ρ : Nat → Nat} {faculty : List Faculty}
    {classrooms : List Classroom} {subject : Subject} (fuel : Nat) :
    ∀ {schedule schedule' : Schedule} {pos pos' placed : Nat},
      placeLoop ρ faculty classrooms subject fuel schedule pos placed = .ok (schedule', pos') →
      ∃ k, placed + k ≤ max placed subject.classRequirements.classesPerWeek ∧
        ∀ i, sessionsOf i schedule' =
          sessionsOf i schedule + if subject.id = i then k else 0 := by
  induction fuel with
  | zero =>
    intro schedule schedule' pos pos' placed h
    unfold placeLoop at h
    split at h
    · cases h
    · simp only [Res.ok.injEq, Prod.mk.injEq] at h
      rw [← h.1]
      exact ⟨0, by omega, fun i => by simp⟩
  | succ n ih =>
    intro schedule schedule' pos pos' placed h
    unfold placeLoop at h
    split at h
    · rename_i hlt
      split at h
      · rename_i s1 p1 ha
        rcases attempt_cases ha with ⟨rfl, rfl⟩ | ⟨f, c, _, _, _, rfl, rfl⟩
        · split at h
          · simp only [Res.ok.injEq, Prod.mk.injEq] at h
            rw [← h.1]
            exact ⟨0, by omega, fun i => by simp⟩
          · exact ih h
        · rw [if_neg (by omega)] at h
          obtain ⟨k, hk, hc⟩ := ih h
          refine ⟨k + 1, by omega, fun i => ?_⟩
          rw [hc i, sessionsOf_push]
          simp only [randomSession]
          split <;> omega
      · cases h
      · cases h
    · simp only [Res.ok.injEq, Prod.mk.injEq] at h
      rw [← h.1]
      exact ⟨0, by omega, fun i => by simp⟩

theorem placeSubjects_count {ρ : Nat → Nat} {faculty : List Faculty}
    {classrooms : List Classroom} {fuel : Nat} (subjects : List Subject) :
    ∀ {schedule schedule' : Schedule} {pos pos' : Nat},
      placeSubjects ρ faculty classrooms fuel subjects schedule pos = .ok (schedule', pos') →
      ∀ i, sessionsOf i schedule ≤ sessionsOf i schedule' ∧
        sessionsOf i schedule' ≤ sessionsOf i schedule + requiredOf i subjects := by
  induction subjects with
  | nil =>
    intro schedule schedule' pos pos' h i
    simp only [placeSubjects, Res.ok.injEq, Prod.mk.injEq] at h
    rw [← h.1]
    exact ⟨Nat.le_refl _, Nat.le_add_right _ _⟩
  | cons s rest ih =>
    intro schedule schedule' pos pos' h i
    simp only [placeSubjects] at h
    cases hl : placeLoop ρ faculty classrooms s fuel schedule pos 0 with
    | ok r =>
      rw [hl] at h
      simp only [Res.bind] at h
      obtain ⟨k, hk, hc⟩ := placeLoop_count fuel (show placeLoop ρ faculty classrooms s fuel
        schedule pos 0 = .ok (r.1, r.2) from hl)
      have h2 := ih h i
      have h1 := hc i
      have hk' : k ≤ s.classRequirements.classesPerWeek := by
        rw [Nat.zero_add, Nat.max_eq_right (Nat.zero_le _)] at hk
        exact hk
      unfold requiredOf at h2 ⊢
      by_cases hi : s.id = i
      · simp only [hi, if_true] at h1
        simp only [List.filter_cons, hi, decide_True, if_true, List.map_cons, List.sum_cons]
        omega
      · simp only [hi, if_false] at h1
        simp only [List.filter_cons, hi, decide_False, Bool.false_eq_true, if_false]
        omega
    | thrown m => rw [hl] at h; simp [Res.bind] at h
    | outOfFuel => rw [hl] at h; simp [Res.bind] at h

theorem requiredOf_nodup {subjects : List Subject} (hids : (subjects.map fun s => s.id).Nodup)
    {s : Subject} (hs : s ∈ subjects) (p : Subject → Bool) :
    requiredOf s.id (subjects.filter p) =
      if p s = true then s.classRequirements.classesPerWeek else 0 := by
  induction subjects with
  | nil => cases hs
  | cons t rest ih =>
    rw [List.map_cons, List.nodup_cons] at hids
    have hnone : ∀ q : Subject → Bool, t.id ∉ rest.map (fun s => s.id) →
        requiredOf t.id (rest.filter q) = 0 := by
      intro q hq
      unfold requiredOf
      rw [List.filter_filter]
      have : rest.filter (fun a => decide (a.id = t.id) && q a) = [] := by
        rw [List.filter_eq_nil_iff]
        intro a ha
        have : a.id ≠ t.id := fun h => hq (h ▸ List.mem_map_of_mem (fun s => s.id) ha)
        simp [this]
      rw [this]
      rfl
    rcases List.mem_cons.1 hs with rfl | hs'
    · have h0 := hnone p hids.1
      by_cases hp : p s = true
      · rw [List.filter_cons_of_pos hp, if_pos hp]
        unfold requiredOf at h0 ⊢
        simp only [List.filter_cons, decide_True, if_true, List.map_cons, List.sum_cons]
        omega
      · rw [List.filter_cons_of_neg hp, if_neg hp]
        exact h0
    · have hne : t.id ≠ s.id := fun h =>
        hids.1 (h ▸ List.mem_map_of_mem (fun s => s.id) hs')
      have := ih hids.2 hs'
      by_cases hp : p t = true
      · rw [List.filter_cons_of_pos hp]
        unfold requiredOf at this ⊢
        simp only [List.filter_cons, hne, decide_False, Bool.false_eq_true, if_false]
        exact this
      · rw [List.filter_cons_of_neg hp]
        exact this

/-- Claim C17: when `createRandomSchedule` returns on subjects with distinct identifiers, the
sessions of a subject without fixed slots grow by at most its `classesPerWeek`, and the
sessions of a subject with a fixed slot do not change (none is appended). -/
theorem createRandomSchedule_count (fuel : Nat) (ρ : Nat → Nat) (pos : Nat)
    (baseSchedule : Schedule) (subjects : List Subject) (faculty : List Faculty)
    (classrooms : List Classroom) (schedule : Schedule) (pos' : Nat)
    (hids : (subjects.map fun s => s.id).Nodup)
    (hret : createRandomSchedule fuel ρ pos baseSchedule subjects faculty classrooms =
      .ok (schedule, pos')) :
    ∀ s ∈ subjects,
      sessionsOf s.id baseSchedule ≤ sessionsOf s.id schedule ∧
      (s.fixedTimeSlots = [] →
        sessionsOf s.id schedule - sessionsOf s.id baseSchedule ≤
          s.classRequirements.classesPerWeek) ∧
      (s.fixedTimeSlots ≠ [] →
        sessionsOf s.id schedule - sessionsOf s.id baseSchedule = 0) := by
  intro s hs
  have h := placeSubjects_count _ hret s.id
  unfold remainingSubjects at h
  rw [requiredOf_nodup hids hs] at h
  refine ⟨h.1, fun hfix => ?_, fun hfix => ?_⟩
  · have : s.fixedTimeSlots.isEmpty = true := by rw [hfix]; rfl
    rw [if_pos this] at h
    omega
  · have : ¬ s.fixedTimeSlots.isEmpty = true := by
      rw [List.isEmpty_iff]; exact hfix
    rw [if_neg this] at h
    omega

/-- Witness for claim C17: in the run from the base schedule holding the fixed slot of
`fixedSubject`, two sessions of subject `1` are appended and none of subject `2`. -/
theorem createRandomSchedule_count_witness :
    createRandomSchedule 2 countingDraws 0 fixedBase [fixedSubject, sampleSubject 2]
        [sampleFaculty] [sampleClassroom] = .ok (sampleCandidate, 4) ∧
      ∀ s ∈ [fixedSubject, sampleSubject 2],
        sessionsOf s.id fixedBase ≤ sessionsOf s.id sampleCandidate ∧
        (s.fixedTimeSlots = [] →
          sessionsOf s.id sampleCandidate - sessionsOf s.id fixedBase ≤
            s.classRequirements.classesPerWeek) ∧
        (s.fixedTimeSlots ≠ [] →
          sessionsOf s.id sampleCandidate - sessionsOf s.id fixedBase = 0) :=
  ⟨rfl, createRandomSchedule_count 2 countingDraws 0 fixedBase [fixedSubject, sampleSubject 2]
    [sampleFaculty] [sampleClassroom] sampleCandidate 4 (by decide) rfl⟩

/-! ## What crossover selects (C18) -/

theorem crossoverDay_sublist (h : Heap) (ρ : Nat → Nat) (pool : List Ref) :
    ∀ (acc : List Ref) (pos : Nat),
      ∃ chosen, (crossoverDay h ρ pool acc pos).1 = acc ++ chosen ∧ chosen.Sublist pool := by
  induction pool with
  | nil => intro acc pos; exact ⟨[], (List.append_nil _).symm, List.Sublist.refl _⟩
  | cons x rest ih =>
    intro acc pos
    unfold crossoverDay
    split
    · obtain ⟨chosen, h1, h2⟩ := ih (acc ++ [x]) (pos + 1)
      exact ⟨x :: chosen, by rw [h1, List.append_assoc]; rfl, h2.cons₂ x⟩
    · obtain ⟨chosen, h1, h2⟩ := ih acc (pos + 1)
      exact ⟨chosen, h1, h2.cons x⟩

theorem crossoverDays_sublist (h : Heap) (ρ : Nat → Nat) (parent1 parent2 : RefSchedule)
    (ds : List Day) :
    ∀ (offspring : RefSchedule) (pos : Nat),
      (∀ d, (offspring d).Sublist (parent1 d ++ parent2 d)) →
      ∀ d, ((crossoverDays h ρ parent1 parent2 ds offspring pos).1 d).Sublist
        (parent1 d ++ parent2 d) := by
  induction ds with
  | nil => intro offspring pos ho d; exact ho d
  | cons day rest ih =>
    intro offspring pos ho
    unfold crossoverDays
    apply ih
    intro d
    by_cases hd : d = day
    · simp only [hd, if_true]
      obtain ⟨chosen, h1, h2⟩ := crossoverDay_sublist h ρ (parent1 day ++ parent2 day) [] pos
      rw [h1, List.nil_append]
      exact h2
    · simp only [if_neg hd]
      exact ho d

theorem crossover_sublist (h : Heap) (ρ : Nat → Nat) (pos : Nat)
    (parent1 parent2 : RefSchedule) (d : Day) :
    ((crossover h ρ pos parent1 parent2).1 d).Sublist (parent1 d ++ parent2 d) :=
  crossoverDays_sublist h ρ parent1 parent2 days (fun _ => []) pos
    (fun _ => List.nil_sublist _) d

/-- Claim C18: for every pair of parents, every day and every stream of coin flips, the day
list of the offspring of `crossover` is a sub-sequence of parent A's day list followed by
parent B's, as session objects and as sessions; so every offspring session is a session of
one of the parents on the same day, the offspring day is no longer than the two parent days
together, and the offspring of `crossover(B, A)` (under any draws) is taken from the same
sessions of that day. -/
theorem crossover_selects (h : Heap) (ρ : Nat → Nat) (pos : Nat) (parentA parentB : RefSchedule)
    (d : Day) :
    ((crossover h ρ pos parentA parentB).1 d).Sublist (parentA d ++ parentB d) ∧
      (deref h (crossover h ρ pos parentA parentB).1 d).Sublist
        (deref h parentA d ++ deref h parentB d) ∧
      (∀ r ∈ (crossover h ρ pos parentA parentB).1 d, r ∈ parentA d ∨ r ∈ parentB d) ∧
      ((crossover h ρ pos parentA parentB).1 d).length ≤
        (parentA d).length + (parentB d).length ∧
      (∀ (ρ' : Nat → Nat) (pos' : Nat), ∀ r ∈ (crossover h ρ' pos' parentB parentA).1 d,
        r ∈ parentA d ∨ r ∈ parentB d) := by
  have hs := crossover_sublist h ρ pos parentA parentB d
  refine ⟨hs, ?_, ?_, ?_, ?_⟩
  · have := hs.map h.read
    rw [List.map_append] at this
    exact this
  · intro r hr
    exact List.mem_append.1 (hs.subset hr)
  · have := hs.length_le
    rw [List.length_append] at this
    exact this
  · intro ρ' pos' r hr
    exact (List.mem_append.1 ((crossover_sublist h ρ' pos' parentB parentA d).subset hr)).symm

/-! ## The effect of mutation (C19, C20) -/

theorem Heap.read_set (h : Heap) (r r' : Ref) (v : ScheduledClass) :
    Heap.read (h.set r v) r' = if r = r' ∧ r < h.length then v else Heap.read h r' := by
  unfold Heap.read
  rw [List.getD_eq_getElem?_getD, List.getD_eq_getElem?_getD, List.getElem?_set]
  by_cases hr : r = r'
  · subst hr
    by_cases hl : r < h.length
    · simp [hl]
    · simp [hl, List.getElem?_eq_none (Nat.le_of_not_lt hl)]
  · simp [hr]

/-- What `mutate` does to the session objects: nothing, or one write of the drawn catalog
slot to a session object of the drawn day. -/
theorem mutate_cases (h : Heap) (ρ : Nat → Nat) (pos : Nat) (schedule : RefSchedule) :
    (schedule (randomDay ρ pos) = [] ∧ mutate h ρ pos schedule = (h, pos + 1)) ∨
      (schedule (randomDay ρ pos) ≠ [] ∧
        ∃ r ∈ schedule (randomDay ρ pos),
          mutate h ρ pos schedule =
            (h.set r { h.read r with timeSlot := randomTimeSlot ρ (pos + 2) }, pos + 3)) := by
  unfold mutate
  simp only []
  cases hl : schedule (randomDay ρ pos) with
  | nil => left; simp
  | cons x xs =>
    right
    refine ⟨List.cons_ne_nil _ _, ?_⟩
    have hlen : randomIndex ρ (pos + 1) (x :: xs).length < (x :: xs).length :=
      Nat.mod_lt _ (by simp)
    refine ⟨(x :: xs).getD (randomIndex ρ (pos + 1) (x :: xs).length) 0, ?_, ?_⟩
    · rw [List.getD_eq_getElem _ _ hlen]
      exact List.getElem_mem _
    · simp

/-- Claim C19: `mutate` leaves the day lists of the individual alone and writes to at most one
session object: the number of session objects is unchanged, every session keeps its subject,
faculty, classroom, class type and fixed flag, at most one session object has a different
time slot than before, and that new time slot is a catalog slot; so every day of the individual
holds the same number of sessions, in the same order, with the same fields other than the time
slot, and where no session object is listed twice at most one entry of the schedule changes. -/
theorem mutate_frame (h : Heap) (ρ : Nat → Nat) (pos : Nat) (schedule : RefSchedule) :
    (mutate h ρ pos schedule).1.length = h.length ∧
      (∀ r, ((mutate h ρ pos schedule).1.read r).frame = (h.read r).frame) ∧
      (∃ r₀, ∀ r, r ≠ r₀ → (mutate h ρ pos schedule).1.read r = h.read r) ∧
      (∀ r, (mutate h ρ pos schedule).1.read r ≠ h.read r →
        ((mutate h ρ pos schedule).1.read r).timeSlot ∈ timeSlots) ∧
      (∀ d, (deref (mutate h ρ pos schedule).1 schedule d).map ScheduledClass.frame =
        (deref h schedule d).map ScheduledClass.frame) ∧
      ((days.map schedule).flatten.Nodup →
        ((days.map schedule).flatten.filter fun r =>
          decide ((mutate h ρ pos schedule).1.read r ≠ h.read r)).length ≤ 1) := by
  have key : ∃ r₀ v, (mutate h ρ pos schedule).1 = h.set r₀ v ∧ v.frame = (h.read r₀).frame ∧
      v.timeSlot ∈ timeSlots := by
    rcases mutate_cases h ρ pos schedule with ⟨_, hm⟩ | ⟨_, r, _, hm⟩
    · refine ⟨h.length, { h.read h.length with timeSlot := randomTimeSlot ρ 0 }, ?_, rfl,
        randomTimeSlot_mem ρ 0⟩
      rw [hm, List.set_eq_of_length_le (Nat.le_refl _)]
    · exact ⟨r, { h.read r with timeSlot := randomTimeSlot ρ (pos + 2) }, by rw [hm], rfl,
        randomTimeSlot_mem ρ (pos + 2)⟩
  obtain ⟨r₀, v, hm, hv, hts⟩ := key
  rw [hm]
  have hframe : ∀ r, (Heap.read (h.set r₀ v) r).frame = (h.read r).frame := by
    intro r
    rw [Heap.read_set]
    split
    · rename_i hr; rw [← hr.1]; exact hv
    · rfl
  have hother : ∀ r, r ≠ r₀ → Heap.read (h.set r₀ v) r = h.read r := by
    intro r hr
    rw [Heap.read_set, if_neg (fun hc => hr hc.1.symm)]
  refine ⟨List.length_set _ _ _, hframe, ⟨r₀, hother⟩, ?_, ?_, ?_⟩
  · intro r hr
    rw [Heap.read_set] at hr ⊢
    split
    · exact hts
    · rename_i hc; rw [if_neg hc] at hr; exact absurd rfl hr
  · intro d
    simp only [deref, List.map_map]
    apply List.map_congr_left
    intro r _
    exact hframe r
  · intro hnd
    have hsub : ((days.map schedule).flatten.filter fun r =>
        decide (Heap.read (h.set r₀ v) r ≠ h.read r)).Sublist
        ((days.map schedule).flatten.filter fun r => decide (r = r₀)) := by
      apply List.monotone_filter_right
      intro r hr
      simp only [decide_eq_true_eq] at hr ⊢
      by_contra hne
      exact hr (hother r hne)
    refine Nat.le_trans hsub.length_le ?_
    have := List.nodup_iff_count_le_one.1 hnd r₀
    rw [List.count_eq_countP, List.countP_eq_length_filter] at this
    refine Nat.le_trans (Nat.le_of_eq ?_) this
    congr 1

/-- Claim C20 as amended: `mutate` draws one of the six days whatever they hold; when the
drawn day has at least one session, the time slot of one session of that day is reassigned to
the drawn catalog slot; when the drawn day has none, `mutate` changes nothing. -/
theorem mutate_drawn_day (h : Heap) (ρ : Nat → Nat) (pos : Nat) (schedule : RefSchedule) :
    randomDay ρ pos ∈ days ∧
      (schedule (randomDay ρ pos) ≠ [] →
        ∃ r ∈ schedule (randomDay ρ pos),
          (mutate h ρ pos schedule).1 =
            h.set r { h.read r with timeSlot := randomTimeSlot ρ (pos + 2) } ∧
          randomTimeSlot ρ (pos + 2) ∈ timeSlots) ∧
      (schedule (randomDay ρ pos) = [] → (mutate h ρ pos schedule).1 = h) := by
  refine ⟨randomDay_mem ρ pos, fun hne => ?_, fun he => ?_⟩
  · rcases mutate_cases h ρ pos schedule with ⟨he, _⟩ | ⟨_, r, hr, hm⟩
    · exact absurd he hne
    · exact ⟨r, hr, by rw [hm], randomTimeSlot_mem ρ (pos + 2)⟩
  · rcases mutate_cases h ρ pos schedule with ⟨_, hm⟩ | ⟨hne, _⟩
    · rw [hm]
    · exact absurd he hne

/-- Counterexample to claim C20 as stated: an individual whose only session is on Tuesday,
with a first draw of `0`.  The schedule holds a session, `mutate` selects Monday, which holds
none, and changes nothing. -/
theorem mutate_empty_day :
    tuesdayOnly .tuesday = [0] ∧
      randomDay zeroDraws 0 = .monday ∧
      tuesdayOnly (randomDay zeroDraws 0) = [] ∧
      mutate [mondaySession] zeroDraws 0 tuesdayOnly = ([mondaySession], 1) :=
  ⟨rfl, rfl, rfl, rfl⟩

/-! ## What the search keeps -/

theorem mem_insertSorted {α : Type} (cmp : α → α → JsNum) (x y : α) (l : List α) :
    y ∈ insertSorted cmp x l ↔ y = x ∨ y ∈ l := by
  induction l with
  | nil => simp [insertSorted]
  | cons z zs ih =>
    unfold insertSorted
    split
    · simp
    · rw [List.mem_cons, ih, List.mem_cons]
      tauto

theorem mem_foldl_insertSorted {α : Type} (cmp : α → α → JsNum) (y : α) (l : List α) :
    ∀ acc, y ∈ l.foldl (fun sorted x => insertSorted cmp x sorted) acc ↔ y ∈ acc ∨ y ∈ l := by
  induction l with
  | nil => intro acc; simp
  | cons z zs ih =>
    intro acc
    rw [List.foldl_cons, ih, mem_insertSorted, List.mem_cons]
    tauto

theorem mem_jsSort {α : Type} (cmp : α → α → JsNum) (y : α) (l : List α) :
    y ∈ jsSort cmp l ↔ y ∈ l := by
  unfold jsSort
  rw [mem_foldl_insertSorted]
  simp

theorem length_insertSorted {α : Type} (cmp : α → α → JsNum) (x : α) (l : List α) :
    (insertSorted cmp x l).length = l.length + 1 := by
  induction l with
  | nil => rfl
  | cons z zs ih =>
    unfold insertSorted
    split
    · rfl
    · rw [List.length_cons, ih, List.length_cons]

theorem length_foldl_insertSorted {α : Type} (cmp : α → α → JsNum) (l : List α) :
    ∀ acc, (l.foldl (fun sorted x => insertSorted cmp x sorted) acc).length =
      acc.length + l.length := by
  induction l with
  | nil => intro acc; rfl
  | cons z zs ih =>
    intro acc
    rw [List.foldl_cons, ih, length_insertSorted, List.length_cons]
    omega

theorem length_jsSort {α : Type} (cmp : α → α → JsNum) (l : List α) :
    (jsSort cmp l).length = l.length := by
  unfold jsSort
  rw [length_foldl_insertSorted]
  simp

theorem getD_mem_or {α : Type} (l : List α) (i : Nat) (d : α) : l.getD i d ∈ l ∨ l.getD i d = d := by
  by_cases h : i < l.length
  · left
    rw [List.getD_eq_getElem _ _ h]
    exact List.getElem_mem _
  · right
    exact List.getD_eq_default _ _ (Nat.le_of_not_lt h)

theorem headD_mem_or {α : Type} (l : List α) (d : α) : l.headD d ∈ l ∨ l.headD d = d := by
  cases l with
  | nil => right; rfl
  | cons x xs => left; exact List.mem_cons_self _ _

/-- The individual a tournament selects is one of the population, or the default individual
when the population is empty. -/
theorem tournamentSelection_mem (ρ : Nat → Nat) (pos : Nat) (population : List Individual) :
    (tournamentSelection ρ pos population).1 ∈ population ∨
      (tournamentSelection ρ pos population).1 = default := by
  unfold tournamentSelection
  simp only []
  rcases headD_mem_or (jsSort byFitness
      [population.getD (randomIndex ρ pos population.length) default,
       population.getD (randomIndex ρ (pos + 1) population.length) default,
       population.getD (randomIndex ρ (pos + 2) population.length) default]) default with h | h
  · rw [mem_jsSort] at h
    simp only [List.mem_cons, List.mem_singleton, List.not_mem_nil, or_false] at h
    rcases h with h | h | h <;> rw [h] <;> exact getD_mem_or _ _ _
  · exact Or.inr h

theorem tournamentSelection_refs (ρ : Nat → Nat) (pos : Nat) (population : List Individual)
    (d : Day) (r : Ref) (hr : r ∈ (tournamentSelection ρ pos population).1.schedule d) :
    ∃ p ∈ population, r ∈ p.schedule d := by
  rcases tournamentSelection_mem ρ pos population with h | h
  · exact ⟨_, h, hr⟩
  · rw [h] at hr
    cases hr

/-- What `mutate` keeps: the number of session objects and every field but the time slot. -/
theorem mutate_keeps (h : Heap) (ρ : Nat → Nat) (pos : Nat) (schedule : RefSchedule) :
    (mutate h ρ pos schedule).1.length = h.length ∧
      ∀ r, ((mutate h ρ pos schedule).1.read r).frame = (h.read r).frame := by
  rcases mutate_cases h ρ pos schedule with ⟨_, hm⟩ | ⟨_, r, _, hm⟩
  · rw [hm]; exact ⟨rfl, fun _ => rfl⟩
  · rw [hm]
    refine ⟨List.length_set _ _ _, fun r' => ?_⟩
    rw [Heap.read_set]
    split
    · rename_i hr; rw [← hr.1]; rfl
    · rfl

/-- One offspring: the session objects keep their number and their fields other than the time
slot, and the offspring, not yet evaluated, holds references of individuals of the parent
population only. -/
theorem offspringStep_spec (ρ : Nat → Nat) (population : List Individual) (st : Search) :
    (offspringStep ρ population st).heap.length = st.heap.length ∧
      (∀ r, ((offspringStep ρ population st).heap.read r).frame = (st.heap.read r).frame) ∧
      ∃ x, (offspringStep ρ population st).population = st.population ++ [x] ∧
        x.fitness = none ∧ ∀ d, ∀ r ∈ x.schedule d, ∃ p ∈ population, r ∈ p.schedule d := by
  unfold offspringStep
  simp only []
  refine ⟨?_, ?_, ⟨_, rfl, rfl, ?_⟩⟩
  · split
    · exact (mutate_keeps _ _ _ _).1
    · rfl
  · split
    · exact (mutate_keeps _ _ _ _).2
    · intro r; rfl
  · intro d r hr
    rcases List.mem_append.1 ((crossover_sublist _ _ _ _ _ d).subset hr) with h | h
    · exact tournamentSelection_refs _ _ _ d r h
    · exact tournamentSelection_refs _ _ _ d r h

theorem offspringLoop_spec (ρ : Nat → Nat) (population : List Individual) (count : Nat) :
    ∀ st : Search,
      (offspringLoop ρ population count st).heap.length = st.heap.length ∧
      (∀ r, ((offspringLoop ρ population count st).heap.read r).frame =
        (st.heap.read r).frame) ∧
      ∃ l, (offspringLoop ρ population count st).population = st.population ++ l ∧
        ∀ x ∈ l, x.fitness = none ∧
          ∀ d, ∀ r ∈ x.schedule d, ∃ p ∈ population, r ∈ p.schedule d := by
  induction count with
  | zero =>
    intro st
    exact ⟨rfl, fun _ => rfl, [], (List.append_nil _).symm,
      fun _ hx => absurd hx (List.not_mem_nil _)⟩
  | succ n ih =>
    intro st
    unfold offspringLoop
    obtain ⟨h1, h2, x, hx, hf, hr⟩ := offspringStep_spec ρ population st
    obtain ⟨g1, g2, l, hl, hp⟩ := ih (offspringStep ρ population st)
    refine ⟨by rw [g1, h1], fun r => by rw [g2, h2], x :: l, ?_, ?_⟩
    · rw [hl, hx, List.append_assoc]; rfl
    · intro y hy
      rcases List.mem_cons.1 hy with rfl | hy
      · exact ⟨hf, hr⟩
      · exact hp y hy

theorem mem_rankedPopulation {faculty : List Faculty} {classrooms : List Classroom}
    {constraints : Constraints} {st : Search} {x : Individual}
    (hx : x ∈ rankedPopulation faculty classrooms constraints st) :
    ∃ y ∈ st.population, x.schedule = y.schedule ∧
      x.fitness = some (evaluateFitness (deref st.heap y.schedule) faculty classrooms
        constraints) := by
  unfold rankedPopulation evaluatePopulation at hx
  rw [mem_jsSort, List.mem_map] at hx
  obtain ⟨y, hy, rfl⟩ := hx
  exact ⟨y, hy, rfl, rfl⟩

/-- One generation: the session objects keep their number and their fields other than the time
slot; the new population is the head of the ranked one followed by offspring that are not
evaluated and hold references of ranked individuals. -/
theorem generation_spec (ρ : Nat → Nat) (faculty : List Faculty) (classrooms : List Classroom)
    (constraints : Constraints) (st : Search) :
    (generation ρ faculty classrooms constraints st).heap.length = st.heap.length ∧
      (∀ r, ((generation ρ faculty classrooms constraints st).heap.read r).frame =
        (st.heap.read r).frame) ∧
      ∃ l, (generation ρ faculty classrooms constraints st).population =
          (rankedPopulation faculty classrooms constraints st).take eliteCount ++ l ∧
        ∀ x ∈ l, x.fitness = none ∧
          ∀ d, ∀ r ∈ x.schedule d, ∃ p ∈ st.population, r ∈ p.schedule d := by
  unfold generation
  simp only []
  obtain ⟨h1, h2, l, hl, hp⟩ := offspringLoop_spec ρ
    (rankedPopulation faculty classrooms constraints st)
    (populationSize - ((rankedPopulation faculty classrooms constraints st).take
      eliteCount).length)
    { heap := st.heap, pos := st.pos,
      population := (rankedPopulation faculty classrooms constraints st).take eliteCount }
  refine ⟨h1, h2, l, hl, fun x hx => ⟨(hp x hx).1, fun d r hr => ?_⟩⟩
  obtain ⟨p, hpm, hrp⟩ := (hp x hx).2 d r hr
  obtain ⟨y, hy, hs, _⟩ := mem_rankedPopulation hpm
  exact ⟨y, hy, by rw [← hs]; exact hrp⟩

theorem generation_refsValid (ρ : Nat → Nat) (faculty : List Faculty)
    (classrooms : List Classroom) (constraints : Constraints) (st : Search)
    (h : RefsValid st) : RefsValid (generation ρ faculty classrooms constraints st) := by
  obtain ⟨h1, _, l, hl, hp⟩ := generation_spec ρ faculty classrooms constraints st
  intro x hx d r hr
  rw [h1]
  rw [hl] at hx
  rcases List.mem_append.1 hx with hx | hx
  · obtain ⟨y, hy, hs, _⟩ := mem_rankedPopulation (List.mem_of_mem_take hx)
    rw [hs] at hr
    exact h y hy d r hr
  · obtain ⟨p, hpm, hrp⟩ := (hp x hx).2 d r hr
    exact h p hpm d r hrp

theorem evolve_heap (ρ : Nat → Nat) (faculty : List Faculty) (classrooms : List Classroom)
    (constraints : Constraints) (gen : Nat) :
    ∀ st : Search,
      (evolve ρ faculty classrooms constraints gen st).heap.length = st.heap.length ∧
      ∀ r, ((evolve ρ faculty classrooms constraints gen st).heap.read r).frame =
        (st.heap.read r).frame := by
  induction gen with
  | zero => intro st; exact ⟨rfl, fun _ => rfl⟩
  | succ n ih =>
    intro st
    unfold evolve
    obtain ⟨h1, h2, _⟩ := generation_spec ρ faculty classrooms constraints st
    obtain ⟨g1, g2⟩ := ih (generation ρ faculty classrooms constraints st)
    exact ⟨by rw [g1, h1], fun r => by rw [g2, h2]⟩

theorem evolve_refsValid (ρ : Nat → Nat) (faculty : List Faculty) (classrooms : List Classroom)
    (constraints : Constraints) (gen : Nat) :
    ∀ st : Search, RefsValid st → RefsValid (evolve ρ faculty classrooms constraints gen st) := by
  induction gen with
  | zero => intro st h; exact h
  | succ n ih =>
    intro st h
    unfold evolve
    exact ih _ (generation_refsValid ρ faculty classrooms constraints st h)

theorem bestIndividual_mem (st : Search) :
    bestIndividual st ∈ st.population ∨ bestIndividual st = default := by
  unfold bestIndividual
  rcases headD_mem_or (jsSort byFitness st.population) default with h | h
  · left; rwa [mem_jsSort] at h
  · exact Or.inr h

theorem bestIndividual_refs {st : Search} (h : RefsValid st) (d : Day) :
    ∀ r ∈ (bestIndividual st).schedule d, r < st.heap.length := by
  intro r hr
  rcases bestIndividual_mem st with hb | hb
  · exact h _ hb d r hr
  · rw [hb] at hr; cases hr

theorem foldl_allocDay_heap (schedule : Schedule) (ds : List Day) :
    ∀ st : Heap × RefSchedule,
      (ds.foldl (allocDay schedule) st).1 = st.1 ++ (ds.map schedule).flatten := by
  induction ds with
  | nil => intro st; simp
  | cons day rest ih =>
    intro st
    rw [List.foldl_cons, ih]
    simp [allocDay, List.append_assoc]

theorem foldl_allocDay_refs (schedule : Schedule) (ds : List Day) :
    ∀ st : Heap × RefSchedule, (∀ d, ∀ r ∈ st.2 d, r < st.1.length) →
      ∀ d, ∀ r ∈ (ds.foldl (allocDay schedule) st).2 d,
        r < (ds.foldl (allocDay schedule) st).1.length := by
  induction ds with
  | nil => intro st h; exact h
  | cons day rest ih =>
    intro st h
    rw [List.foldl_cons]
    apply ih
    intro d r hr
    simp only [allocDay, List.length_append] at hr ⊢
    split at hr
    · rw [List.mem_range'_1] at hr
      exact hr.2
    · exact Nat.lt_of_lt_of_le (h d r hr) (Nat.le_add_right _ _)

theorem foldl_allocDay_length (schedule : Schedule) (d : Day) (ds : List Day) :
    ∀ st : Heap × RefSchedule, d ∈ ds ∨ (st.2 d).length = (schedule d).length →
      ((ds.foldl (allocDay schedule) st).2 d).length = (schedule d).length := by
  induction ds with
  | nil =>
    intro st h
    rcases h with h | h
    · cases h
    · exact h
  | cons day rest ih =>
    intro st h
    rw [List.foldl_cons]
    apply ih
    by_cases hd : d = day
    · right
      simp [allocDay, hd]
    · rcases h with h | h
      · rcases List.mem_cons.1 h with h | h
        · exact absurd h hd
        · exact Or.inl h
      · right
        simp only [allocDay, if_neg hd]
        exact h

/-- The session objects after `allocSchedule`: those before, then the sessions of the new
schedule day by day. -/
theorem allocSchedule_heap (h : Heap) (schedule : Schedule) :
    (allocSchedule h schedule).1 = h ++ (days.map schedule).flatten :=
  foldl_allocDay_heap schedule days (h, fun _ => [])

theorem allocSchedule_refs (h : Heap) (schedule : Schedule) (d : Day) :
    ∀ r ∈ (allocSchedule h schedule).2 d, r < (allocSchedule h schedule).1.length :=
  foldl_allocDay_refs schedule days (h, fun _ => [])
    (fun _ _ hr => absurd hr (List.not_mem_nil _)) d

theorem allocSchedule_length (h : Heap) (schedule : Schedule) (d : Day) :
    ((allocSchedule h schedule).2 d).length = (schedule d).length :=
  foldl_allocDay_length schedule d days (h, fun _ => []) (Or.inl (by cases d <;> decide))

/-- The first population: its references name session objects, and its session objects are
those of the schedules `createRandomSchedule` returned. -/
theorem initialPopulation_spec (P : ScheduledClass → Prop) (fuel : Nat) (ρ : Nat → Nat)
    (baseSchedule : Schedule) (subjects : List Subject) (faculty : List Faculty)
    (classrooms : List Classroom)
    (hcreate : ∀ pos schedule pos',
      createRandomSchedule fuel ρ pos baseSchedule subjects faculty classrooms =
        .ok (schedule, pos') → ∀ d, ∀ x ∈ schedule d, P x)
    (count : Nat) :
    ∀ st st' : Search,
      initialPopulation fuel ρ baseSchedule subjects faculty classrooms count st = .ok st' →
      RefsValid st → (∀ x ∈ st.heap, P x) →
      RefsValid st' ∧ (∀ x ∈ st'.heap, P x) ∧ st'.population.length =
        st.population.length + count := by
  induction count with
  | zero =>
    intro st st' h hv hp
    simp only [initialPopulation, Res.ok.injEq] at h
    subst h
    exact ⟨hv, hp, rfl⟩
  | succ n ih =>
    intro st st' h hv hp
    unfold initialPopulation at h
    cases hc : createRandomSchedule fuel ρ st.pos baseSchedule subjects faculty classrooms with
    | ok r =>
      rw [hc] at h
      simp only [Res.bind] at h
      have hP := hcreate st.pos r.1 r.2 hc
      obtain ⟨g1, g2, g3⟩ := ih _ _ h (by
        intro x hx d ref href
        simp only [allocSchedule_heap, List.length_append] at hx ⊢
        rcases List.mem_append.1 hx with hx | hx
        · exact Nat.lt_of_lt_of_le (hv x hx d ref href) (Nat.le_add_right _ _)
        · rw [List.mem_singleton.1 hx] at href
          have := allocSchedule_refs st.heap r.1 d ref href
          rw [allocSchedule_heap, List.length_append] at this
          exact this) (by
        intro x hx
        simp only [allocSchedule_heap] at hx
        rcases List.mem_append.1 hx with hx | hx
        · exact hp x hx
        · obtain ⟨l, hl, hxl⟩ := List.mem_flatten.1 hx
          obtain ⟨d, _, rfl⟩ := List.mem_map.1 hl
          exact hP d x hxl)
      refine ⟨g1, g2, ?_⟩
      rw [g3]
      simp only [List.length_append, List.length_singleton]
      omega
    | thrown m => rw [hc] at h; simp [Res.bind] at h
    | outOfFuel => rw [hc] at h; simp [Res.bind] at h

/-- Reading a reference gives a session object of the heap, or the default session. -/
theorem Heap.read_mem_or (h : Heap) (r : Ref) : h.read r ∈ h ∨ h.read r = default :=
  getD_mem_or h r default

/-! ## Runs on which nothing can be placed (C12) -/

theorem attempt_unplaceable {ρ : Nat → Nat} {faculty : List Faculty}
    {classrooms : List Classroom} {subject : Subject} (hun : Unplaceable subject faculty classrooms)
    (schedule : Schedule) (pos placed : Nat) :
    attempt ρ faculty classrooms subject schedule pos placed = .ok (schedule, placed) := by
  unfold attempt
  simp only []
  split
  · rename_i f c hf hc
    rcases hun (randomDay ρ pos) (randomTimeSlot ρ (pos + 1)).startTime with h | h
    · rw [h] at hf; cases hf
    · rw [h] at hc; cases hc
  · rfl

theorem placeLoop_unplaceable {ρ : Nat → Nat} {faculty : List Faculty}
    {classrooms : List Classroom} {subject : Subject} (hun : Unplaceable subject faculty classrooms)
    (fuel : Nat) (schedule : Schedule) (pos : Nat) :
    ∃ pos', placeLoop ρ faculty classrooms subject (fuel + 1) schedule pos 0 =
      .ok (schedule, pos') := by
  unfold placeLoop
  by_cases h : 0 < subject.classRequirements.classesPerWeek
  · rw [if_pos h, attempt_unplaceable hun]
    exact ⟨pos + 2, by simp⟩
  · rw [if_neg h]
    exact ⟨pos, rfl⟩

theorem placeSubjects_unplaceable {ρ : Nat → Nat} {faculty : List Faculty}
    {classrooms : List Classroom} (fuel : Nat) (subjects : List Subject) :
    (∀ s ∈ subjects, Unplaceable s faculty classrooms) →
    ∀ (schedule : Schedule) (pos : Nat),
      ∃ pos', placeSubjects ρ faculty classrooms (fuel + 1) subjects schedule pos =
        .ok (schedule, pos') := by
  induction subjects with
  | nil => intro _ schedule pos; exact ⟨pos, rfl⟩
  | cons s rest ih =>
    intro hs schedule pos
    obtain ⟨p1, h1⟩ := placeLoop_unplaceable (ρ := ρ) (hs s (List.mem_cons_self _ _)) fuel
      schedule pos
    obtain ⟨p2, h2⟩ := ih (fun x hx => hs x (List.mem_cons_of_mem _ hx)) schedule p1
    refine ⟨p2, ?_⟩
    unfold placeSubjects
    rw [h1]
    exact h2

/-- Candidate generation when no subject can be placed: with fuel for one attempt per subject
it returns the base schedule. -/
theorem createRandomSchedule_unplaceable {faculty : List Faculty} {classrooms : List Classroom}
    {subjects : List Subject} (hun : ∀ s ∈ subjects, Unplaceable s faculty classrooms)
    (fuel : Nat) (ρ : Nat → Nat) (pos : Nat) (baseSchedule : Schedule) :
    ∃ pos', createRandomSchedule (fuel + 1) ρ pos baseSchedule subjects faculty classrooms =
      .ok (baseSchedule, pos') :=
  placeSubjects_unplaceable fuel _
    (fun s hs => hun s (mem_remainingSubjects.1 hs).1) baseSchedule pos

theorem initialPopulation_unplaceable {faculty : List Faculty} {classrooms : List Classroom}
    {subjects : List Subject} (hun : ∀ s ∈ subjects, Unplaceable s faculty classrooms)
    (fuel : Nat) (ρ : Nat → Nat) (baseSchedule : Schedule) (count : Nat) :
    ∀ st : Search, ∃ st',
      initialPopulation (fuel + 1) ρ baseSchedule subjects faculty classrooms count st =
        .ok st' := by
  induction count with
  | zero => intro st; exact ⟨st, rfl⟩
  | succ n ih =>
    intro st
    obtain ⟨p, hp⟩ := createRandomSchedule_unplaceable hun fuel ρ st.pos baseSchedule
    unfold initialPopulation
    rw [hp]
    exact ih _

/-- The search when no subject can be placed and nothing is fixed: it returns, with no
session object at all. -/
theorem searchAfter_unplaceable {faculty : List Faculty} {classrooms : List Classroom}
    {subjects : List Subject} (hun : ∀ s ∈ subjects, Unplaceable s faculty classrooms)
    (fuel : Nat) (ρ : Nat → Nat) (gen : Nat) (constraints : Constraints) :
    ∃ st, searchAfter (fuel + 1) ρ gen initializeSchedule subjects faculty classrooms
        constraints = .ok st ∧ st.heap = [] ∧ RefsValid st := by
  obtain ⟨st0, h0⟩ := initialPopulation_unplaceable hun fuel ρ initializeSchedule populationSize
    { heap := [], pos := 0, population := [] }
  obtain ⟨hv, hp, _⟩ := initialPopulation_spec (fun _ => False) (fuel + 1) ρ initializeSchedule
    subjects faculty classrooms (by
      intro pos schedule pos' hc d x hx
      obtain ⟨p, hp⟩ := createRandomSchedule_unplaceable hun fuel ρ pos initializeSchedule
      rw [hp] at hc
      simp only [Res.ok.injEq, Prod.mk.injEq] at hc
      rw [← hc.1] at hx
      cases hx) populationSize _ _ h0
    (fun _ hx => absurd hx (List.not_mem_nil _)) (fun _ hx => absurd hx (List.not_mem_nil _))
  have hnil : st0.heap = [] := List.eq_nil_iff_forall_not_mem.2 fun x hx => hp x hx
  refine ⟨evolve ρ faculty classrooms constraints gen st0, ?_, ?_,
    evolve_refsValid ρ faculty classrooms constraints gen st0 hv⟩
  · unfold searchAfter
    rw [h0]
    rfl
  · have := (evolve_heap ρ faculty classrooms constraints gen st0).1
    rw [hnil] at this
    exact List.length_eq_zero.1 this

theorem optimize_unplaceable {faculty : List Faculty} {classrooms : List Classroom}
    {subjects : List Subject} (hun : ∀ s ∈ subjects, Unplaceable s faculty classrooms)
    (fuel : Nat) (ρ : Nat → Nat) (constraints : Constraints) :
    optimizeWithGeneticAlgorithm (fuel + 1) ρ initializeSchedule subjects faculty classrooms
      constraints = .ok initializeSchedule := by
  obtain ⟨st, hs, hh, hv⟩ := searchAfter_unplaceable hun fuel ρ generations constraints
  unfold optimizeWithGeneticAlgorithm
  rw [hs]
  simp only [Res.bind, Res.ok.injEq]
  funext d
  have : (bestIndividual st).schedule d = [] := by
    apply List.eq_nil_iff_forall_not_mem.2
    intro r hr
    have := bestIndividual_refs hv d r hr
    rw [hh] at this
    exact Nat.not_lt_zero _ this
  simp only [deref, this, List.map_nil, initializeSchedule]

theorem placeFixedTimeSlots_unfixed (subjects : List Subject) :
    (∀ s ∈ subjects, s.fixedTimeSlots = []) →
    ∀ st, placeFixedTimeSlots subjects st = .ok st := by
  induction subjects with
  | nil => intro _ st; rfl
  | cons s rest ih =>
    intro hs st
    unfold placeFixedTimeSlots
    rw [hs s (List.mem_cons_self _ _)]
    simp only [placeFixedSlots, Res.bind]
    exact ih (fun x hx => hs x (List.mem_cons_of_mem _ hx)) st

/-- The entry point when nothing is fixed and no subject can be placed: it returns the empty
schedule, scored from the metrics of the empty schedule, and no conflict. -/
theorem generateOptimizedTimetable_unplaceable {faculty : List Faculty}
    {classrooms : List Classroom} {subjects : List Subject}
    (hfix : ∀ s ∈ subjects, s.fixedTimeSlots = [])
    (hun : ∀ s ∈ subjects, Unplaceable s faculty classrooms)
    (fuel : Nat) (ρ : Nat → Nat) (constraints : Constraints) :
    generateOptimizedTimetable (fuel + 1) ρ constraints subjects faculty classrooms =
      .ok { schedule := initializeSchedule
            score := calculateOverallScore
              (calculateMetrics initializeSchedule faculty classrooms constraints)
            metrics := calculateMetrics initializeSchedule faculty classrooms constraints
            conflicts := [] } := by
  unfold generateOptimizedTimetable generateBody
  rw [placeFixedTimeSlots_unfixed subjects hfix]
  simp only [Res.bind]
  rw [optimize_unplaceable hun]
  simp

theorem setZero_zero (u : RoomUsage) (k : Id) (h : ∀ e ∈ u, e.2 = 0) :
    ∀ e ∈ u.setZero k, e.2 = 0 := by
  intro e he
  unfold RoomUsage.setZero at he
  split at he
  · obtain ⟨e', he', rfl⟩ := List.mem_map.1 he
    split
    · rfl
    · exact h e' he'
  · rcases List.mem_append.1 he with he | he
    · exact h e he
    · rw [List.mem_singleton.1 he]

theorem foldl_setZero_zero (classrooms : List Classroom) :
    ∀ u : RoomUsage, (∀ e ∈ u, e.2 = 0) →
      ∀ e ∈ classrooms.foldl (fun u room => u.setZero room.id) u, e.2 = 0 := by
  induction classrooms with
  | nil => intro u h; exact h
  | cons c rest ih =>
    intro u h
    rw [List.foldl_cons]
    exact ih _ (setZero_zero u c.id h)

/-- The utilization of the empty schedule over at least one classroom is `0`. -/
theorem evaluateRoomUtilization_empty (classrooms : List Classroom) (h : classrooms ≠ []) :
    evaluateRoomUtilization initializeSchedule classrooms = .num 0 := by
  unfold evaluateRoomUtilization
  simp only [Schedule.values, initializeSchedule, days, List.map_cons, List.map_nil,
    List.foldl_cons, List.foldl_nil]
  rw [sum_foldl_zero _ (by
    intro n hn
    obtain ⟨e, he, rfl⟩ := List.mem_map.1 hn
    exact foldl_setZero_zero classrooms [] (fun _ hx => absurd hx (List.not_mem_nil _)) e he)]
  have hl : (classrooms.length : ℚ) ≠ 0 := by
    rw [Nat.cast_ne_zero]
    exact fun hc => h (List.length_eq_zero.1 hc)
  simp [JsNum.div, JsNum.ofNat, timeSlots, hl]

/-- The overall score is `NaN` as soon as the workload balance is. -/
theorem calculateOverallScore_nan (m : Metrics) (h : m.facultyWorkloadBalance = .nan) :
    calculateOverallScore m = .nan := by
  unfold calculateOverallScore
  rw [h]
  cases m.classroomUtilization <;> cases m.studentSatisfaction <;>
    cases m.timeSlotEfficiency <;> rfl

theorem findSuitableClassroom_unsuited {subject : Subject} {classrooms : List Classroom}
    (h : ∀ c ∈ classrooms, ¬ (c.type = subject.classRequirements.preferredClassroomType ∧
      subject.classRequirements.minClassroomCapacity ≤ c.capacity)) (d : Day) (t : String) :
    findSuitableClassroom subject classrooms d t = none := by
  unfold findSuitableClassroom
  rw [List.find?_eq_none]
  intro c hc hs
  rw [classroomSuits_iff] at hs
  exact h c hc ⟨hs.1, hs.2.1⟩

theorem findSuitableFaculty_unsuited {subject : Subject} {faculty : List Faculty}
    (h : ∀ f ∈ faculty, subject.id ∉ f.subjects) (d : Day) (t : String) :
    findSuitableFaculty subject faculty d t = none := by
  unfold findSuitableFaculty
  rw [List.find?_eq_none]
  intro f hf hs
  rw [facultySuits_iff] at hs
  exact h f hf hs.1

/-- Claim C12, on every input of the scenario: with subjects without fixed slots, at least one
classroom, none of them of the type and capacity a subject requires, and fuel for one attempt
per subject, `generateOptimizedTimetable` returns for every stream of draws; the returned
schedule has no session and the utilization metric is `0`, but the workload balance is `NaN`,
not `0`, and the overall score is `NaN`, not `39.25`. -/
theorem generateOptimizedTimetable_no_classroom (fuel : Nat) (ρ : Nat → Nat)
    (constraints : Constraints) (subjects : List Subject) (faculty : List Faculty)
    (classrooms : List Classroom) (hfuel : 0 < fuel)
    (hfix : ∀ s ∈ subjects, s.fixedTimeSlots = []) (hrooms : classrooms ≠ [])
    (hno : ∀ s ∈ subjects, ∀ c ∈ classrooms,
      ¬ (c.type = s.classRequirements.preferredClassroomType ∧
        s.classRequirements.minClassroomCapacity ≤ c.capacity)) :
    ∃ r, generateOptimizedTimetable fuel ρ constraints subjects faculty classrooms = .ok r ∧
      (∀ d, r.schedule d = []) ∧
      r.metrics.classroomUtilization = .num 0 ∧
      r.metrics.facultyWorkloadBalance = .nan ∧ r.metrics.facultyWorkloadBalance ≠ .num 0 ∧
      r.score = .nan ∧ r.score ≠ .num (3925 / 100) := by
  obtain ⟨n, rfl⟩ : ∃ n, fuel = n + 1 := ⟨fuel - 1, by omega⟩
  have hb : evaluateWorkloadBalance initializeSchedule faculty = .nan :=
    evaluateWorkloadBalance_idle _ _ fun f _ =>
      totalHours_eq_zero fun _ _ hc => absurd hc (List.not_mem_nil _)
  refine ⟨_, generateOptimizedTimetable_unplaceable hfix
    (fun s hs d t => Or.inr (findSuitableClassroom_unsuited (hno s hs) d t)) n ρ constraints,
    fun _ => rfl, evaluateRoomUtilization_empty classrooms hrooms, hb, ?_, ?_, ?_⟩
  · show evaluateWorkloadBalance initializeSchedule faculty ≠ .num 0
    rw [hb]
    exact fun h => JsNum.noConfusion h
  · exact calculateOverallScore_nan _ hb
  · rw [calculateOverallScore_nan _ hb]
    exact fun h => JsNum.noConfusion h

/-- Witness for claim C12: one subject wanting a lecture hall, one faculty member, and a
laboratory as the only classroom. -/
theorem generateOptimizedTimetable_no_classroom_witness :
    ∃ r, generateOptimizedTimetable 1 zeroDraws {} [sampleSubject 3] [sampleFaculty]
        [sampleLaboratory] = .ok r ∧
      (∀ d, r.schedule d = []) ∧
      r.metrics.classroomUtilization = .num 0 ∧
      r.metrics.facultyWorkloadBalance = .nan ∧ r.metrics.facultyWorkloadBalance ≠ .num 0 ∧
      r.score = .nan ∧ r.score ≠ .num (3925 / 100) :=
  generateOptimizedTimetable_no_classroom 1 zeroDraws {} [sampleSubject 3] [sampleFaculty]
    [sampleLaboratory] (by decide) (by decide) (by simp) (by decide)

/-! ## The range of the score (C14) -/

/-- What a normal return of the entry point is made of. -/
theorem generateOptimizedTimetable_ok {fuel : Nat} {ρ : Nat → Nat} {constraints : Constraints}
    {subjects : List Subject} {faculty : List Faculty} {classrooms : List Classroom}
    {r : OptimizationResult}
    (h : generateOptimizedTimetable fuel ρ constraints subjects faculty classrooms = .ok r) :
    ∃ placed st,
      placeFixedTimeSlots subjects (initializeSchedule, []) = .ok placed ∧
      searchAfter fuel ρ generations placed.1 subjects faculty classrooms constraints =
        .ok st ∧
      r.schedule = deref st.heap (bestIndividual st).schedule ∧
      r.metrics = calculateMetrics r.schedule faculty classrooms constraints ∧
      r.score = calculateOverallScore r.metrics ∧
      r.conflicts = placed.2.filter fun c => decide (c.severity ≠ .resolved) := by
  unfold generateOptimizedTimetable generateBody at h
  cases hp : placeFixedTimeSlots subjects (initializeSchedule, []) with
  | ok placed =>
    rw [hp] at h
    simp only [Res.bind, optimizeWithGeneticAlgorithm] at h
    cases hs : searchAfter fuel ρ generations placed.1 subjects faculty classrooms
        constraints with
    | ok st =>
      rw [hs] at h
      simp only [Res.ok.injEq] at h
      subst h
      exact ⟨placed, st, rfl, hs, rfl, rfl, rfl, rfl⟩
    | thrown m => rw [hs] at h; simp at h
    | outOfFuel => rw [hs] at h; simp at h
  | thrown m => rw [hp] at h; simp [Res.bind] at h
  | outOfFuel => rw [hp] at h; simp [Res.bind] at h

theorem searchAfter_ok {fuel : Nat} {ρ : Nat → Nat} {gen : Nat} {schedule : Schedule}
    {subjects : List Subject} {faculty : List Faculty} {classrooms : List Classroom}
    {constraints : Constraints} {st : Search}
    (h : searchAfter fuel ρ gen schedule subjects faculty classrooms constraints = .ok st) :
    ∃ st0, initialPopulation fuel ρ schedule subjects faculty classrooms populationSize
        { heap := [], pos := 0, population := [] } = .ok st0 ∧
      st = evolve ρ faculty classrooms constraints gen st0 := by
  unfold searchAfter at h
  cases hi : initialPopulation fuel ρ schedule subjects faculty classrooms populationSize
      { heap := [], pos := 0, population := [] } with
  | ok st0 =>
    rw [hi] at h
    simp only [Res.bind, Res.ok.injEq] at h
    exact ⟨st0, rfl, h.symm⟩
  | thrown m => rw [hi] at h; simp [Res.bind] at h
  | outOfFuel => rw [hi] at h; simp [Res.bind] at h

theorem placeFixedSlot_faculty {subject : Subject} {st st' : Schedule × List Conflict}
    {fixedSlot : FixedSlot} (h : placeFixedSlot subject st fixedSlot = .ok st')
    (hst : ∀ d, ∀ x ∈ st.1 d, x.faculty = none) : ∀ d, ∀ x ∈ st'.1 d, x.faculty = none := by
  unfold placeFixedSlot at h
  simp only [] at h
  cases hc : checkTimeSlotConflict (st.1 fixedSlot.day)
      (fixedSlot.startTime ++ "-" ++ fixedSlot.endTime) fixedSlot.classroom with
  | ok b =>
    rw [hc] at h
    cases b with
    | true =>
      simp only [Res.bind, if_true, Res.ok.injEq] at h
      rw [← h]; exact hst
    | false =>
      simp only [Res.bind, Bool.false_eq_true, if_false, Res.ok.injEq] at h
      rw [← h]
      intro d x hx
      simp only [Schedule.push] at hx
      split at hx
      · rcases List.mem_append.1 hx with hx | hx
        · exact hst d x hx
        · rw [List.mem_singleton.1 hx]; rfl
      · exact hst d x hx
  | thrown m => rw [hc] at h; simp [Res.bind] at h
  | outOfFuel => rw [hc] at h; simp [Res.bind] at h

theorem placeFixedSlots_faculty {subject : Subject} (slots : List FixedSlot) :
    ∀ {st st' : Schedule × List Conflict}, placeFixedSlots subject slots st = .ok st' →
      (∀ d, ∀ x ∈ st.1 d, x.faculty = none) → ∀ d, ∀ x ∈ st'.1 d, x.faculty = none := by
  induction slots with
  | nil =>
    intro st st' h hst
    simp only [placeFixedSlots, Res.ok.injEq] at h
    rw [← h]; exact hst
  | cons fs rest ih =>
    intro st st' h hst
    unfold placeFixedSlots at h
    cases h1 : placeFixedSlot subject st fs with
    | ok st1 =>
      rw [h1] at h
      exact ih h (placeFixedSlot_faculty h1 hst)
    | thrown m => rw [h1] at h; simp [Res.bind] at h
    | outOfFuel => rw [h1] at h; simp [Res.bind] at h

/-- The sessions `placeFixedTimeSlots` places carry no faculty id. -/
theorem placeFixedTimeSlots_faculty (subjects : List Subject) :
    ∀ {st st' : Schedule × List Conflict}, placeFixedTimeSlots subjects st = .ok st' →
      (∀ d, ∀ x ∈ st.1 d, x.faculty = none) → ∀ d, ∀ x ∈ st'.1 d, x.faculty = none := by
  induction subjects with
  | nil =>
    intro st st' h hst
    simp only [placeFixedTimeSlots, Res.ok.injEq] at h
    rw [← h]; exact hst
  | cons s rest ih =>
    intro st st' h hst
    unfold placeFixedTimeSlots at h
    cases h1 : placeFixedSlots s s.fixedTimeSlots st with
    | ok st1 =>
      rw [h1] at h
      exact ih h (placeFixedSlots_faculty _ h1 hst)
    | thrown m => rw [h1] at h; simp [Res.bind] at h
    | outOfFuel => rw [h1] at h; simp [Res.bind] at h

/-- Claim C14, on failing inputs: when no listed faculty member is authorized for any subject
(in particular when the faculty list is empty), fixed slots allowed, no session of any
candidate carries a listed faculty id, `evaluateWorkloadBalance` divides zero by zero, and the
score of every run that returns is `NaN`: it is not a number between 0 and 100. -/
theorem generateOptimizedTimetable_score_nan (fuel : Nat) (ρ : Nat → Nat)
    (constraints : Constraints) (subjects : List Subject) (faculty : List Faculty)
    (classrooms : List Classroom) (r : OptimizationResult)
    (hnone : ∀ s ∈ subjects, ∀ f ∈ faculty, s.id ∉ f.subjects)
    (hret : generateOptimizedTimetable fuel ρ constraints subjects faculty classrooms =
      .ok r) :
    r.score = .nan ∧ ¬ ∃ q, r.score = .num q ∧ 0 ≤ q ∧ q ≤ 100 := by
  obtain ⟨placed, st, hp, hs, hsch, hm, hscore, _⟩ := generateOptimizedTimetable_ok hret
  obtain ⟨st0, hi, hst⟩ := searchAfter_ok hs
  have hbase : ∀ d, ∀ x ∈ placed.1 d, x.faculty = none :=
    placeFixedTimeSlots_faculty subjects hp (fun _ _ hx => absurd hx (List.not_mem_nil _))
  obtain ⟨_, hheap, _⟩ := initialPopulation_spec (fun x => x.faculty = none) fuel ρ placed.1
    subjects faculty classrooms (by
      intro pos schedule pos' hc d x hx
      obtain ⟨added, ha, hv⟩ := placeSubjects_valid subjects _
        (fun _ hs => mem_remainingSubjects.1 hs) hc d
      rw [ha] at hx
      rcases List.mem_append.1 hx with hx | hx
      · exact hbase d x hx
      · obtain ⟨_, _, s, hs, _, _, _, ⟨f, hf, _, hfit⟩, _⟩ := hv x hx
        exact absurd hfit.1 (hnone s hs f hf)) populationSize _ _ hi
    (fun _ hx => absurd hx (List.not_mem_nil _)) (fun _ hx => absurd hx (List.not_mem_nil _))
  have hread : ∀ ref, (st.heap.read ref).faculty = none := by
    intro ref
    have h1 := (evolve_heap ρ faculty classrooms constraints generations st0).2 ref
    rw [← hst] at h1
    have h2 : (st0.heap.read ref).faculty = none := by
      rcases Heap.read_mem_or st0.heap ref with h | h
      · exact hheap _ h
      · rw [h]; rfl
    have h3 := congrArg (fun p => p.2.1) h1
    simp only [ScheduledClass.frame] at h3
    rw [h3, h2]
  have hb : r.metrics.facultyWorkloadBalance = .nan := by
    rw [hm]
    apply evaluateWorkloadBalance_idle
    intro f _
    apply totalHours_eq_zero
    intro d c hc
    rw [hsch] at hc
    obtain ⟨ref, _, rfl⟩ := List.mem_map.1 hc
    rw [hread ref]
    exact fun h => Option.noConfusion h
  have hnan : r.score = .nan := by rw [hscore]; exact calculateOverallScore_nan _ hb
  refine ⟨hnan, ?_⟩
  rintro ⟨q, hq, _⟩
  rw [hnan] at hq
  exact JsNum.noConfusion hq

/-- Witness for claim C14: one subject, one faculty member authorized for another subject
only, one classroom.  The run returns, and its score is `NaN`. -/
theorem generateOptimizedTimetable_score_nan_witness :
    ∃ r, generateOptimizedTimetable 1 zeroDraws {} [sampleSubject 3] [otherFaculty]
        [sampleClassroom] = .ok r ∧
      r.score = .nan ∧ ¬ ∃ q, r.score = .num q ∧ 0 ≤ q ∧ q ≤ 100 :=
  ⟨_, generateOptimizedTimetable_unplaceable (by decide)
      (fun s hs d t => Or.inl (findSuitableFaculty_unsuited (by
        rw [List.mem_singleton.1 hs]; decide) d t)) 0 zeroDraws {},
    generateOptimizedTimetable_score_nan 1 zeroDraws {} [sampleSubject 3] [otherFaculty]
      [sampleClassroom] _ (by decide)
      (generateOptimizedTimetable_unplaceable (by decide)
        (fun s hs d t => Or.inl (findSuitableFaculty_unsuited (by
          rw [List.mem_singleton.1 hs]; decide) d t)) 0 zeroDraws {})⟩

/-! ## Fitness, balance and utilization of assigned sessions -/

theorem JsNum.nan_add (y : JsNum) : JsNum.nan.add y = .nan := by cases y <;> rfl

theorem JsNum.nan_sub (y : JsNum) : JsNum.nan.sub y = .nan := by cases y <;> rfl

theorem JsNum.add_nan (x : JsNum) : x.add .nan = .nan := by cases x <;> rfl

theorem JsNum.nan_mul (y : JsNum) : JsNum.nan.mul y = .nan := by cases y <;> rfl

/-- The fitness is `NaN` as soon as the workload balance is. -/
theorem evaluateFitness_nan {schedule : Schedule} {faculty : List Faculty}
    (classrooms : List Classroom) (constraints : Constraints)
    (h : evaluateWorkloadBalance schedule faculty = .nan) :
    evaluateFitness schedule faculty classrooms constraints = .nan := by
  unfold evaluateFitness
  simp only [h, JsNum.nan_mul, JsNum.add_nan, JsNum.nan_add, JsNum.nan_sub, JsNum.max0]

/-- The fitness is a number when the workload balance and the utilization are. -/
theorem evaluateFitness_num {schedule : Schedule} {faculty : List Faculty}
    {classrooms : List Classroom} (constraints : Constraints) {b u : ℚ}
    (hb : evaluateWorkloadBalance schedule faculty = .num b)
    (hu : evaluateRoomUtilization schedule classrooms = .num u) :
    ∃ q, evaluateFitness schedule faculty classrooms constraints = .num q := by
  unfold evaluateFitness
  simp only [hb, hu, JsNum.mul, JsNum.add, JsNum.sub, JsNum.max0, JsNum.ofNat]
  exact ⟨_, rfl⟩

/-- The fitness of a schedule without sessions is `NaN`. -/
theorem evaluateFitness_empty {schedule : Schedule} (h : ∀ d, schedule d = [])
    (faculty : List Faculty) (classrooms : List Classroom) (constraints : Constraints) :
    evaluateFitness schedule faculty classrooms constraints = .nan :=
  evaluateFitness_nan classrooms constraints
    (evaluateWorkloadBalance_idle _ _ fun f _ =>
      totalHours_eq_zero fun d c hc => by rw [h d] at hc; cases hc)

/-- The balance of a single faculty member with at least one session is `1`. -/
theorem evaluateWorkloadBalance_single (schedule : Schedule) (f : Faculty)
    (hk : 0 < totalHours schedule f) : evaluateWorkloadBalance schedule [f] = .num 1 := by
  have hq : (totalHours schedule f : ℚ) ≠ 0 := Nat.cast_ne_zero.2 (by omega)
  unfold evaluateWorkloadBalance
  simp [JsNum.div, JsNum.ofNat, JsNum.sub, JsNum.mul, JsNum.add, JsNum.max0, hq]

theorem foldl_count_single (k : Id) (l : List ScheduledClass)
    (h : ∀ x ∈ l, x.classroom = some k) :
    ∀ n, l.foldl (fun (u : RoomUsage) classInfo => u.count classInfo.classroom) [(k, n)] =
      [(k, n + l.length)] := by
  induction l with
  | nil => intro n; rfl
  | cons x xs ih =>
    intro n
    have hstep : RoomUsage.count [(k, n)] (some k) = [(k, n + 1)] := by
      simp [RoomUsage.count]
    rw [List.foldl_cons, h x (List.mem_cons_self _ _), hstep,
      ih (fun y hy => h y (List.mem_cons_of_mem _ hy))]
    simp only [List.length_cons]
    congr 2
    omega

theorem foldl_days_count_single (k : Id) (ls : List (List ScheduledClass))
    (h : ∀ l ∈ ls, ∀ x ∈ l, x.classroom = some k) :
    ∀ n, ls.foldl (fun (u : RoomUsage) daySchedule =>
        daySchedule.foldl (fun u classInfo => u.count classInfo.classroom) u) [(k, n)] =
      [(k, n + (ls.map List.length).sum)] := by
  induction ls with
  | nil => intro n; rfl
  | cons l rest ih =>
    intro n
    rw [List.foldl_cons, foldl_count_single k l (h l (List.mem_cons_self _ _)),
      ih (fun l' hl' => h l' (List.mem_cons_of_mem _ hl'))]
    simp only [List.map_cons, List.sum_cons]
    congr 2
    omega

/-- The utilization of a single classroom that hosts every session: sessions over the 42
slots of the week. -/
theorem evaluateRoomUtilization_single (schedule : Schedule) (c : Classroom)
    (h : ∀ d, ∀ x ∈ schedule d, x.classroom = some c.id) :
    evaluateRoomUtilization schedule [c] = .num ((totalSessions schedule : ℚ) / 42) := by
  unfold evaluateRoomUtilization
  have h0 : [c].foldl (fun (u : RoomUsage) room => u.setZero room.id) [] = [(c.id, 0)] := by
    simp [RoomUsage.setZero]
  simp only [h0]
  rw [foldl_days_count_single c.id schedule.values (by
    intro l hl x hx
    obtain ⟨d, _, rfl⟩ := List.mem_map.1 hl
    exact h d x hx)]
  have hs : (schedule.values.map List.length).sum = totalSessions schedule := by
    simp [Schedule.values, totalSessions, List.map_map, Function.comp_def]
  simp [hs, JsNum.div, JsNum.ofNat, timeSlots, days]

/-- The overall score when the balance is `1`: `100 × (0.25 × u + 0.30 + 0.25 × 0.85 +
0.20 × 0.90)`. -/
theorem calculateOverallScore_balanced (schedule : Schedule) (faculty : List Faculty)
    (classrooms : List Classroom) (constraints : Constraints) (u : ℚ)
    (hb : evaluateWorkloadBalance schedule faculty = .num 1)
    (hu : evaluateRoomUtilization schedule classrooms = .num u) :
    calculateOverallScore (calculateMetrics schedule faculty classrooms constraints) =
      .num (100 * (25 / 100 * u + 30 / 100 + 25 / 100 * (85 / 100) + 20 / 100 * (90 / 100))) := by
  unfold calculateOverallScore calculateMetrics
  simp only [hb, hu, List.foldl_cons, List.foldl_nil, JsNum.mul, JsNum.add, JsNum.num.injEq]
  ring

/-! ## The head of the population -/

theorem insertSorted_head (x : Individual) (l : List Individual)
    (h : ∃ y rest q, l = y :: rest ∧ y.fitness = some (.num q)) :
    ∃ y rest q, insertSorted byFitness x l = y :: rest ∧ y.fitness = some (.num q) := by
  obtain ⟨y, rest, q, rfl, hy⟩ := h
  unfold insertSorted
  split
  · rename_i hneg
    cases hx : x.fitness with
    | none =>
      simp [byFitness, Individual.fitnessValue, hx, hy, JsNum.sub, JsNum.isNeg] at hneg
    | some v =>
      cases v with
      | nan =>
        simp [byFitness, Individual.fitnessValue, hx, hy, JsNum.sub, JsNum.isNeg] at hneg
      | num b => exact ⟨x, y :: rest, b, rfl, hx⟩
  · exact ⟨y, _, q, rfl, hy⟩

theorem foldl_insertSorted_head (l : List Individual) :
    ∀ acc : List Individual, (∃ y rest q, acc = y :: rest ∧ y.fitness = some (.num q)) →
      ∃ y rest q, l.foldl (fun sorted x => insertSorted byFitness x sorted) acc = y :: rest ∧
        y.fitness = some (.num q) := by
  induction l with
  | nil => intro acc h; exact h
  | cons x xs ih =>
    intro acc h
    rw [List.foldl_cons]
    exact ih _ (insertSorted_head x acc h)

/-- Sorting by fitness keeps a number at the head: an individual whose fitness is a number is
never overtaken by one whose fitness is `NaN` or absent. -/
theorem jsSort_head {l : List Individual}
    (h : ∃ y rest q, l = y :: rest ∧ y.fitness = some (.num q)) :
    ∃ y rest q, jsSort byFitness l = y :: rest ∧ y.fitness = some (.num q) := by
  obtain ⟨y, rest, q, rfl, hy⟩ := h
  unfold jsSort
  rw [List.foldl_cons]
  exact foldl_insertSorted_head rest _ ⟨y, [], q, rfl, hy⟩

/-- After a generation the head of the population carries a numeric fitness, when the head
before it evaluates to a number. -/
theorem generation_head (ρ : Nat → Nat) (faculty : List Faculty) (classrooms : List Classroom)
    (constraints : Constraints) (st : Search)
    (h : ∃ x rest q, st.population = x :: rest ∧
      evaluateFitness (deref st.heap x.schedule) faculty classrooms constraints = .num q) :
    HeadNumeric (generation ρ faculty classrooms constraints st) := by
  obtain ⟨x, rest, q, hx, hq⟩ := h
  obtain ⟨_, _, l, hl, _⟩ := generation_spec ρ faculty classrooms constraints st
  obtain ⟨y, rest', q', hy, hq'⟩ : ∃ y rest' q',
      rankedPopulation faculty classrooms constraints st = y :: rest' ∧
        y.fitness = some (.num q') := by
    unfold rankedPopulation evaluatePopulation
    apply jsSort_head
    rw [hx, List.map_cons]
    exact ⟨_, _, q, rfl, by rw [hq]⟩
  refine ⟨y, rest'.take 9 ++ l, q', ?_, hq'⟩
  rw [hl, hy]
  rfl

/-- After a generation every individual with a numeric fitness holds a session. -/
theorem generation_evaluated (ρ : Nat → Nat) (faculty : List Faculty)
    (classrooms : List Classroom) (constraints : Constraints) (st : Search) :
    Evaluated (generation ρ faculty classrooms constraints st) := by
  obtain ⟨_, _, l, hl, hp⟩ := generation_spec ρ faculty classrooms constraints st
  intro x hx q hq
  rw [hl] at hx
  rcases List.mem_append.1 hx with hx | hx
  · obtain ⟨y, _, hs, hf⟩ := mem_rankedPopulation (List.mem_of_mem_take hx)
    by_contra hne
    have hempty : ∀ d, deref st.heap y.schedule d = [] := by
      intro d
      have : x.schedule d = [] := by
        by_contra hd
        exact hne ⟨d, hd⟩
      rw [hs] at this
      simp only [deref, this, List.map_nil]
    rw [hf, evaluateFitness_empty hempty] at hq
    simp at hq
  · rw [(hp x hx).1] at hq
    cases hq

/-- A predicate on the fields other than the time slot that holds of every session object
still holds after a generation. -/
theorem generation_heap_pred (P : ScheduledClass → Prop)
    (hP : ∀ x y : ScheduledClass, x.frame = y.frame → P y → P x) (ρ : Nat → Nat)
    (faculty : List Faculty) (classrooms : List Classroom) (constraints : Constraints)
    (st : Search) (h : ∀ x ∈ st.heap, P x) :
    ∀ x ∈ (generation ρ faculty classrooms constraints st).heap, P x := by
  obtain ⟨h1, h2, _⟩ := generation_spec ρ faculty classrooms constraints st
  intro x hx
  obtain ⟨i, hi, rfl⟩ := List.mem_iff_getElem.1 hx
  have hr : (generation ρ faculty classrooms constraints st).heap.read i =
      (generation ρ faculty classrooms constraints st).heap[i] :=
    List.getD_eq_getElem _ _ hi
  have hr' : st.heap.read i = st.heap[i] := List.getD_eq_getElem _ _ (by rw [← h1]; exact hi)
  rw [← hr]
  apply hP _ _ (h2 i)
  rw [hr']
  exact h _ (List.getElem_mem _)

theorem deref_pred {P : ScheduledClass → Prop} {h : Heap} {schedule : RefSchedule}
    (hh : ∀ x ∈ h, P x) (hs : ∀ d, ∀ r ∈ schedule d, r < h.length) :
    ∀ d, ∀ x ∈ deref h schedule d, P x := by
  intro d x hx
  obtain ⟨r, hr, rfl⟩ := List.mem_map.1 hx
  have hlt : r < h.length := hs d r hr
  have : h.read r = h[r] := List.getD_eq_getElem _ _ hlt
  rw [this]
  exact hh _ (List.getElem_mem _)

theorem totalHours_pos {schedule : Schedule} {f : Faculty}
    (h : ∀ d, ∀ x ∈ schedule d, x.faculty = some f.id) (hne : ∃ d, schedule d ≠ []) :
    0 < totalHours schedule f := by
  rw [totalHours_eq]
  have hf : ∀ d, ((schedule d).filter fun c => decide (c.faculty = some f.id)).length =
      (schedule d).length := by
    intro d
    rw [List.filter_eq_self.2 (fun x hx => by simpa using h d x hx)]
  obtain ⟨d, hd⟩ := hne
  have hl : 0 < (schedule d).length := List.length_pos.2 hd
  simp only [hf, days, List.map_cons, List.map_nil, List.sum_cons, List.sum_nil]
  cases d <;> omega

theorem totalSessions_pos {schedule : Schedule} (hne : ∃ d, schedule d ≠ []) :
    0 < totalSessions schedule := by
  obtain ⟨d, hd⟩ := hne
  have hl : 0 < (schedule d).length := List.length_pos.2 hd
  simp only [totalSessions, days, List.map_cons, List.map_nil, List.sum_cons, List.sum_nil]
  cases d <;> omega

theorem sessionsOf_eq_total {schedule : Schedule} {i : Id}
    (h : ∀ d, ∀ x ∈ schedule d, x.subject = i) : sessionsOf i schedule = totalSessions schedule := by
  unfold sessionsOf totalSessions
  congr 1
  apply List.map_congr_left
  intro d _
  rw [List.filter_eq_self.2 (fun x hx => by simpa using h d x hx)]

/-! ## The single-subject scenario (C11) -/

theorem isFree_full {availability : Day → Option DayAvailability}
    (h : FullyAvailable availability) (d : Day) (t : String) :
    isFree availability d t = true := by
  obtain ⟨a, ha, hopen, hb⟩ := h d
  unfold isFree
  rw [ha]
  simp only [hopen, Bool.true_and, Bool.not_eq_true', List.any_eq_false]
  intro s hs
  simp [blocks, hb s hs]

/-- An attempt of the scenario on a day that holds no session yet places one. -/
theorem attempt_single {ρ : Nat → Nat} {s : Subject} {f : Faculty} {c : Classroom}
    (hauth : s.id ∈ f.subjects) (hf : FullyAvailable f.availability)
    (htype : c.type = s.classRequirements.preferredClassroomType)
    (hcap : s.classRequirements.minClassroomCapacity ≤ c.capacity)
    (hc : FullyAvailable c.availability) (schedule : Schedule) (pos placed : Nat)
    (hday : schedule (randomDay ρ pos) = []) :
    attempt ρ [f] [c] s schedule pos placed =
      .ok (schedule.push (randomDay ρ pos)
        (randomSession s (randomTimeSlot ρ (pos + 1)) f c), placed + 1) := by
  have h1 : findSuitableFaculty s [f] (randomDay ρ pos) (randomTimeSlot ρ (pos + 1)).startTime =
      some f := by
    simp [findSuitableFaculty, facultySuits, hauth, isFree_full hf]
  have h2 : findSuitableClassroom s [c] (randomDay ρ pos)
      (randomTimeSlot ρ (pos + 1)).startTime = some c := by
    simp [findSuitableClassroom, classroomSuits, htype, hcap, isFree_full hc]
  unfold attempt
  simp only [h1, h2, hday, checkScheduleConflict, Res.bind]
  simp

/-- A candidate of the scenario that is returned holds a session. -/
theorem createRandomSchedule_single {s : Subject} {f : Faculty} {c : Classroom}
    (hfix : s.fixedTimeSlots = []) (hn : 1 ≤ s.classRequirements.classesPerWeek)
    (hauth : s.id ∈ f.subjects) (hf : FullyAvailable f.availability)
    (htype : c.type = s.classRequirements.preferredClassroomType)
    (hcap : s.classRequirements.minClassroomCapacity ≤ c.capacity)
    (hc : FullyAvailable c.availability) {fuel : Nat} {ρ : Nat → Nat} {pos pos' : Nat}
    {schedule : Schedule}
    (h : createRandomSchedule fuel ρ pos initializeSchedule [s] [f] [c] =
      .ok (schedule, pos')) : ∃ d, schedule d ≠ [] := by
  have hrem : remainingSubjects [s] = [s] := by
    simp [remainingSubjects, hfix]
  unfold createRandomSchedule at h
  rw [hrem] at h
  simp only [placeSubjects] at h
  cases hl : placeLoop ρ [f] [c] s fuel initializeSchedule pos 0 with
  | ok r =>
    rw [hl] at h
    simp only [Res.bind, Res.ok.injEq, Prod.mk.injEq] at h
    cases fuel with
    | zero =>
      unfold placeLoop at hl
      rw [if_pos (by omega)] at hl
      cases hl
    | succ n =>
      unfold placeLoop at hl
      rw [if_pos (by omega), attempt_single hauth hf htype hcap hc initializeSchedule pos 0 rfl]
        at hl
      simp only [Nat.zero_add, Nat.one_ne_zero, if_false] at hl
      obtain ⟨added, ha, _⟩ := placeLoop_valid hfix n hl (randomDay ρ pos)
      refine ⟨randomDay ρ pos, ?_⟩
      rw [← h.1, ha]
      simp [Schedule.push]
  | thrown m => rw [hl] at h; simp [Res.bind] at h
  | outOfFuel => rw [hl] at h; simp [Res.bind] at h

/-- The individuals of the first population hold a session when every returned candidate
does. -/
theorem initialPopulation_placed (fuel : Nat) (ρ : Nat → Nat) (baseSchedule : Schedule)
    (subjects : List Subject) (faculty : List Faculty) (classrooms : List Classroom)
    (hcreate : ∀ pos schedule pos',
      createRandomSchedule fuel ρ pos baseSchedule subjects faculty classrooms =
        .ok (schedule, pos') → ∃ d, schedule d ≠ [])
    (count : Nat) :
    ∀ st st' : Search,
      initialPopulation fuel ρ baseSchedule subjects faculty classrooms count st = .ok st' →
      (∀ x ∈ st.population, ∃ d, x.schedule d ≠ []) →
      ∀ x ∈ st'.population, ∃ d, x.schedule d ≠ [] := by
  induction count with
  | zero =>
    intro st st' h hp
    simp only [initialPopulation, Res.ok.injEq] at h
    subst h
    exact hp
  | succ n ih =>
    intro st st' h hp
    unfold initialPopulation at h
    cases hc : createRandomSchedule fuel ρ st.pos baseSchedule subjects faculty classrooms with
    | ok r =>
      rw [hc] at h
      simp only [Res.bind] at h
      apply ih _ _ h
      intro x hx
      rcases List.mem_append.1 hx with hx | hx
      · exact hp x hx
      · rw [List.mem_singleton.1 hx]
        obtain ⟨d, hd⟩ := hcreate st.pos r.1 r.2 hc
        refine ⟨d, fun he => hd ?_⟩
        have he' : (allocSchedule st.heap r.1).2 d = [] := he
        have := allocSchedule_length st.heap r.1 d
        rw [he', List.length_nil] at this
        exact List.length_eq_zero.1 this.symm
    | thrown m => rw [hc] at h; simp [Res.bind] at h
    | outOfFuel => rw [hc] at h; simp [Res.bind] at h

theorem Assigned.of_frame {s : Subject} {f : Faculty} {c : Classroom}
    (x y : ScheduledClass) (h : x.frame = y.frame) (hy : Assigned s f c y) : Assigned s f c x := by
  simp only [ScheduledClass.frame, Prod.mk.injEq] at h
  obtain ⟨h1, h2, h3, _⟩ := h
  exact ⟨h1.trans hy.1, h2.trans hy.2.1, h3.trans hy.2.2⟩

/-- One generation of the scenario: references stay valid, session objects stay sessions of
the subject with its teacher and room, and the head of the population gets a numeric fitness
and holds a session. -/
theorem generation_single (ρ : Nat → Nat) (s : Subject) (f : Faculty) (c : Classroom)
    (constraints : Constraints) (st : Search) (hv : RefsValid st)
    (hh : ∀ x ∈ st.heap, Assigned s f c x) (h0 : HeadPlaced st) :
    RefsValid (generation ρ [f] [c] constraints st) ∧
      (∀ x ∈ (generation ρ [f] [c] constraints st).heap, Assigned s f c x) ∧
      HeadNumeric (generation ρ [f] [c] constraints st) ∧
      HeadPlaced (generation ρ [f] [c] constraints st) := by
  have hn : HeadNumeric (generation ρ [f] [c] constraints st) := by
    apply generation_head
    obtain ⟨x, rest, hx, hne⟩ := h0
    have hs := deref_pred hh (hv x (by rw [hx]; exact List.mem_cons_self _ _))
    have hb := evaluateWorkloadBalance_single (deref st.heap x.schedule) f
      (totalHours_pos (fun d y hy => (hs d y hy).2.1) (by
        obtain ⟨d, hd⟩ := hne
        exact ⟨d, by simpa [deref] using hd⟩))
    have hu := evaluateRoomUtilization_single (deref st.heap x.schedule) c
      (fun d y hy => (hs d y hy).2.2)
    obtain ⟨q, hq⟩ := evaluateFitness_num constraints hb hu
    exact ⟨x, rest, q, hx, hq⟩
  refine ⟨generation_refsValid ρ [f] [c] constraints st hv,
    generation_heap_pred _ Assigned.of_frame ρ [f] [c] constraints st hh, hn, ?_⟩
  obtain ⟨x, rest, q, hx, hq⟩ := hn
  exact ⟨x, rest, hx, generation_evaluated ρ [f] [c] constraints st x
    (by rw [hx]; exact List.mem_cons_self _ _) q hq⟩

theorem evolve_single (ρ : Nat → Nat) (s : Subject) (f : Faculty) (c : Classroom)
    (constraints : Constraints) (gen : Nat) :
    ∀ st : Search, RefsValid st → (∀ x ∈ st.heap, Assigned s f c x) → HeadPlaced st →
      RefsValid (evolve ρ [f] [c] constraints (gen + 1) st) ∧
      (∀ x ∈ (evolve ρ [f] [c] constraints (gen + 1) st).heap, Assigned s f c x) ∧
      HeadNumeric (evolve ρ [f] [c] constraints (gen + 1) st) ∧
      Evaluated (evolve ρ [f] [c] constraints (gen + 1) st) := by
  induction gen with
  | zero =>
    intro st hv hh h0
    obtain ⟨g1, g2, g3, _⟩ := generation_single ρ s f c constraints st hv hh h0
    exact ⟨g1, g2, g3, generation_evaluated ρ [f] [c] constraints st⟩
  | succ n ih =>
    intro st hv hh h0
    obtain ⟨g1, g2, _, g4⟩ := generation_single ρ s f c constraints st hv hh h0
    rw [evolve]
    exact ih _ g1 g2 g4

theorem alwaysFree_full : FullyAvailable alwaysFree :=
  fun _ => ⟨⟨true, []⟩, rfl, rfl, fun _ h => absurd h (List.not_mem_nil _)⟩

theorem late_result :
    generateOptimizedTimetable 1 lateCrossDraws {} [sampleSubject 1] [sampleFaculty]
      [sampleClassroom] = .ok lateResult := by
  have ho : optimizeWithGeneticAlgorithm 1 lateCrossDraws initializeSchedule [sampleSubject 1]
      [sampleFaculty] [sampleClassroom] {} = .ok oneSession := by
    unfold optimizeWithGeneticAlgorithm
    rw [late_search]
    simp only [Res.bind]
    rw [late_best]
  unfold generateOptimizedTimetable generateBody
  rw [placeFixedTimeSlots_unfixed [sampleSubject 1] (by decide)]
  simp only [Res.bind]
  rw [ho]
  rfl

/-- Claim C11 as amended: one subject without fixed slots requiring at least one class per
week, one faculty member authorized for it, one classroom of the preferred type and sufficient
capacity, both open on all six days with no blocked interval.  Whenever
`generateOptimizedTimetable` returns, the conflict list is empty, every returned session is a
session of that subject with that faculty member in that classroom, there is at least one
session, and the score is `100 × (0.25 × k / 42 + 0.30 + 0.25 × 0.85 + 0.20 × 0.90)` for the
number `k` of returned sessions, which is greater than 0.  The number of sessions need not be
the required one. -/
theorem generateOptimizedTimetable_single (fuel : Nat) (ρ : Nat → Nat)
    (constraints : Constraints) (s : Subject) (f : Faculty) (c : Classroom)
    (r : OptimizationResult) (hfix : s.fixedTimeSlots = [])
    (hn : 1 ≤ s.classRequirements.classesPerWeek) (hauth : s.id ∈ f.subjects)
    (hf : FullyAvailable f.availability)
    (htype : c.type = s.classRequirements.preferredClassroomType)
    (hcap : s.classRequirements.minClassroomCapacity ≤ c.capacity)
    (hc : FullyAvailable c.availability)
    (hret : generateOptimizedTimetable fuel ρ constraints [s] [f] [c] = .ok r) :
    r.conflicts = [] ∧
      (∀ d, ∀ x ∈ r.schedule d, Assigned s f c x) ∧
      1 ≤ sessionsOf s.id r.schedule ∧
      r.score = .num (100 * (25 / 100 * ((sessionsOf s.id r.schedule : ℚ) / 42) + 30 / 100 +
        25 / 100 * (85 / 100) + 20 / 100 * (90 / 100))) ∧
      ∃ q, r.score = .num q ∧ 0 < q := by
  obtain ⟨placed, st, hp, hs, hsch, hm, hscore, hconf⟩ := generateOptimizedTimetable_ok hret
  rw [placeFixedTimeSlots_unfixed [s] (by simp [hfix])] at hp
  simp only [Res.ok.injEq] at hp
  subst hp
  obtain ⟨st0, hi, hst⟩ := searchAfter_ok hs
  obtain ⟨hv0, hh0, hlen⟩ := initialPopulation_spec (Assigned s f c) fuel ρ initializeSchedule
    [s] [f] [c] (by
      intro pos schedule pos' hcr d x hx
      obtain ⟨added, ha, hval⟩ := placeSubjects_valid [s] _
        (fun _ hs => mem_remainingSubjects.1 hs) hcr d
      rw [ha] at hx
      obtain ⟨_, _, s', hs', _, hsub, _, ⟨f', hf', hfac, _⟩, ⟨c', hc', hroom, _⟩⟩ :=
        hval x (by simpa [initializeSchedule] using hx)
      rw [List.mem_singleton.1 hs'] at hsub
      rw [List.mem_singleton.1 hf'] at hfac
      rw [List.mem_singleton.1 hc'] at hroom
      exact ⟨hsub, hfac, hroom⟩) populationSize _ _ hi
    (fun _ hx => absurd hx (List.not_mem_nil _)) (fun _ hx => absurd hx (List.not_mem_nil _))
  have hplaced := initialPopulation_placed fuel ρ initializeSchedule [s] [f] [c]
    (fun _ _ _ hcr => createRandomSchedule_single hfix hn hauth hf htype hcap hc hcr)
    populationSize _ _ hi (fun _ hx => absurd hx (List.not_mem_nil _))
  have hhead : HeadPlaced st0 := by
    cases hpop : st0.population with
    | nil => rw [hpop] at hlen; simp [populationSize] at hlen
    | cons x rest =>
      exact ⟨x, rest, hpop, hplaced x (by rw [hpop]; exact List.mem_cons_self _ _)⟩
  have hg : generations = 99 + 1 := rfl
  rw [hg] at hst
  obtain ⟨hv, hh, hnum, hev⟩ := evolve_single ρ s f c constraints 99 st0 hv0 hh0 hhead
  rw [← hst] at hv hh hnum hev
  obtain ⟨y, rest, q, hy, hq⟩ := jsSort_head hnum
  have hbest : bestIndividual st = y := by
    unfold bestIndividual
    rw [hy]
    rfl
  have hmem : y ∈ st.population := by
    rw [← mem_jsSort byFitness, hy]
    exact List.mem_cons_self _ _
  rw [hbest] at hsch
  have hass : ∀ d, ∀ x ∈ r.schedule d, Assigned s f c x := by
    rw [hsch]
    exact deref_pred hh (hv y hmem)
  have hne : ∃ d, r.schedule d ≠ [] := by
    obtain ⟨d, hd⟩ := hev y hmem q hq
    exact ⟨d, by rw [hsch]; simpa [deref] using hd⟩
  have hcount : sessionsOf s.id r.schedule = totalSessions r.schedule :=
    sessionsOf_eq_total fun d x hx => (hass d x hx).1
  have hb := evaluateWorkloadBalance_single r.schedule f
    (totalHours_pos (fun d x hx => (hass d x hx).2.1) hne)
  have hu := evaluateRoomUtilization_single r.schedule c (fun d x hx => (hass d x hx).2.2)
  have hval := calculateOverallScore_balanced r.schedule [f] [c] constraints _ hb hu
  rw [← hm, ← hscore, ← hcount] at hval
  refine ⟨by rw [hconf]; rfl, hass, ?_, hval, _, hval, by positivity⟩
  rw [hcount]
  exact totalSessions_pos hne

/-- Witness for claim C11 as amended: the run on the stream `lateCrossDraws`, which returns
`oneSession`. -/
theorem generateOptimizedTimetable_single_witness :
    generateOptimizedTimetable 1 lateCrossDraws {} [sampleSubject 1] [sampleFaculty]
        [sampleClassroom] = .ok lateResult ∧
      lateResult.conflicts = [] ∧
      (∀ d, ∀ x ∈ lateResult.schedule d,
        Assigned (sampleSubject 1) sampleFaculty sampleClassroom x) ∧
      1 ≤ sessionsOf (sampleSubject 1).id lateResult.schedule ∧
      lateResult.score =
        .num (100 * (25 / 100 * ((sessionsOf (sampleSubject 1).id lateResult.schedule : ℚ) / 42) +
          30 / 100 + 25 / 100 * (85 / 100) + 20 / 100 * (90 / 100))) ∧
      ∃ q, lateResult.score = .num q ∧ 0 < q :=
  ⟨late_result,
    generateOptimizedTimetable_single 1 lateCrossDraws {} (sampleSubject 1) sampleFaculty
      sampleClassroom lateResult rfl (by decide) (by decide) alwaysFree_full rfl (by decide)
      alwaysFree_full late_result⟩

set_option maxRecDepth 100000 in
theorem doubled_initial :
    searchAfter 1 doubledDraws 0 initializeSchedule [sampleSubject 1] [sampleFaculty]
      [sampleClassroom] {} = .ok ⟨lateHeap, 100, lateCandidates⟩ := by
  decide!

set_option maxRecDepth 100000 in
theorem doubled_first_generation :
    generation doubledDraws [sampleFaculty] [sampleClassroom] {}
      ⟨lateHeap, 100, lateCandidates⟩ = lateFinal 580 := by
  decide!

set_option maxRecDepth 100000 in
theorem doubled_second_generation :
    generation zeroDraws [sampleFaculty] [sampleClassroom] {} (lateFinal 0) =
      doubledSecond 560 := by
  decide!

set_option maxRecDepth 100000 in
theorem doubled_third_generation :
    generation zeroDraws [sampleFaculty] [sampleClassroom] {} (doubledSecond 0) =
      doubledState 560 := by
  decide!

set_option maxRecDepth 100000 in
theorem doubled_later_generation :
    generation zeroDraws [sampleFaculty] [sampleClassroom] {} (doubledState 0) =
      doubledState 560 := by
  decide!

theorem doubled_shift (pos : Nat) (hpos : 106 ≤ pos) : shift doubledDraws pos = zeroDraws := by
  funext i
  have h1 : i + pos ≠ 3 := by omega
  have h2 : ¬ (103 ≤ i + pos ∧ i + pos < 106) := by omega
  simp only [shift, doubledDraws, zeroDraws, if_neg h1, if_neg h2]

theorem doubled_generation (pos : Nat) (hpos : 106 ≤ pos) :
    generation doubledDraws [sampleFaculty] [sampleClassroom] {} (doubledState pos) =
      doubledState (560 + pos) := by
  have hs := generation_shift doubledDraws pos [sampleFaculty] [sampleClassroom] {}
    (doubledState 0)
  have h0 : (doubledState 0).addPos pos = doubledState pos := by
    simp only [doubledState, Search.addPos, Nat.zero_add]
  have h1 : (doubledState 560).addPos pos = doubledState (560 + pos) := by
    simp only [doubledState, Search.addPos]
  rw [doubled_shift pos hpos, doubled_later_generation, h0, h1] at hs
  exact hs

theorem doubled_evolve (gen : Nat) :
    ∀ pos, 106 ≤ pos → evolve doubledDraws [sampleFaculty] [sampleClassroom] {} gen
      (doubledState pos) = doubledState (560 * gen + pos) := by
  induction gen with
  | zero => intro pos _; rw [evolve, Nat.mul_zero, Nat.zero_add]
  | succ n ih =>
    intro pos hpos
    rw [evolve, doubled_generation pos hpos, ih _ (by omega)]
    have : 560 * n + (560 + pos) = 560 * (n + 1) + pos := by omega
    rw [this]

theorem doubled_second (pos : Nat) (hpos : 106 ≤ pos) :
    generation doubledDraws [sampleFaculty] [sampleClassroom] {} (lateFinal pos) =
      doubledSecond (560 + pos) := by
  have hs := generation_shift doubledDraws pos [sampleFaculty] [sampleClassroom] {}
    (lateFinal 0)
  have h0 : (lateFinal 0).addPos pos = lateFinal pos := by
    simp only [lateFinal, Search.addPos, Nat.zero_add]
  have h1 : (doubledSecond 560).addPos pos = doubledSecond (560 + pos) := by
    simp only [doubledSecond, Search.addPos]
  rw [doubled_shift pos hpos, doubled_second_generation, h0, h1] at hs
  exact hs

theorem doubled_third (pos : Nat) (hpos : 106 ≤ pos) :
    generation doubledDraws [sampleFaculty] [sampleClassroom] {} (doubledSecond pos) =
      doubledState (560 + pos) := by
  have hs := generation_shift doubledDraws pos [sampleFaculty] [sampleClassroom] {}
    (doubledSecond 0)
  have h0 : (doubledSecond 0).addPos pos = doubledSecond pos := by
    simp only [doubledSecond, Search.addPos, Nat.zero_add]
  have h1 : (doubledState 560).addPos pos = doubledState (560 + pos) := by
    simp only [doubledState, Search.addPos]
  rw [doubled_shift pos hpos, doubled_third_generation, h0, h1] at hs
  exact hs

theorem doubled_search :
    searchAfter 1 doubledDraws generations initializeSchedule [sampleSubject 1]
      [sampleFaculty] [sampleClassroom] {} = .ok (doubledState 56020) := by
  have h0 := doubled_initial
  unfold searchAfter at h0 ⊢
  cases hi : initialPopulation 1 doubledDraws initializeSchedule [sampleSubject 1]
      [sampleFaculty] [sampleClassroom] populationSize
      { heap := [], pos := 0, population := [] } with
  | ok st =>
    rw [hi] at h0
    simp only [Res.bind, evolve, Res.ok.injEq] at h0
    subst h0
    simp only [Res.bind, generations]
    rw [evolve, doubled_first_generation, evolve, doubled_second 580 (by omega), evolve,
      doubled_third _ (by omega), doubled_evolve 97 _ (by omega)]
  | thrown m => rw [hi] at h0; simp [Res.bind] at h0
  | outOfFuel => rw [hi] at h0; simp [Res.bind] at h0

set_option maxRecDepth 100000 in
theorem doubled_best (pos : Nat) :
    deref (doubledState pos).heap (bestIndividual (doubledState pos)).schedule =
      doubledSchedule := by
  have h : deref lateHeap ((jsSort byFitness (doubledState 0).population).headD
      default).schedule = doubledSchedule := by decide!
  exact h

theorem doubled_result :
    generateOptimizedTimetable 1 doubledDraws {} [sampleSubject 1] [sampleFaculty]
      [sampleClassroom] = .ok doubledResult := by
  have ho : optimizeWithGeneticAlgorithm 1 doubledDraws initializeSchedule [sampleSubject 1]
      [sampleFaculty] [sampleClassroom] {} = .ok doubledSchedule := by
    unfold optimizeWithGeneticAlgorithm
    rw [doubled_search]
    simp only [Res.bind]
    rw [doubled_best]
  unfold generateOptimizedTimetable generateBody
  rw [placeFixedTimeSlots_unfixed [sampleSubject 1] (by decide)]
  simp only [Res.bind]
  rw [ho]
  rfl

/-- Counterexample to claim C11 as stated, with required count 1: one subject requiring one
class per week, one faculty member, one classroom, both free all week, and the stream
`doubledDraws`.  The first offspring of the first generation takes the 09:00 session of one
parent and the 10:00 session of the other, ranks first from then on, and the returned schedule
holds two sessions of the subject, not one. -/
theorem search_doubles_sessions :
    (sampleSubject 1).classRequirements.classesPerWeek = 1 ∧
      generateOptimizedTimetable 1 doubledDraws {} [sampleSubject 1] [sampleFaculty]
        [sampleClassroom] = .ok doubledResult ∧
      doubledResult.schedule .monday = [mondaySession, lateSession] ∧
      sessionsOf (sampleSubject 1).id doubledResult.schedule = 2 ∧
      doubledResult.conflicts = [] :=
  ⟨rfl, doubled_result, rfl, by decide, rfl⟩

/-! ## Tournaments and the elite (C21, C22) -/

theorem fitnessGe_self {x : Individual} (h : Numeric x) : FitnessGe x x := by
  obtain ⟨q, hq⟩ := h
  exact ⟨q, q, hq, hq, le_refl q⟩

theorem fitnessGe_chain {a b c : Individual} (hab : FitnessGe a b) (hbc : FitnessGe b c) :
    FitnessGe a c := by
  obtain ⟨p, q, hp, hq, h1⟩ := hab
  obtain ⟨q', r, hq', hr, h2⟩ := hbc
  rw [hq] at hq'
  simp only [Option.some.injEq, JsNum.num.injEq] at hq'
  subst hq'
  exact ⟨p, r, hp, hr, le_trans h2 h1⟩

/-- The comparator on two numeric individuals: negative exactly when the first is fitter. -/
theorem byFitness_isNeg {x y : Individual} {p q : ℚ} (hx : x.fitness = some (.num p))
    (hy : y.fitness = some (.num q)) : (byFitness x y).isNeg = decide (q < p) := by
  simp only [byFitness, Individual.fitnessValue, hx, hy, Option.getD_some, JsNum.sub,
    JsNum.isNeg]
  by_cases h : q < p
  · simp [h]
  · simp [h]

theorem insertSorted_pairwise (x : Individual) (hx : Numeric x) (l : List Individual)
    (hl : ∀ y ∈ l, Numeric y) (hs : l.Pairwise FitnessGe) :
    (insertSorted byFitness x l).Pairwise FitnessGe := by
  induction l with
  | nil => exact List.pairwise_singleton _ _
  | cons y ys ih =>
    obtain ⟨p, hp⟩ := hx
    obtain ⟨q, hq⟩ := hl y (List.mem_cons_self _ _)
    rw [List.pairwise_cons] at hs
    unfold insertSorted
    rw [byFitness_isNeg hp hq]
    by_cases h : q < p
    · rw [if_pos (by simpa using h)]
      have hxy : FitnessGe x y := ⟨p, q, hp, hq, le_of_lt h⟩
      refine List.Pairwise.cons ?_ (List.Pairwise.cons hs.1 hs.2)
      intro z hz
      rcases List.mem_cons.1 hz with rfl | hz
      · exact hxy
      · exact fitnessGe_chain hxy (hs.1 z hz)
    · rw [if_neg (by simpa using h)]
      refine List.Pairwise.cons ?_
        (ih (fun z hz => hl z (List.mem_cons_of_mem _ hz)) hs.2)
      intro z hz
      rcases (mem_insertSorted byFitness x z ys).1 hz with rfl | hz
      · exact ⟨q, p, hq, hp, not_lt.1 h⟩
      · exact hs.1 z hz

theorem foldl_insertSorted_pairwise (l : List Individual) (hl : ∀ y ∈ l, Numeric y) :
    ∀ acc : List Individual, (∀ y ∈ acc, Numeric y) → acc.Pairwise FitnessGe →
      (l.foldl (fun sorted x => insertSorted byFitness x sorted) acc).Pairwise FitnessGe := by
  induction l with
  | nil => intro acc _ hs; exact hs
  | cons x xs ih =>
    intro acc ha hs
    rw [List.foldl_cons]
    apply ih (fun y hy => hl y (List.mem_cons_of_mem _ hy))
    · intro y hy
      rcases (mem_insertSorted byFitness x y acc).1 hy with rfl | hy
      · exact hl _ (List.mem_cons_self _ _)
      · exact ha y hy
    · exact insertSorted_pairwise x (hl x (List.mem_cons_self _ _)) acc ha hs

/-- Sorting individuals whose fitness are numbers puts them in descending order of fitness. -/
theorem jsSort_pairwise (l : List Individual) (hl : ∀ y ∈ l, Numeric y) :
    (jsSort byFitness l).Pairwise FitnessGe :=
  foldl_insertSorted_pairwise l hl [] (fun _ h => absurd h (List.not_mem_nil _))
    List.Pairwise.nil

theorem insertSorted_perm {α : Type} (cmp : α → α → JsNum) (x : α) (l : List α) :
    (insertSorted cmp x l).Perm (x :: l) := by
  induction l with
  | nil => exact List.Perm.refl _
  | cons y ys ih =>
    unfold insertSorted
    split
    · exact List.Perm.refl _
    · exact (List.Perm.cons y ih).trans (List.Perm.swap x y ys)

theorem foldl_insertSorted_perm {α : Type} (cmp : α → α → JsNum) (l : List α) :
    ∀ acc : List α,
      (l.foldl (fun sorted x => insertSorted cmp x sorted) acc).Perm (acc ++ l) := by
  induction l with
  | nil => intro acc; simp
  | cons x xs ih =>
    intro acc
    rw [List.foldl_cons]
    refine (ih _).trans ?_
    refine ((insertSorted_perm cmp x acc).append_right xs).trans ?_
    simp only [List.cons_append]
    exact (List.perm_middle).symm

/-- Sorting rearranges: the sorted array holds the same elements, each as often. -/
theorem jsSort_perm {α : Type} (cmp : α → α → JsNum) (l : List α) : (jsSort cmp l).Perm l := by
  have := foldl_insertSorted_perm cmp l []
  simpa [jsSort] using this

theorem tournament_mem (ρ : Nat → Nat) (pos : Nat) {population : List Individual}
    (hne : population ≠ []) : ∀ x ∈ tournament ρ pos population, x ∈ population := by
  have hlen : 0 < population.length := List.length_pos.2 hne
  intro x hx
  simp only [tournament, List.mem_cons, List.mem_singleton, List.not_mem_nil, or_false] at hx
  rcases hx with rfl | rfl | rfl <;>
    · unfold randomIndex
      rw [List.getD_eq_getElem _ _ (Nat.mod_lt _ hlen)]
      exact List.getElem_mem _

/-- Claim C21: on a population that is not empty, the three sampled individuals are members of
the population, `tournamentSelection` returns one of the three, and when the fitness of the
three are numbers, the fitness of the returned individual is at least that of each of them. -/
theorem tournamentSelection_fittest (ρ : Nat → Nat) (pos : Nat) (population : List Individual)
    (hne : population ≠ []) :
    (∀ x ∈ tournament ρ pos population, x ∈ population) ∧
      (tournamentSelection ρ pos population).1 ∈ tournament ρ pos population ∧
      ((∀ x ∈ tournament ρ pos population, Numeric x) →
        ∀ x ∈ tournament ρ pos population,
          FitnessGe (tournamentSelection ρ pos population).1 x) := by
  have hsel : (tournamentSelection ρ pos population).1 =
      (jsSort byFitness (tournament ρ pos population)).headD default := rfl
  have hperm := jsSort_perm byFitness (tournament ρ pos population)
  obtain ⟨y, rest, hy⟩ : ∃ y rest, jsSort byFitness (tournament ρ pos population) = y :: rest := by
    cases h : jsSort byFitness (tournament ρ pos population) with
    | nil =>
      rw [h] at hperm
      have := hperm.length_eq
      simp [tournament] at this
    | cons y rest => exact ⟨y, rest, rfl⟩
  have hhead : (tournamentSelection ρ pos population).1 = y := by rw [hsel, hy]; rfl
  refine ⟨tournament_mem ρ pos hne, ?_, ?_⟩
  · rw [hhead]
    exact hperm.subset (by rw [hy]; exact List.mem_cons_self _ _)
  · intro hnum x hx
    rw [hhead]
    have hs := jsSort_pairwise _ hnum
    rw [hy, List.pairwise_cons] at hs
    have hx' : x ∈ y :: rest := by rw [← hy]; exact hperm.symm.subset hx
    rcases List.mem_cons.1 hx' with rfl | hx'
    · exact fitnessGe_self (hnum _ hx)
    · exact hs.1 x hx'

/-- Witness for claim C21: three individuals of fitness 1, 3 and 2, sampled in that order; the
one of fitness 3 is returned. -/
theorem tournamentSelection_fittest_witness :
    threeRanked ≠ [] ∧
      (tournamentSelection countingDraws 0 threeRanked).1.fitness = some (.num 3) ∧
      (∀ x ∈ tournament countingDraws 0 threeRanked, x ∈ threeRanked) ∧
      (tournamentSelection countingDraws 0 threeRanked).1 ∈
        tournament countingDraws 0 threeRanked ∧
      ((∀ x ∈ tournament countingDraws 0 threeRanked, Numeric x) →
        ∀ x ∈ tournament countingDraws 0 threeRanked,
          FitnessGe (tournamentSelection countingDraws 0 threeRanked).1 x) :=
  ⟨by simp [threeRanked], by decide!,
    tournamentSelection_fittest countingDraws 0 threeRanked (by simp [threeRanked])⟩

theorem offspringLoop_length (ρ : Nat → Nat) (population : List Individual) (count : Nat) :
    ∀ st : Search, (offspringLoop ρ population count st).population.length =
      st.population.length + count := by
  induction count with
  | zero => intro st; rfl
  | succ n ih =>
    intro st
    unfold offspringLoop
    rw [ih]
    simp only [offspringStep, List.length_append, List.length_singleton]
    omega

theorem length_rankedPopulation (faculty : List Faculty) (classrooms : List Classroom)
    (constraints : Constraints) (st : Search) :
    (rankedPopulation faculty classrooms constraints st).length = st.population.length := by
  unfold rankedPopulation evaluatePopulation
  rw [length_jsSort, List.length_map]

/-- A generation keeps the size of a population of fifty. -/
theorem generation_length (ρ : Nat → Nat) (faculty : List Faculty)
    (classrooms : List Classroom) (constraints : Constraints) (st : Search)
    (h : st.population.length = populationSize) :
    (generation ρ faculty classrooms constraints st).population.length = populationSize := by
  unfold generation
  simp only []
  rw [offspringLoop_length]
  simp only [List.length_take, length_rankedPopulation, h, populationSize, eliteCount]
  rfl

/-- The head of the new population is the head of the ranked one. -/
theorem generation_take (ρ : Nat → Nat) (faculty : List Faculty)
    (classrooms : List Classroom) (constraints : Constraints) (st : Search)
    (h : st.population.length = populationSize) :
    (generation ρ faculty classrooms constraints st).population.take eliteCount =
      (rankedPopulation faculty classrooms constraints st).take eliteCount := by
  obtain ⟨_, _, l, hl, _⟩ := generation_spec ρ faculty classrooms constraints st
  rw [hl]
  apply List.take_left'
  rw [List.length_take, length_rankedPopulation, h]
  rfl

theorem rankedPopulation_pairwise (faculty : List Faculty) (classrooms : List Classroom)
    (constraints : Constraints) (st : Search)
    (h : ∀ x ∈ st.population, ∃ q,
      evaluateFitness (deref st.heap x.schedule) faculty classrooms constraints = .num q) :
    (rankedPopulation faculty classrooms constraints st).Pairwise FitnessGe := by
  unfold rankedPopulation evaluatePopulation
  apply jsSort_pairwise
  intro y hy
  obtain ⟨x, hx, rfl⟩ := List.mem_map.1 hy
  obtain ⟨q, hq⟩ := h x hx
  exact ⟨q, by rw [hq]⟩

set_option maxRecDepth 100000 in
theorem pinned_ranked_head :
    ((rankedPopulation [sampleFaculty] [sampleClassroom, sampleLaboratory] {}
      pinnedStart).headD default) = ⟨onDay .monday [0, 1], some (.num (1685 / 14))⟩ := by
  decide!

set_option maxRecDepth 100000 in
theorem pinned_ranked_fitness :
    (rankedPopulation [sampleFaculty] [sampleClassroom, sampleLaboratory] {}
      pinnedStart).map (fun x => x.fitness) =
      List.replicate 50 (some (.num (1685 / 14))) := by
  decide!

/-- Claim C22, what holds and a failing input.  For every population of fifty: the next
population has fifty individuals, its first ten are the first ten of the evaluated and sorted
population (a rearrangement of the evaluated population), in descending order of fitness and
each at least as fit as every individual not carried over when all fitness are numbers.  But the
sessions of the elite do change: in the first generation of the pinned run, where every fitness
is `1685/14`, the first elite individual holds the session objects `0` and `1` before and
after, and its first session starts at 10:00 before the generation and at 09:00 after it,
where the mutation of an offspring moved it. -/
theorem generation_elite :
    (∀ (ρ : Nat → Nat) (faculty : List Faculty) (classrooms : List Classroom)
      (constraints : Constraints) (st : Search), st.population.length = populationSize →
      (generation ρ faculty classrooms constraints st).population.length = populationSize ∧
      (generation ρ faculty classrooms constraints st).population.take eliteCount =
        (rankedPopulation faculty classrooms constraints st).take eliteCount ∧
      (rankedPopulation faculty classrooms constraints st).Perm
        (evaluatePopulation st.heap faculty classrooms constraints st.population) ∧
      ((∀ x ∈ st.population, ∃ q,
          evaluateFitness (deref st.heap x.schedule) faculty classrooms constraints =
            .num q) →
        (rankedPopulation faculty classrooms constraints st).Pairwise FitnessGe ∧
        ∀ a ∈ (rankedPopulation faculty classrooms constraints st).take eliteCount,
          ∀ b ∈ (rankedPopulation faculty classrooms constraints st).drop eliteCount,
            FitnessGe a b)) ∧
      pinnedStart.population.length = populationSize ∧
      (rankedPopulation [sampleFaculty] [sampleClassroom, sampleLaboratory] {}
        pinnedStart).map (fun x => x.fitness) = List.replicate 50 (some (.num (1685 / 14))) ∧
      (rankedPopulation [sampleFaculty] [sampleClassroom, sampleLaboratory] {}
        pinnedStart).headD default = ⟨onDay .monday [0, 1], some (.num (1685 / 14))⟩ ∧
      (generation zeroDraws [sampleFaculty] [sampleClassroom, sampleLaboratory] {}
        pinnedStart).population.headD default =
        ⟨onDay .monday [0, 1], some (.num (1685 / 14))⟩ ∧
      deref pinnedStart.heap (onDay .monday [0, 1]) .monday = [pinnedSession, mondaySession] ∧
      deref (generation zeroDraws [sampleFaculty] [sampleClassroom, sampleLaboratory] {}
        pinnedStart).heap (onDay .monday [0, 1]) .monday =
        [{ pinnedSession with timeSlot := ⟨"09:00", "10:00"⟩ }, mondaySession] ∧
      pinnedSession.timeSlot = ⟨"10:00", "11:00"⟩ := by
  have hg : generation zeroDraws [sampleFaculty] [sampleClassroom, sampleLaboratory] {}
      pinnedStart = pinnedState 660 := pinned_first_generation
  refine ⟨fun ρ faculty classrooms constraints st h => ⟨generation_length ρ faculty classrooms
    constraints st h, generation_take ρ faculty classrooms constraints st h,
    jsSort_perm _ _, fun hnum => ?_⟩, rfl, pinned_ranked_fitness, pinned_ranked_head, ?_, rfl,
    ?_, rfl⟩
  · have hp := rankedPopulation_pairwise faculty classrooms constraints st hnum
    refine ⟨hp, ?_⟩
    rw [← List.take_append_drop eliteCount
      (rankedPopulation faculty classrooms constraints st), List.pairwise_append] at hp
    exact hp.2.2
  · rw [hg]
    rfl
  · rw [hg]
    rfl

/-! ## What the utilization counts (C23) -/

theorem foldl_add_eq_sum (l : List Nat) : ∀ a, l.foldl (fun a b => a + b) a = a + l.sum := by
  induction l with
  | nil => intro a; simp
  | cons x xs ih =>
    intro a
    rw [List.foldl_cons, ih, List.sum_cons]
    omega

theorem count_keys (u : RoomUsage) (c : Option Id) :
    (u.count c).map Prod.fst = u.map Prod.fst := by
  cases c with
  | none => rfl
  | some k =>
    simp only [RoomUsage.count, List.map_map]
    apply List.map_congr_left
    intro e _
    simp only [Function.comp]
    split <;> rfl

theorem count_sum (u : RoomUsage) (hu : (u.map Prod.fst).Nodup) (c : Option Id) :
    ((u.count c).map Prod.snd).sum =
      (u.map Prod.snd).sum + if c ∈ u.map (fun e => some e.1) then 1 else 0 := by
  cases c with
  | none => simp [RoomUsage.count]
  | some k =>
    induction u with
    | nil => simp [RoomUsage.count]
    | cons e es ih =>
      rw [List.map_cons, List.nodup_cons] at hu
      have ih' := ih hu.2
      have hstep : RoomUsage.count (e :: es) (some k) =
          (if e.1 = k then (e.1, e.2 + 1) else e) :: RoomUsage.count es (some k) := rfl
      rw [hstep, List.map_cons, List.sum_cons, ih', List.map_cons, List.sum_cons,
        List.map_cons]
      by_cases hk : e.1 = k
      · have hnot : some k ∉ es.map (fun e => some e.1) := by
          intro hm
          obtain ⟨e', he', hke⟩ := List.mem_map.1 hm
          simp only [Option.some.injEq] at hke
          exact hu.1 (by rw [hk, ← hke]; exact List.mem_map_of_mem Prod.fst he')
        rw [if_pos hk, if_neg hnot, if_pos (List.mem_cons.2 (Or.inl (by rw [hk])))]
        omega
      · rw [if_neg hk]
        by_cases hm : some k ∈ es.map (fun e => some e.1)
        · rw [if_pos hm, if_pos (List.mem_cons_of_mem _ hm)]
          omega
        · rw [if_neg hm, if_neg (by
            intro h
            rcases List.mem_cons.1 h with h | h
            · exact hk (Option.some.inj h).symm
            · exact hm h)]
          omega

theorem foldl_count (l : List ScheduledClass) :
    ∀ u : RoomUsage, (u.map Prod.fst).Nodup →
      (l.foldl (fun u classInfo => u.count classInfo.classroom) u).map Prod.fst =
          u.map Prod.fst ∧
        ((l.foldl (fun u classInfo => u.count classInfo.classroom) u).map Prod.snd).sum =
          (u.map Prod.snd).sum +
            (l.filter fun c => decide (c.classroom ∈ u.map fun e => some e.1)).length := by
  induction l with
  | nil => intro u _; simp
  | cons x xs ih =>
    intro u hu
    rw [List.foldl_cons]
    have hk := count_keys u x.classroom
    have hk' : (u.count x.classroom).map (fun e => some e.1) = u.map (fun e => some e.1) := by
      have := congrArg (List.map some) hk
      simpa [List.map_map, Function.comp_def] using this
    obtain ⟨h1, h2⟩ := ih (u.count x.classroom) (by rw [hk]; exact hu)
    refine ⟨by rw [h1, hk], ?_⟩
    rw [h2, count_sum u hu, hk']
    by_cases hx : x.classroom ∈ u.map (fun e => some e.1)
    · rw [if_pos hx, List.filter_cons_of_pos (by simpa using hx), List.length_cons]
      omega
    · rw [if_neg hx, List.filter_cons_of_neg (by simpa using hx)]
      omega

theorem foldl_days_count (ls : List (List ScheduledClass)) :
    ∀ u : RoomUsage, (u.map Prod.fst).Nodup →
      (ls.foldl (fun u daySchedule =>
          daySchedule.foldl (fun u classInfo => u.count classInfo.classroom) u) u).map
          Prod.fst = u.map Prod.fst ∧
        ((ls.foldl (fun u daySchedule =>
          daySchedule.foldl (fun u classInfo => u.count classInfo.classroom) u) u).map
          Prod.snd).sum =
          (u.map Prod.snd).sum +
            (ls.map fun l =>
              (l.filter fun c => decide (c.classroom ∈ u.map fun e => some e.1)).length).sum := by
  induction ls with
  | nil => intro u _; simp
  | cons l rest ih =>
    intro u hu
    rw [List.foldl_cons]
    obtain ⟨k1, k2⟩ := foldl_count l u hu
    obtain ⟨h1, h2⟩ := ih _ (by rw [k1]; exact hu)
    have hk' : (l.foldl (fun u classInfo => u.count classInfo.classroom) u).map
        (fun e => some e.1) = u.map (fun e => some e.1) := by
      have := congrArg (List.map some) k1
      simpa [List.map_map, Function.comp_def] using this
    refine ⟨by rw [h1, k1], ?_⟩
    rw [h2, k2, hk', List.map_cons, List.sum_cons]
    omega

theorem setZero_keys (u : RoomUsage) (k : Id) (hu : (u.map Prod.fst).Nodup) :
    ((u.setZero k).map Prod.fst).Nodup ∧
      ∀ k', k' ∈ (u.setZero k).map Prod.fst ↔ k' ∈ u.map Prod.fst ∨ k' = k := by
  unfold RoomUsage.setZero
  by_cases h : u.any (fun e => decide (e.1 = k)) = true
  · rw [if_pos h]
    have hmap : (u.map fun e => if e.1 = k then (e.1, 0) else e).map Prod.fst =
        u.map Prod.fst := by
      rw [List.map_map]
      apply List.map_congr_left
      intro e _
      simp only [Function.comp]
      split <;> rfl
    rw [hmap]
    refine ⟨hu, fun k' => ⟨Or.inl, fun hk => ?_⟩⟩
    rcases hk with hk | rfl
    · exact hk
    · obtain ⟨e, he, hek⟩ := List.any_eq_true.1 h
      simp only [decide_eq_true_eq] at hek
      rw [← hek]
      exact List.mem_map_of_mem Prod.fst he
  · rw [if_neg h]
    have hnot : k ∉ u.map Prod.fst := by
      intro hm
      obtain ⟨e, he, hek⟩ := List.mem_map.1 hm
      exact h (List.any_eq_true.2 ⟨e, he, by simpa using hek⟩)
    rw [List.map_append, List.map_cons, List.map_nil]
    refine ⟨?_, fun k' => by simp⟩
    rw [List.nodup_append]
    exact ⟨hu, List.nodup_singleton _, fun a ha hb => hnot (by
      rw [List.mem_singleton.1 hb] at ha; exact ha)⟩

theorem foldl_setZero_keys (classrooms : List Classroom) :
    ∀ u : RoomUsage, (u.map Prod.fst).Nodup →
      ((classrooms.foldl (fun u room => u.setZero room.id) u).map Prod.fst).Nodup ∧
        ∀ k, k ∈ (classrooms.foldl (fun u room => u.setZero room.id) u).map Prod.fst ↔
          k ∈ u.map Prod.fst ∨ k ∈ classrooms.map fun r => r.id := by
  induction classrooms with
  | nil => intro u hu; exact ⟨hu, fun k => by simp⟩
  | cons c rest ih =>
    intro u hu
    rw [List.foldl_cons]
    obtain ⟨h1, h2⟩ := setZero_keys u c.id hu
    obtain ⟨g1, g2⟩ := ih _ h1
    refine ⟨g1, fun k => ?_⟩
    rw [g2, h2, List.map_cons, List.mem_cons]
    tauto

/-- The utilization as the program computes it: the sessions held in listed classrooms, over
the classrooms times the 42 slots of the week. -/
theorem evaluateRoomUtilization_eq (schedule : Schedule) (classrooms : List Classroom)
    (h : classrooms ≠ []) :
    evaluateRoomUtilization schedule classrooms =
      .num ((listedSessions schedule classrooms : ℚ) / ((classrooms.length : ℚ) * 7 * 6)) := by
  unfold evaluateRoomUtilization
  simp only []
  obtain ⟨hnd, hkeys⟩ := foldl_setZero_keys classrooms [] List.nodup_nil
  have hzero := foldl_setZero_zero classrooms [] (fun _ hx => absurd hx (List.not_mem_nil _))
  obtain ⟨_, hsum⟩ := foldl_days_count schedule.values _ hnd
  have hz : ((classrooms.foldl (fun (u : RoomUsage) room => u.setZero room.id) []).map
      Prod.snd).sum = 0 :=
    List.sum_eq_zero fun n hn => by
      obtain ⟨e, he, rfl⟩ := List.mem_map.1 hn
      exact hzero e he
  have hfilter : ∀ c : Option Id,
      (c ∈ (classrooms.foldl (fun (u : RoomUsage) room => u.setZero room.id) []).map
        (fun e => some e.1)) ↔ c ∈ classrooms.map fun r => some r.id := by
    intro c
    cases c with
    | none => simp
    | some k =>
      have := hkeys k
      simp only [List.map_nil, List.not_mem_nil, false_or, List.mem_map] at this
      simp only [List.mem_map, Option.some.injEq]
      constructor
      · rintro ⟨e, he, rfl⟩
        exact this.1 ⟨e, he, rfl⟩
      · intro hk
        obtain ⟨e, he, hek⟩ := this.2 hk
        exact ⟨e, he, hek⟩
  have hcount : (schedule.values.map fun l =>
      (l.filter fun c => decide (c.classroom ∈
        (classrooms.foldl (fun (u : RoomUsage) room => u.setZero room.id) []).map
          fun e => some e.1)).length).sum = listedSessions schedule classrooms := by
    unfold listedSessions Schedule.values
    rw [List.map_map]
    congr 1
    apply List.map_congr_left
    intro d _
    simp only [Function.comp]
    congr 1
    apply List.filter_congr
    intro c _
    simp only [hfilter]
  rw [foldl_add_eq_sum, hsum, hz, hcount]
  have hl : (classrooms.length : ℚ) ≠ 0 := by
    rw [Nat.cast_ne_zero]
    exact fun hc => h (List.length_eq_zero.1 hc)
  simp [JsNum.div, JsNum.ofNat, timeSlots, days, hl]
  ring

theorem listedSessions_eq_total {schedule : Schedule} {classrooms : List Classroom}
    (h : ∀ d, ∀ x ∈ schedule d, x.classroom ∈ classrooms.map fun r => some r.id) :
    listedSessions schedule classrooms = totalSessions schedule := by
  unfold listedSessions totalSessions
  congr 1
  apply List.map_congr_left
  intro d _
  rw [List.filter_eq_self.2 (fun x hx => by simpa using h d x hx)]

/-- Claim C23 as amended: for every schedule and every classroom list that is not empty,
`evaluateRoomUtilization` is the number of sessions held in a listed classroom over
(number of classrooms × 7 × 6); it is the total number of sessions over that capacity when
every session is held in a listed classroom. -/
theorem evaluateRoomUtilization_listed (schedule : Schedule) (classrooms : List Classroom)
    (h : classrooms ≠ []) :
    evaluateRoomUtilization schedule classrooms =
        .num ((listedSessions schedule classrooms : ℚ) / ((classrooms.length : ℚ) * 7 * 6)) ∧
      listedSessions schedule classrooms ≤ totalSessions schedule ∧
      ((∀ d, ∀ x ∈ schedule d, x.classroom ∈ classrooms.map fun r => some r.id) →
        evaluateRoomUtilization schedule classrooms =
          .num ((totalSessions schedule : ℚ) / ((classrooms.length : ℚ) * 7 * 6))) := by
  refine ⟨evaluateRoomUtilization_eq schedule classrooms h, ?_, fun hall => ?_⟩
  · unfold listedSessions totalSessions
    apply List.sum_le_sum
    intro d _
    exact List.length_filter_le _ _
  · rw [evaluateRoomUtilization_eq schedule classrooms h, listedSessions_eq_total hall]

/-- Witness for claim C23 as amended: the schedule with one session in the sample classroom,
with that classroom listed. -/
theorem evaluateRoomUtilization_listed_witness :
    [sampleClassroom] ≠ [] ∧
      evaluateRoomUtilization oneSession [sampleClassroom] =
        .num ((listedSessions oneSession [sampleClassroom] : ℚ) /
          ((([sampleClassroom] : List Classroom).length : ℚ) * 7 * 6)) ∧
      listedSessions oneSession [sampleClassroom] ≤ totalSessions oneSession ∧
      ((∀ d, ∀ x ∈ oneSession d, x.classroom ∈ [sampleClassroom].map fun r => some r.id) →
        evaluateRoomUtilization oneSession [sampleClassroom] =
          .num ((totalSessions oneSession : ℚ) /
            ((([sampleClassroom] : List Classroom).length : ℚ) * 7 * 6))) :=
  ⟨by simp, evaluateRoomUtilization_listed oneSession [sampleClassroom] (by simp)⟩

set_option maxRecDepth 100000 in
/-- Counterexample to claim C23 as stated: the schedule holding the fixed session of
`fixedSubject` in classroom `20`, with the laboratory `21` as the only listed classroom.  The
schedule holds one session, the stated formula gives `1/42`, and `evaluateRoomUtilization`
returns `0`: the session is not in a listed classroom and is not counted. -/
theorem evaluateRoomUtilization_unlisted :
    fixedBase .monday = [fixedSession fixedSubject ⟨.monday, "09:00", "10:00", some 20⟩] ∧
      totalSessions fixedBase = 1 ∧
      evaluateRoomUtilization fixedBase [sampleLaboratory] = .num 0 ∧
      (JsNum.num 0 ≠ .num ((totalSessions fixedBase : ℚ) / (1 * 7 * 6))) := by
  refine ⟨rfl, rfl, by decide!, ?_⟩
  intro h
  have h1 : totalSessions fixedBase = 1 := rfl
  rw [h1] at h
  simp only [JsNum.num.injEq] at h
  norm_num at h

/-! ## The range of the utilization (C24) -/

set_option maxRecDepth 1000000 in
theorem crowded_placed :
    placeFixedTimeSlots [crowdedSubject] (initializeSchedule, []) = .ok (crowded, []) := by
  decide!

set_option maxRecDepth 1000000 in
theorem crowded_listed : listedSessions crowded [sampleClassroom] = 48 := by
  decide!

/-- Claim C24, what holds and a failing input.  For every schedule and every classroom list
that is not empty the utilization is a number that is not negative, and it is at most 1 when
the sessions held in listed classrooms are no more than 42 per classroom.  But the fixed-slot
placer accepts any time and any number of fixed slots: for a classroom booked every hour from
09:00 to 17:00 on all six days it builds a schedule of 48 sessions with no conflict, whose
utilization is `8/7`, more than 1. -/
theorem evaluateRoomUtilization_range :
    (∀ (schedule : Schedule) (classrooms : List Classroom), classrooms ≠ [] →
      ∃ q, evaluateRoomUtilization schedule classrooms = .num q ∧ 0 ≤ q ∧
        (listedSessions schedule classrooms ≤ classrooms.length * 42 → q ≤ 1)) ∧
      placeFixedTimeSlots [crowdedSubject] (initializeSchedule, []) = .ok (crowded, []) ∧
      evaluateRoomUtilization crowded [sampleClassroom] = .num (8 / 7) ∧
      (1 : ℚ) < 8 / 7 := by
  refine ⟨fun schedule classrooms h => ⟨_, evaluateRoomUtilization_eq schedule classrooms h,
    by positivity, fun hle => ?_⟩, crowded_placed, ?_, by norm_num⟩
  · have hl : (0 : ℚ) < (classrooms.length : ℚ) * 7 * 6 := by
      have : 0 < classrooms.length := List.length_pos.2 h
      have : (0 : ℚ) < (classrooms.length : ℚ) := by exact_mod_cast this
      positivity
    rw [div_le_one hl]
    have : ((listedSessions schedule classrooms : ℕ) : ℚ) ≤ ((classrooms.length * 42 : ℕ) : ℚ) :=
      by exact_mod_cast hle
    push_cast at this
    linarith
  · rw [evaluateRoomUtilization_eq crowded [sampleClassroom] (by simp), crowded_listed]
    norm_num

/-! ## The formula of the workload balance (C25) -/

theorem sessionCounts_eq (schedule : Schedule) (faculty : List Faculty) :
    sessionCounts schedule faculty =
      (faculty.map (totalHours schedule)).map fun (n : Nat) => (n : ℚ) := by
  unfold sessionCounts
  rw [List.map_map]
  apply List.map_congr_left
  intro f _
  simp only [Function.comp, totalHours_eq]

theorem cast_sum_nat (w : List Nat) : ((w.sum : Nat) : ℚ) = (w.map fun (n : Nat) => (n : ℚ)).sum := by
  induction w with
  | nil => simp
  | cons x xs ih => simp [ih]

theorem foldl_squares (m : ℚ) (w : List Nat) :
    ∀ a : ℚ, w.foldl (fun (acc : JsNum) (hours : Nat) =>
        acc.add (((JsNum.ofNat hours).sub (JsNum.num m)).mul
          ((JsNum.ofNat hours).sub (JsNum.num m))))
        (JsNum.num a) =
      JsNum.num (a + ((w.map fun (n : Nat) => (n : ℚ)).map fun x => (x - m) ^ 2).sum) := by
  induction w with
  | nil => intro a; simp
  | cons x xs ih =>
    intro a
    have hstep : (JsNum.num a).add (((JsNum.ofNat x).sub (JsNum.num m)).mul
        ((JsNum.ofNat x).sub (JsNum.num m))) = JsNum.num (a + (x - m) * (x - m)) := rfl
    rw [List.foldl_cons, hstep, ih]
    simp only [List.map_cons, List.sum_cons, JsNum.num.injEq]
    ring

/-- The balance as the program computes it, when the mean of the session counts is not zero:
the formula of the design. -/
theorem evaluateWorkloadBalance_eq (schedule : Schedule) (faculty : List Faculty)
    (hm : mean (sessionCounts schedule faculty) ≠ 0) :
    evaluateWorkloadBalance schedule faculty =
      .num (balanceFormula (sessionCounts schedule faculty)) := by
  have hlen : ((sessionCounts schedule faculty).length : ℚ) ≠ 0 := by
    intro h0
    apply hm
    unfold mean
    rw [h0, div_zero]
  rw [sessionCounts_eq] at hm hlen ⊢
  unfold evaluateWorkloadBalance
  simp only []
  generalize faculty.map (totalHours schedule) = w at hm hlen ⊢
  rw [List.length_map] at hlen
  have havg : (JsNum.ofNat (w.foldl (fun a b => a + b) 0)).div (JsNum.ofNat w.length) =
      .num (mean (w.map fun (n : Nat) => (n : ℚ))) := by
    rw [foldl_add_eq_sum, Nat.zero_add]
    simp only [JsNum.ofNat, JsNum.div, if_neg hlen, mean, cast_sum_nat, List.length_map]
  rw [havg, foldl_squares]
  have hmm : mean (w.map fun (n : Nat) => (n : ℚ)) * mean (w.map fun (n : Nat) => (n : ℚ)) ≠ 0 :=
    mul_ne_zero hm hm
  simp only [JsNum.ofNat, JsNum.div, if_neg hlen, JsNum.mul, if_neg hmm, JsNum.sub, JsNum.max0,
    JsNum.num.injEq, balanceFormula, variance, List.length_map, zero_add, pow_two]

theorem sum_squares_nonneg (c : List ℚ) (m : ℚ) : 0 ≤ (c.map fun x => (x - m) ^ 2).sum := by
  induction c with
  | nil => simp
  | cons x xs ih =>
    rw [List.map_cons, List.sum_cons]
    positivity

theorem sum_squares_eq_zero (c : List ℚ) (m : ℚ) :
    (c.map fun x => (x - m) ^ 2).sum = 0 ↔ ∀ x ∈ c, x = m := by
  induction c with
  | nil => simp
  | cons x xs ih =>
    rw [List.map_cons, List.sum_cons]
    have h1 : 0 ≤ (x - m) ^ 2 := by positivity
    have h2 := sum_squares_nonneg xs m
    constructor
    · intro h
      have hx : (x - m) ^ 2 = 0 := by linarith
      have hxs : (xs.map fun x => (x - m) ^ 2).sum = 0 := by linarith
      intro y hy
      rcases List.mem_cons.1 hy with rfl | hy
      · have := pow_eq_zero_iff (two_ne_zero) |>.1 hx
        linarith
      · exact ih.1 hxs y hy
    · intro h
      have hx : x = m := h x (List.mem_cons_self _ _)
      have hxs := ih.2 fun y hy => h y (List.mem_cons_of_mem _ hy)
      rw [hxs, hx]
      simp

theorem sum_of_constant (c : List ℚ) (a : ℚ) (h : ∀ x ∈ c, x = a) :
    c.sum = (c.length : ℚ) * a := by
  induction c with
  | nil => simp
  | cons x xs ih =>
    rw [List.sum_cons, ih fun y hy => h y (List.mem_cons_of_mem _ hy),
      h x (List.mem_cons_self _ _), List.length_cons]
    push_cast
    ring

/-- The variance of a list that is not empty is zero exactly when all its members are
equal. -/
theorem variance_eq_zero (c : List ℚ) (hc : c ≠ []) :
    variance c = 0 ↔ ∀ x ∈ c, ∀ y ∈ c, x = y := by
  have hlen : (c.length : ℚ) ≠ 0 := by
    rw [Nat.cast_ne_zero]
    exact fun h => hc (List.length_eq_zero.1 h)
  unfold variance
  rw [div_eq_zero_iff, sum_squares_eq_zero]
  constructor
  · rintro (h | h)
    · intro x hx y hy
      rw [h x hx, h y hy]
    · exact absurd h hlen
  · intro h
    left
    obtain ⟨a, ha⟩ := List.exists_mem_of_ne_nil c hc
    have hall : ∀ x ∈ c, x = a := fun x hx => h x hx a ha
    have hmean : mean c = a := by
      unfold mean
      rw [sum_of_constant c a hall]
      field_simp
    intro x hx
    rw [hmean]
    exact hall x hx

theorem mean_sessionCounts_pos {schedule : Schedule} {faculty : List Faculty}
    (h : ∃ f ∈ faculty, ∃ d, ∃ c ∈ schedule d, c.faculty = some f.id) :
    0 < mean (sessionCounts schedule faculty) := by
  obtain ⟨f, hf, d, c, hc, hcf⟩ := h
  rw [sessionCounts_eq]
  unfold mean
  have hlen : 0 < faculty.length := List.length_pos.2 (List.ne_nil_of_mem hf)
  have hpos : 0 < totalHours schedule f := by
    by_contra h0
    have hz : totalHours schedule f = 0 := by omega
    rw [totalHours_eq] at hz
    have := List.sum_eq_zero_iff.1 hz _ (List.mem_map_of_mem _ (by cases d <;> decide : d ∈ days))
    rw [List.length_eq_zero, List.filter_eq_nil_iff] at this
    exact this c hc (by simpa using hcf)
  have hsum : 0 < (faculty.map (totalHours schedule)).sum :=
    Nat.lt_of_lt_of_le hpos (List.single_le_sum (fun _ _ => Nat.zero_le _) _
      (List.mem_map_of_mem _ hf))
  rw [← cast_sum_nat, List.length_map, List.length_map]
  have h1 : (0 : ℚ) < ((faculty.map (totalHours schedule)).sum : ℕ) := by exact_mod_cast hsum
  have h2 : (0 : ℚ) < (faculty.length : ℕ) := by exact_mod_cast hlen
  exact div_pos h1 h2

/-- Claim C25: when at least one session is assigned to a listed faculty member,
`evaluateWorkloadBalance` is `max(0, 1 − variance(c) / mean(c)²)` for the session counts `c` of
the listed faculty, with the population variance; the value lies between 0 and 1, and it is 1
exactly when all listed faculty have the same session count. -/
theorem evaluateWorkloadBalance_formula (schedule : Schedule) (faculty : List Faculty)
    (h : ∃ f ∈ faculty, ∃ d, ∃ c ∈ schedule d, c.faculty = some f.id) :
    evaluateWorkloadBalance schedule faculty =
        .num (balanceFormula (sessionCounts schedule faculty)) ∧
      0 ≤ balanceFormula (sessionCounts schedule faculty) ∧
      balanceFormula (sessionCounts schedule faculty) ≤ 1 ∧
      (balanceFormula (sessionCounts schedule faculty) = 1 ↔
        ∀ x ∈ sessionCounts schedule faculty, ∀ y ∈ sessionCounts schedule faculty, x = y) := by
  have hm := mean_sessionCounts_pos h
  have hne : sessionCounts schedule faculty ≠ [] := by
    obtain ⟨f, hf, _⟩ := h
    unfold sessionCounts
    intro h0
    rw [List.map_eq_nil_iff] at h0
    rw [h0] at hf
    cases hf
  have hv : 0 ≤ variance (sessionCounts schedule faculty) := by
    unfold variance
    exact div_nonneg (sum_squares_nonneg _ _) (Nat.cast_nonneg _)
  have hsq : 0 < mean (sessionCounts schedule faculty) ^ 2 := by positivity
  have hq : 0 ≤ variance (sessionCounts schedule faculty) /
      mean (sessionCounts schedule faculty) ^ 2 := div_nonneg hv (le_of_lt hsq)
  refine ⟨evaluateWorkloadBalance_eq schedule faculty (ne_of_gt hm), le_max_left _ _,
    max_le (by norm_num) (by linarith), ?_⟩
  rw [← variance_eq_zero _ hne]
  unfold balanceFormula
  constructor
  · intro h1
    have : 1 - variance (sessionCounts schedule faculty) /
        mean (sessionCounts schedule faculty) ^ 2 = 1 := by
      rcases max_choice (0 : ℚ) (1 - variance (sessionCounts schedule faculty) /
        mean (sessionCounts schedule faculty) ^ 2) with hc | hc
      · rw [hc] at h1; norm_num at h1
      · rw [hc] at h1; exact h1
    have h0 : variance (sessionCounts schedule faculty) /
        mean (sessionCounts schedule faculty) ^ 2 = 0 := by linarith
    rcases div_eq_zero_iff.1 h0 with h0 | h0
    · exact h0
    · exact absurd h0 (ne_of_gt hsq)
  · intro h0
    rw [h0, zero_div, sub_zero]
    exact max_eq_right (by norm_num)

/-- Witness for claim C25: the schedule with one session of the sample faculty member. -/
theorem evaluateWorkloadBalance_formula_witness :
    (∃ f ∈ [sampleFaculty], ∃ d, ∃ c ∈ oneSession d, c.faculty = some f.id) ∧
      evaluateWorkloadBalance oneSession [sampleFaculty] =
        .num (balanceFormula (sessionCounts oneSession [sampleFaculty])) ∧
      0 ≤ balanceFormula (sessionCounts oneSession [sampleFaculty]) ∧
      balanceFormula (sessionCounts oneSession [sampleFaculty]) ≤ 1 ∧
      (balanceFormula (sessionCounts oneSession [sampleFaculty]) = 1 ↔
        ∀ x ∈ sessionCounts oneSession [sampleFaculty],
          ∀ y ∈ sessionCounts oneSession [sampleFaculty], x = y) :=
  ⟨⟨sampleFaculty, List.mem_singleton.2 rfl, .monday, mondaySession,
      List.mem_singleton.2 rfl, rfl⟩,
    evaluateWorkloadBalance_formula oneSession [sampleFaculty]
      ⟨sampleFaculty, List.mem_singleton.2 rfl, .monday, mondaySession,
        List.mem_singleton.2 rfl, rfl⟩⟩

/-! ## The weighted sum of the score (C26) -/

/-- Claim C26: for every schedule, faculty list, classroom list and constraints, the overall
score of the metrics is the weighted sum of the design, with the utilization and the balance the
program computes and the two constants 0.85 and 0.90; the weights sum to 1; when utilization
and balance are numbers `u` and `b` the score is the number
`100 × (0.25 u + 0.30 b + 0.25 × 0.85 + 0.20 × 0.90)`, which lies between 0 and 100 when `u` and
`b` lie between 0 and 1. -/
theorem calculateOverallScore_formula (schedule : Schedule) (faculty : List Faculty)
    (classrooms : List Classroom) (constraints : Constraints) :
    calculateOverallScore (calculateMetrics schedule faculty classrooms constraints) =
        scoreFormula (evaluateRoomUtilization schedule classrooms)
          (evaluateWorkloadBalance schedule faculty) ∧
      (25 / 100 + 30 / 100 + 25 / 100 + 20 / 100 : ℚ) = 1 ∧
      ∀ u b : ℚ, evaluateRoomUtilization schedule classrooms = .num u →
        evaluateWorkloadBalance schedule faculty = .num b →
        calculateOverallScore (calculateMetrics schedule faculty classrooms constraints) =
          .num (100 * (25 / 100 * u + 30 / 100 * b + 25 / 100 * (85 / 100) +
            20 / 100 * (90 / 100))) ∧
        (0 ≤ u → u ≤ 1 → 0 ≤ b → b ≤ 1 →
          0 ≤ 100 * (25 / 100 * u + 30 / 100 * b + 25 / 100 * (85 / 100) +
            20 / 100 * (90 / 100)) ∧
          100 * (25 / 100 * u + 30 / 100 * b + 25 / 100 * (85 / 100) +
            20 / 100 * (90 / 100)) ≤ 100) := by
  refine ⟨?_, by norm_num, fun u b hu hb => ⟨?_, fun h1 h2 h3 h4 => ⟨by positivity, by linarith⟩⟩⟩
  · unfold calculateOverallScore calculateMetrics scoreFormula
    simp only [List.foldl_cons, List.foldl_nil]
    cases evaluateRoomUtilization schedule classrooms with
    | nan => cases evaluateWorkloadBalance schedule faculty <;> rfl
    | num u =>
      cases evaluateWorkloadBalance schedule faculty with
      | nan => rfl
      | num b =>
        simp only [JsNum.mul, JsNum.add, JsNum.num.injEq]
        ring
  · unfold calculateOverallScore calculateMetrics
    simp only [hu, hb, List.foldl_cons, List.foldl_nil, JsNum.mul, JsNum.add, JsNum.num.injEq]
    ring

/-! ## Constraints the program does not read (C27) -/

theorem evaluateFitness_constraints {c c' : Constraints}
    (h : c.maxClassesPerDay = c'.maxClassesPerDay) (schedule : Schedule)
    (faculty : List Faculty) (classrooms : List Classroom) :
    evaluateFitness schedule faculty classrooms c =
      evaluateFitness schedule faculty classrooms c' := by
  have hm : maxClassesPerDay c = maxClassesPerDay c' := by
    unfold maxClassesPerDay
    rw [h]
  unfold evaluateFitness evaluateDailyLimits
  rw [hm]

theorem generation_constraints {c c' : Constraints}
    (h : c.maxClassesPerDay = c'.maxClassesPerDay) (ρ : Nat → Nat) (faculty : List Faculty)
    (classrooms : List Classroom) (st : Search) :
    generation ρ faculty classrooms c st = generation ρ faculty classrooms c' st := by
  have hr : rankedPopulation faculty classrooms c st =
      rankedPopulation faculty classrooms c' st := by
    unfold rankedPopulation evaluatePopulation
    congr 1
    apply List.map_congr_left
    intro x _
    rw [evaluateFitness_constraints h]
  unfold generation
  simp only [hr]

theorem evolve_constraints {c c' : Constraints}
    (h : c.maxClassesPerDay = c'.maxClassesPerDay) (ρ : Nat → Nat) (faculty : List Faculty)
    (classrooms : List Classroom) (gen : Nat) :
    ∀ st : Search, evolve ρ faculty classrooms c gen st =
      evolve ρ faculty classrooms c' gen st := by
  induction gen with
  | zero => intro st; rfl
  | succ n ih =>
    intro st
    unfold evolve
    rw [generation_constraints h, ih]

theorem Res.bind_congr {α β : Type} (r : Res α) {f g : α → Res β} (h : ∀ a, f a = g a) :
    r.bind f = r.bind g := by
  cases r with
  | ok a => exact h a
  | thrown m => rfl
  | outOfFuel => rfl

theorem searchAfter_constraints {c c' : Constraints}
    (h : c.maxClassesPerDay = c'.maxClassesPerDay) (fuel : Nat) (ρ : Nat → Nat) (gen : Nat)
    (schedule : Schedule) (subjects : List Subject) (faculty : List Faculty)
    (classrooms : List Classroom) :
    searchAfter fuel ρ gen schedule subjects faculty classrooms c =
      searchAfter fuel ρ gen schedule subjects faculty classrooms c' :=
  Res.bind_congr _ fun st => by rw [evolve_constraints h]

theorem optimize_constraints {c c' : Constraints}
    (h : c.maxClassesPerDay = c'.maxClassesPerDay) (fuel : Nat) (ρ : Nat → Nat)
    (schedule : Schedule) (subjects : List Subject) (faculty : List Faculty)
    (classrooms : List Classroom) :
    optimizeWithGeneticAlgorithm fuel ρ schedule subjects faculty classrooms c =
      optimizeWithGeneticAlgorithm fuel ρ schedule subjects faculty classrooms c' := by
  unfold optimizeWithGeneticAlgorithm
  rw [searchAfter_constraints h]

/-- The entry point reads `maxClassesPerDay` only: two constraints objects that agree on it
give the same result. -/
theorem generateOptimizedTimetable_constraints (c c' : Constraints)
    (h : c.maxClassesPerDay = c'.maxClassesPerDay) (fuel : Nat) (ρ : Nat → Nat)
    (subjects : List Subject) (faculty : List Faculty) (classrooms : List Classroom) :
    generateOptimizedTimetable fuel ρ c subjects faculty classrooms =
      generateOptimizedTimetable fuel ρ c' subjects faculty classrooms := by
  have hb : generateBody fuel ρ c subjects faculty classrooms =
      generateBody fuel ρ c' subjects faculty classrooms := by
    unfold generateBody
    apply Res.bind_congr
    intro placed
    rw [optimize_constraints h]
    apply Res.bind_congr
    intro optimizedSchedule
    rfl
  unfold generateOptimizedTimetable
  rw [hb]

/-- Claim C27 as amended: the slot catalog is fixed.  The entry point reads no field of the
constraints but `maxClassesPerDay`: dropping the day start, the day end, the lunch break and
the class duration leaves the result as it is; and every session `createRandomSchedule`
appends has a time slot of the seven-slot catalog. -/
theorem generateOptimizedTimetable_ignores_bounds (fuel : Nat) (ρ : Nat → Nat)
    (constraints : Constraints) (subjects : List Subject) (faculty : List Faculty)
    (classrooms : List Classroom) :
    generateOptimizedTimetable fuel ρ constraints subjects faculty classrooms =
        generateOptimizedTimetable fuel ρ { maxClassesPerDay := constraints.maxClassesPerDay }
          subjects faculty classrooms ∧
      ∀ (pos pos' : Nat) (baseSchedule schedule : Schedule),
        createRandomSchedule fuel ρ pos baseSchedule subjects faculty classrooms =
          .ok (schedule, pos') →
        ∀ d, ∃ appended, schedule d = baseSchedule d ++ appended ∧
          ∀ x ∈ appended, x.timeSlot ∈ timeSlots := by
  refine ⟨generateOptimizedTimetable_constraints constraints
    { maxClassesPerDay := constraints.maxClassesPerDay } rfl fuel ρ subjects faculty classrooms,
    fun pos pos' baseSchedule schedule hret d => ?_⟩
  obtain ⟨appended, ha, hv⟩ := placeSubjects_valid subjects _
    (fun _ hs => mem_remainingSubjects.1 hs) hret d
  exact ⟨appended, ha, fun x hx => (hv x hx).2.1⟩

/-- Counterexample to claim C27 as stated: constraints with a day from 10:00 to 16:00, one
subject, one faculty member, one classroom.  The candidate generator places a session at
09:00-10:00, before the day start, and the returned schedule holds it. -/
theorem generateOptimizedTimetable_before_start :
    boundedDay.startTime = some "10:00" ∧
      createRandomSchedule 1 lateCrossDraws 0 initializeSchedule [sampleSubject 1]
        [sampleFaculty] [sampleClassroom] = .ok (oneSession, 2) ∧
      generateOptimizedTimetable 1 lateCrossDraws boundedDay [sampleSubject 1] [sampleFaculty]
        [sampleClassroom] = .ok lateResult ∧
      lateResult.schedule .monday = [mondaySession] ∧
      mondaySession.timeSlot = ⟨"09:00", "10:00"⟩ ∧
      mondaySession.isFixed = false := by
  refine ⟨rfl, rfl, ?_, rfl, rfl, rfl⟩
  rw [generateOptimizedTimetable_constraints boundedDay {} rfl]
  exact late_result

/-! ## Session objects shared with the parents (C28) -/

/-- Claim C28, what holds and a failing input.  `mutate` leaves the day lists of every
individual and every field of a session other than the time slot as they were.  But the
offspring of `crossover` holds the session objects of its parents, not copies: with a parent
holding the session object `0` (Monday 09:00-10:00) and a parent holding the session object `1`
(Monday 10:00-11:00), the offspring holds `0` and `1`, `mutate` on the offspring writes the slot
11:00-12:00 to the object `0`, and the first parent's session is at 11:00-12:00 afterwards. -/
theorem mutate_writes_parent :
    (∀ (h : Heap) (ρ : Nat → Nat) (pos : Nat) (offspring other : RefSchedule) (d : Day),
      (deref (mutate h ρ pos offspring).1 other d).map ScheduledClass.frame =
        (deref h other d).map ScheduledClass.frame) ∧
      crossover parentHeap slotDraws 0 (onDay .monday [0]) (onDay .monday [1]) =
        (onDay .monday [0, 1], 2) ∧
      mutate parentHeap slotDraws 2 (onDay .monday [0, 1]) =
        ([{ mondaySession with timeSlot := ⟨"11:00", "12:00"⟩ }, lateSession], 5) ∧
      deref parentHeap (onDay .monday [0]) .monday = [mondaySession] ∧
      deref (mutate parentHeap slotDraws 2 (onDay .monday [0, 1])).1 (onDay .monday [0]) .monday =
        [{ mondaySession with timeSlot := ⟨"11:00", "12:00"⟩ }] ∧
      mondaySession.timeSlot = ⟨"09:00", "10:00"⟩ := by
  refine ⟨fun h ρ pos offspring other d => ?_, by decide, by decide, rfl, by decide, rfl⟩
  simp only [deref, List.map_map]
  apply List.map_congr_left
  intro r _
  exact (mutate_keeps h ρ pos offspring).2 r

/-! ## The first attempt of a subject (C29) -/

/-- What the `while` loop of one subject does when it returns: it places `k` sessions of the
subject, and either none, leaving the schedule alone (the loop was not entered, or the first
attempt placed nothing), or as many as were still required. -/
theorem placeLoop_outcome {ρ : Nat → Nat} {faculty : List Faculty}
    {classrooms : List Classroom} {subject : Subject} (fuel : Nat) :
    ∀ {schedule schedule' : Schedule} {pos pos' placed : Nat},
      placeLoop ρ faculty classrooms subject fuel schedule pos placed = .ok (schedule', pos') →
      ∃ k, (∀ i, sessionsOf i schedule' =
          sessionsOf i schedule + if subject.id = i then k else 0) ∧
        ((k = 0 ∧ schedule' = schedule ∧
            (placed = 0 ∨ subject.classRequirements.classesPerWeek ≤ placed)) ∨
          (placed < subject.classRequirements.classesPerWeek ∧
            placed + k = subject.classRequirements.classesPerWeek)) := by
  induction fuel with
  | zero =>
    intro schedule schedule' pos pos' placed h
    unfold placeLoop at h
    split at h
    · cases h
    · simp only [Res.ok.injEq, Prod.mk.injEq] at h
      rw [← h.1]
      exact ⟨0, fun i => by simp, Or.inl ⟨rfl, rfl, Or.inr (by omega)⟩⟩
  | succ n ih =>
    intro schedule schedule' pos pos' placed h
    unfold placeLoop at h
    split at h
    · rename_i hlt
      split at h
      · rename_i s1 p1 ha
        rcases attempt_cases ha with ⟨rfl, rfl⟩ | ⟨f, c, _, _, _, rfl, rfl⟩
        · split at h
          · rename_i h0
            simp only [Res.ok.injEq, Prod.mk.injEq] at h
            rw [← h.1]
            exact ⟨0, fun i => by simp, Or.inl ⟨rfl, rfl, Or.inl h0⟩⟩
          · rename_i h0
            obtain ⟨k, hc, hk⟩ := ih h
            refine ⟨k, hc, ?_⟩
            rcases hk with ⟨_, _, hp | hp⟩ | hk
            · exact absurd hp h0
            · omega
            · exact Or.inr hk
        · rw [if_neg (by omega)] at h
          obtain ⟨k, hc, hk⟩ := ih h
          refine ⟨k + 1, fun i => ?_, Or.inr ⟨hlt, ?_⟩⟩
          · rw [hc i, sessionsOf_push]
            simp only [randomSession]
            split <;> omega
          · rcases hk with ⟨hk0, _, hp | hp⟩ | hk
            · omega
            · omega
            · omega
      · cases h
      · cases h
    · simp only [Res.ok.injEq, Prod.mk.injEq] at h
      rw [← h.1]
      exact ⟨0, fun i => by simp, Or.inl ⟨rfl, rfl, Or.inr (by omega)⟩⟩

/-- The `while` loop of a subject whose first attempt places nothing: it stops after that
attempt, with the schedule as it was. -/
theorem placeLoop_first_fails {ρ : Nat → Nat} {faculty : List Faculty}
    {classrooms : List Classroom} {subject : Subject} {schedule : Schedule} {pos : Nat}
    (fuel : Nat) (hreq : 0 < subject.classRequirements.classesPerWeek)
    (h : attempt ρ faculty classrooms subject schedule pos 0 = .ok (schedule, 0)) :
    placeLoop ρ faculty classrooms subject (fuel + 1) schedule pos 0 =
      .ok (schedule, pos + 2) := by
  unfold placeLoop
  rw [if_pos hreq, h]
  simp

theorem attempt_conflict {ρ : Nat → Nat} {faculty : List Faculty} {classrooms : List Classroom}
    {subject : Subject} {schedule : Schedule} {pos placed : Nat} {f : Faculty} {c : Classroom}
    (hf : findSuitableFaculty subject faculty (randomDay ρ pos)
      (randomTimeSlot ρ (pos + 1)).startTime = some f)
    (hc : findSuitableClassroom subject classrooms (randomDay ρ pos)
      (randomTimeSlot ρ (pos + 1)).startTime = some c)
    (hx : checkScheduleConflict (schedule (randomDay ρ pos)) (randomTimeSlot ρ (pos + 1))
      f.id c.id = .ok true) :
    attempt ρ faculty classrooms subject schedule pos placed = .ok (schedule, placed) := by
  unfold attempt
  simp only [hf, hc, hx, Res.bind, if_true]

theorem attempt_unsuited {ρ : Nat → Nat} {faculty : List Faculty} {classrooms : List Classroom}
    {subject : Subject} {schedule : Schedule} {pos placed : Nat}
    (h : findSuitableFaculty subject faculty (randomDay ρ pos)
        (randomTimeSlot ρ (pos + 1)).startTime = none ∨
      findSuitableClassroom subject classrooms (randomDay ρ pos)
        (randomTimeSlot ρ (pos + 1)).startTime = none) :
    attempt ρ faculty classrooms subject schedule pos placed = .ok (schedule, placed) := by
  unfold attempt
  simp only []
  split
  · rename_i f c hf hc
    rcases h with h | h
    · rw [h] at hf; cases hf
    · rw [h] at hc; cases hc
  · rfl

/-- Claim C29: in `createRandomSchedule`, when the first sampled day and slot of a subject that
requires at least one class lead to no placement (no suitable faculty member, no suitable
classroom, or a collision), the `while` loop of that subject stops after that one attempt and
the schedule holds no session more, whatever the other days and slots would have admitted; and
whenever the loop returns, it has placed none of the sessions of the subject or all the
`classesPerWeek` it requires.  Example: a faculty member away on Mondays and a first draw of
Monday give an empty candidate, while an attempt on Tuesday places a session. -/
theorem createRandomSchedule_abandons :
    (∀ (ρ : Nat → Nat) (faculty : List Faculty) (classrooms : List Classroom)
      (subject : Subject) (fuel : Nat) (schedule : Schedule) (pos : Nat),
      0 < subject.classRequirements.classesPerWeek →
      (findSuitableFaculty subject faculty (randomDay ρ pos)
          (randomTimeSlot ρ (pos + 1)).startTime = none ∨
        findSuitableClassroom subject classrooms (randomDay ρ pos)
          (randomTimeSlot ρ (pos + 1)).startTime = none ∨
        ∃ f c, findSuitableFaculty subject faculty (randomDay ρ pos)
            (randomTimeSlot ρ (pos + 1)).startTime = some f ∧
          findSuitableClassroom subject classrooms (randomDay ρ pos)
            (randomTimeSlot ρ (pos + 1)).startTime = some c ∧
          checkScheduleConflict (schedule (randomDay ρ pos)) (randomTimeSlot ρ (pos + 1))
            f.id c.id = .ok true) →
      placeLoop ρ faculty classrooms subject (fuel + 1) schedule pos 0 =
        .ok (schedule, pos + 2)) ∧
      (∀ (ρ : Nat → Nat) (faculty : List Faculty) (classrooms : List Classroom)
        (subject : Subject) (fuel : Nat) (schedule schedule' : Schedule) (pos pos' : Nat),
        placeLoop ρ faculty classrooms subject fuel schedule pos 0 = .ok (schedule', pos') →
        ∃ k, (∀ i, sessionsOf i schedule' =
            sessionsOf i schedule + if subject.id = i then k else 0) ∧
          ((k = 0 ∧ schedule' = schedule) ∨
            k = subject.classRequirements.classesPerWeek)) ∧
      createRandomSchedule 1 zeroDraws 0 initializeSchedule [sampleSubject 2]
        [mondayOffFaculty] [sampleClassroom] = .ok (initializeSchedule, 2) ∧
      attempt countingDraws [mondayOffFaculty] [sampleClassroom] (sampleSubject 2)
        initializeSchedule 1 0 =
        .ok (initializeSchedule.push .tuesday
          (randomSession (sampleSubject 2) ⟨"11:00", "12:00"⟩ mondayOffFaculty
            sampleClassroom), 1) := by
  refine ⟨fun ρ faculty classrooms subject fuel schedule pos hreq h => ?_,
    fun ρ faculty classrooms subject fuel schedule schedule' pos pos' h => ?_, rfl, rfl⟩
  · apply placeLoop_first_fails fuel hreq
    rcases h with h | h | ⟨f, c, hf, hc, hx⟩
    · exact attempt_unsuited (Or.inl h)
    · exact attempt_unsuited (Or.inr h)
    · exact attempt_conflict hf hc hx
  · obtain ⟨k, hc, hk⟩ := placeLoop_outcome fuel h
    refine ⟨k, hc, ?_⟩
    rcases hk with ⟨h0, hs, _⟩ | ⟨_, hk⟩
    · exact Or.inl ⟨h0, hs⟩
    · exact Or.inr (by omega)

/-! ## The returned conflict list (C30) -/

theorem placeFixedSlot_severity {subject : Subject} {st st' : Schedule × List Conflict}
    {fixedSlot : FixedSlot} (h : placeFixedSlot subject st fixedSlot = .ok st')
    (hst : ∀ c ∈ st.2, c.severity = .high) : ∀ c ∈ st'.2, c.severity = .high := by
  unfold placeFixedSlot at h
  simp only [] at h
  cases hc : checkTimeSlotConflict (st.1 fixedSlot.day)
      (fixedSlot.startTime ++ "-" ++ fixedSlot.endTime) fixedSlot.classroom with
  | ok b =>
    rw [hc] at h
    cases b with
    | true =>
      simp only [Res.bind, if_true, Res.ok.injEq] at h
      rw [← h]
      intro c hcm
      rcases List.mem_append.1 hcm with hcm | hcm
      · exact hst c hcm
      · rw [List.mem_singleton.1 hcm]; rfl
    | false =>
      simp only [Res.bind, Bool.false_eq_true, if_false, Res.ok.injEq] at h
      rw [← h]
      exact hst
  | thrown m => rw [hc] at h; simp [Res.bind] at h
  | outOfFuel => rw [hc] at h; simp [Res.bind] at h

theorem placeFixedSlots_severity {subject : Subject} (slots : List FixedSlot) :
    ∀ {st st' : Schedule × List Conflict}, placeFixedSlots subject slots st = .ok st' →
      (∀ c ∈ st.2, c.severity = .high) → ∀ c ∈ st'.2, c.severity = .high := by
  induction slots with
  | nil =>
    intro st st' h hst
    simp only [placeFixedSlots, Res.ok.injEq] at h
    rw [← h]; exact hst
  | cons fs rest ih =>
    intro st st' h hst
    unfold placeFixedSlots at h
    cases h1 : placeFixedSlot subject st fs with
    | ok st1 =>
      rw [h1] at h
      exact ih h (placeFixedSlot_severity h1 hst)
    | thrown m => rw [h1] at h; simp [Res.bind] at h
    | outOfFuel => rw [h1] at h; simp [Res.bind] at h

/-- Every conflict `placeFixedTimeSlots` records has severity `high`. -/
theorem placeFixedTimeSlots_severity (subjects : List Subject) :
    ∀ {st st' : Schedule × List Conflict}, placeFixedTimeSlots subjects st = .ok st' →
      (∀ c ∈ st.2, c.severity = .high) → ∀ c ∈ st'.2, c.severity = .high := by
  induction subjects with
  | nil =>
    intro st st' h hst
    simp only [placeFixedTimeSlots, Res.ok.injEq] at h
    rw [← h]; exact hst
  | cons s rest ih =>
    intro st st' h hst
    unfold placeFixedTimeSlots at h
    cases h1 : placeFixedSlots s s.fixedTimeSlots st with
    | ok st1 =>
      rw [h1] at h
      exact ih h (placeFixedSlots_severity _ h1 hst)
    | thrown m => rw [h1] at h; simp [Res.bind] at h
    | outOfFuel => rw [h1] at h; simp [Res.bind] at h

/-- The conflicts a returned result carries: those of `placeFixedTimeSlots`, all of them. -/
theorem generateOptimizedTimetable_placed {fuel : Nat} {ρ : Nat → Nat}
    {constraints : Constraints} {subjects : List Subject} {faculty : List Faculty}
    {classrooms : List Classroom} {r : OptimizationResult}
    (h : generateOptimizedTimetable fuel ρ constraints subjects faculty classrooms = .ok r) :
    ∃ placed, placeFixedTimeSlots subjects (initializeSchedule, []) = .ok placed ∧
      r.conflicts = placed.2 := by
  obtain ⟨placed, _, hp, _, _, _, _, hconf⟩ := generateOptimizedTimetable_ok h
  refine ⟨placed, hp, ?_⟩
  rw [hconf, List.filter_eq_self]
  intro c hc
  have := placeFixedTimeSlots_severity subjects hp
    (fun _ hx => absurd hx (List.not_mem_nil _)) c hc
  simp [this]

theorem initialPopulation_fixed {subjects : List Subject}
    (hfixed : remainingSubjects subjects = []) (fuel : Nat) (ρ : Nat → Nat)
    (baseSchedule : Schedule) (faculty : List Faculty) (classrooms : List Classroom)
    (count : Nat) :
    ∀ st : Search, ∃ st',
      initialPopulation fuel ρ baseSchedule subjects faculty classrooms count st = .ok st' := by
  induction count with
  | zero => intro st; exact ⟨st, rfl⟩
  | succ n ih =>
    intro st
    have hc : createRandomSchedule fuel ρ st.pos baseSchedule subjects faculty classrooms =
        .ok (baseSchedule, st.pos) := by
      unfold createRandomSchedule
      rw [hfixed]
      rfl
    unfold initialPopulation
    rw [hc]
    exact ih _

/-- The entry point returns when every subject has fixed slots and the fixed-slot placer
returns: the candidate generator has nothing to place. -/
theorem generateOptimizedTimetable_fixed (subjects : List Subject)
    (hfixed : remainingSubjects subjects = []) {placed : Schedule × List Conflict}
    (hp : placeFixedTimeSlots subjects (initializeSchedule, []) = .ok placed) (fuel : Nat)
    (ρ : Nat → Nat) (constraints : Constraints) (faculty : List Faculty)
    (classrooms : List Classroom) :
    ∃ r, generateOptimizedTimetable fuel ρ constraints subjects faculty classrooms = .ok r := by
  obtain ⟨st0, h0⟩ := initialPopulation_fixed hfixed fuel ρ placed.1 faculty classrooms
    populationSize { heap := [], pos := 0, population := [] }
  unfold generateOptimizedTimetable generateBody optimizeWithGeneticAlgorithm searchAfter
  rw [hp]
  simp only [Res.bind]
  rw [h0]
  exact ⟨_, rfl⟩

/-- Claim C30: when `generateOptimizedTimetable` returns, its conflict list is the list
`placeFixedTimeSlots` produced, entry for entry and in the same order (every entry has severity
`high`, so the filter on `resolved` drops none); hence any other run on the same subjects that
returns, with other draws, fuel, constraints, faculty or classrooms, returns the same conflict
list. -/
theorem generateOptimizedTimetable_conflicts (fuel : Nat) (ρ : Nat → Nat)
    (constraints : Constraints) (subjects : List Subject) (faculty : List Faculty)
    (classrooms : List Classroom) (r : OptimizationResult)
    (hret : generateOptimizedTimetable fuel ρ constraints subjects faculty classrooms =
      .ok r) :
    (∃ placed, placeFixedTimeSlots subjects (initializeSchedule, []) = .ok placed ∧
        r.conflicts = placed.2) ∧
      ∀ (fuel' : Nat) (ρ' : Nat → Nat) (constraints' : Constraints) (faculty' : List Faculty)
        (classrooms' : List Classroom) (r' : OptimizationResult),
        generateOptimizedTimetable fuel' ρ' constraints' subjects faculty' classrooms' =
          .ok r' → r'.conflicts = r.conflicts := by
  obtain ⟨placed, hp, hc⟩ := generateOptimizedTimetable_placed hret
  refine ⟨⟨placed, hp, hc⟩, fun fuel' ρ' constraints' faculty' classrooms' r' hret' => ?_⟩
  obtain ⟨placed', hp', hc'⟩ := generateOptimizedTimetable_placed hret'
  rw [hp] at hp'
  simp only [Res.ok.injEq] at hp'
  rw [hc, hc', hp']

/-- Witness for claim C30: a subject listed twice with the same fixed slot.  The run returns,
and its conflict list is the one conflict the fixed-slot placer recorded. -/
theorem generateOptimizedTimetable_conflicts_witness :
    ∃ r, generateOptimizedTimetable 1 zeroDraws {} [fixedSubject, fixedSubject]
        [sampleFaculty] [sampleClassroom] = .ok r ∧
      r.conflicts = [fixedSlotConflict fixedSubject .monday "09:00-10:00"] ∧
      (∃ placed, placeFixedTimeSlots [fixedSubject, fixedSubject] (initializeSchedule, []) =
          .ok placed ∧ r.conflicts = placed.2) ∧
      ∀ (fuel' : Nat) (ρ' : Nat → Nat) (constraints' : Constraints) (faculty' : List Faculty)
        (classrooms' : List Classroom) (r' : OptimizationResult),
        generateOptimizedTimetable fuel' ρ' constraints' [fixedSubject, fixedSubject] faculty'
          classrooms' = .ok r' → r'.conflicts = r.conflicts := by
  obtain ⟨r, hr⟩ := generateOptimizedTimetable_fixed [fixedSubject, fixedSubject]
    rfl placeFixedTimeSlots_twice 1 zeroDraws {} [sampleFaculty] [sampleClassroom]
  have h := generateOptimizedTimetable_conflicts 1 zeroDraws {} [fixedSubject, fixedSubject]
    [sampleFaculty] [sampleClassroom] r hr
  refine ⟨r, hr, ?_, h⟩
  obtain ⟨placed, hp, hc⟩ := h.1
  rw [placeFixedTimeSlots_twice] at hp
  simp only [Res.ok.injEq] at hp
  rw [hc, ← hp]

end TimetableOptimizer
